import Mathlib

/-!
Shallow embedding of the CanvasIty software rasterizer
(Source/CanvasIty/Private/canvas_ity.cpp, class `canvas`) over exact
rationals.  C `float` values are modelled as `ℚ`; the transcendental
library functions the source calls (`sqrtf`, `cosf`, `sinf`, `tanf`,
`acosf`, `atan2f`, `powf`) are not rational-valued, so they are passed
in as an explicit bundle `MathFns` of unintepreted rational functions
and every theorem quantifies over that bundle.  Loops whose termination
the source does not bound syntactically take an explicit `fuel`
argument; theorems about them hold for every fuel value.
-/

set_option maxHeartbeats 1000000

-- The kernel reduces the rational primitives fine, but `decide` and
-- `rfl` stop at their `@[irreducible]` marking; restore the default
-- reducibility so concrete evaluations can be checked by `decide`.
set_option allowUnsafeReducibility true
attribute [local semireducible] Rat.add Rat.mul Rat.inv Rat.sub Rat.neg
  Rat.div Rat.blt Rat.ofScientific

namespace CanvasIty

/-- Bundle of the C math-library functions used by the source, modelled
as unintepreted functions on `ℚ`. -/
structure MathFns where
  sqrtq : ℚ → ℚ
  cosq : ℚ → ℚ
  sinq : ℚ → ℚ
  tanq : ℚ → ℚ
  acosq : ℚ → ℚ
  atan2q : ℚ → ℚ → ℚ
  powq : ℚ → ℚ → ℚ

/-- Truncation toward zero. -/
def qtrunc (x : ℚ) : ℤ := if 0 ≤ x then ⌊x⌋ else ⌈x⌉

/-- C `fmodf`: remainder with the sign of the dividend,
`x - trunc(x/y) * y`. -/
def fmodq (x y : ℚ) : ℚ :=
  x - y * ((qtrunc (x / y) : ℤ) : ℚ)

/-- C `floorf` as a rational-valued function. -/
def qfloor (x : ℚ) : ℚ := ((⌊x⌋ : ℤ) : ℚ)

/-- C `ceilf` as a rational-valued function. -/
def qceil (x : ℚ) : ℚ := ((⌈x⌉ : ℤ) : ℚ)

/-- C `roundf`: round half away from zero. -/
def qroundf (x : ℚ) : ℚ :=
  if 0 ≤ x then ((⌊x + 1 / 2⌋ : ℤ) : ℚ) else ((⌈x - 1 / 2⌉ : ℤ) : ℚ)

/-- C `static_cast<int>` of a float: truncation toward zero. -/
def qtoInt (x : ℚ) : ℤ := qtrunc x

/-- C `static_cast<unsigned short>` of a nonnegative in-range float:
truncation, wrapped to 16 bits. -/
def qtoU16 (x : ℚ) : ℕ := (qtrunc x).toNat % 65536

-- 2D vector math operations (canvas_ity.cpp lines 30-59)

/-- `struct xy { float x, y; }`. -/
structure xy where
  x : ℚ
  y : ℚ
deriving DecidableEq, Repr

instance : Add xy := ⟨fun l r => ⟨l.x + r.x, l.y + r.y⟩⟩
instance : Sub xy := ⟨fun l r => ⟨l.x - r.x, l.y - r.y⟩⟩
instance : HMul ℚ xy xy := ⟨fun s v => ⟨s * v.x, s * v.y⟩⟩

/-- `struct affine_matrix { float a, b, c, d, e, f; }`. -/
structure affine_matrix where
  a : ℚ
  b : ℚ
  c : ℚ
  d : ℚ
  e : ℚ
  f : ℚ
deriving DecidableEq, Repr

/-- `operator*( affine_matrix, xy )`. -/
def amul (l : affine_matrix) (r : xy) : xy :=
  ⟨l.a * r.x + l.c * r.y + l.e, l.b * r.x + l.d * r.y + l.f⟩

def dot (l r : xy) : ℚ := l.x * r.x + l.y * r.y

def length (mf : MathFns) (that : xy) : ℚ := mf.sqrtq (dot that that)

def direction (mf : MathFns) (that : xy) : ℚ := mf.atan2q that.y that.x

def normalized (mf : MathFns) (that : xy) : xy :=
  (1 / max (1e-6 : ℚ) (length mf that)) * that

def perpendicular (that : xy) : xy := ⟨-that.y, that.x⟩

def lerp (p q : xy) (r : ℚ) : xy := p + r * (q - p)

-- RGBA color operations (canvas_ity.cpp lines 61-104)

/-- `struct rgba { float r, g, b, a; }`. -/
structure rgba where
  r : ℚ
  g : ℚ
  b : ℚ
  a : ℚ
deriving DecidableEq, Repr

instance : Add rgba := ⟨fun l q => ⟨l.r + q.r, l.g + q.g, l.b + q.b, l.a + q.a⟩⟩
instance : Sub rgba := ⟨fun l q => ⟨l.r - q.r, l.g - q.g, l.b - q.b, l.a - q.a⟩⟩
instance : HMul ℚ rgba rgba := ⟨fun s v => ⟨s * v.r, s * v.g, s * v.b, s * v.a⟩⟩

def linearized1 (mf : MathFns) (value : ℚ) : ℚ :=
  if value < 0.04045 then value / 12.92 else mf.powq ((value + 0.055) / 1.055) 2.4

def linearized (mf : MathFns) (that : rgba) : rgba :=
  ⟨linearized1 mf that.r, linearized1 mf that.g, linearized1 mf that.b, that.a⟩

def premultiplied (that : rgba) : rgba :=
  ⟨that.r * that.a, that.g * that.a, that.b * that.a, that.a⟩

def delinearized1 (mf : MathFns) (value : ℚ) : ℚ :=
  if value < 0.0031308 then 12.92 * value else 1.055 * mf.powq value (1 / 2.4) - 0.055

def delinearized (mf : MathFns) (that : rgba) : rgba :=
  ⟨delinearized1 mf that.r, delinearized1 mf that.g, delinearized1 mf that.b, that.a⟩

def unpremultiplied (that : rgba) : rgba :=
  if that.a < 1 / 8160 then ⟨0, 0, 0, 0⟩ else
    ⟨1 / that.a * that.r, 1 / that.a * that.g, 1 / that.a * that.b, that.a⟩

def clamped (that : rgba) : rgba :=
  ⟨min (max that.r 0) 1, min (max that.g 0) 1,
   min (max that.b 0) 1, min (max that.a 0) 1⟩

-- TTF byte helpers (canvas_ity.cpp lines 204-219); `data` is modelled
-- as a byte list, out-of-range reads yield 0.

def unsigned_8 (data : List ℕ) (index : ℤ) : ℤ :=
  (data.getD index.toNat 0 : ℤ)

def signed_8 (data : List ℕ) (index : ℤ) : ℤ :=
  let v := unsigned_8 data index
  if v < 128 then v else v - 256

def unsigned_16 (data : List ℕ) (index : ℤ) : ℤ :=
  unsigned_8 data index * 256 + unsigned_8 data (index + 1)

def signed_16 (data : List ℕ) (index : ℤ) : ℤ :=
  let v := unsigned_16 data index
  if v < 32768 then v else v - 65536

def signed_32 (data : List ℕ) (index : ℤ) : ℤ :=
  unsigned_8 data index * 16777216 + unsigned_8 data (index + 1) * 65536 +
    unsigned_8 data (index + 2) * 256 + unsigned_8 data (index + 3)

-- Public API enums (canvas_ity.hpp lines 144-155).  The aliasing enums
-- are modelled as numeric constants so aliased enumerators compare equal
-- exactly as in the source.

/-- `enum composite_operation { source_in = 1, source_copy, source_out,
destination_in, destination_atop = 7, lighter = 10, destination_over,
destination_out, source_atop, source_over, exclusive_or }`. -/
def source_in : ℕ := 1
def source_copy : ℕ := 2
def source_out : ℕ := 3
def destination_in : ℕ := 4
def destination_atop : ℕ := 7
def lighter : ℕ := 10
def destination_over : ℕ := 11
def destination_out : ℕ := 12
def source_atop : ℕ := 13
def source_over : ℕ := 14
def exclusive_or : ℕ := 15

inductive cap_style where
  | butt
  | square
  | circle
deriving DecidableEq, Repr

inductive join_style where
  | miter
  | bevel
  | rounded
deriving DecidableEq, Repr

inductive brush_type where
  | fill_style
  | stroke_style
deriving DecidableEq, Repr

/-- `enum repetition_style { repeat, repeat_x, repeat_y, no_repeat }`,
kept numeric because the source tests its bits. -/
def rep_repeat : ℕ := 0
def rep_repeat_x : ℕ := 1
def rep_repeat_y : ℕ := 2
def rep_no_repeat : ℕ := 3

/-- `enum align_style { leftward, rightward, center, start = 0, ending }`:
`start` aliases `leftward` and `ending` aliases `rightward`. -/
def align_leftward : ℕ := 0
def align_rightward : ℕ := 1
def align_center : ℕ := 2
def align_start : ℕ := 0
def align_ending : ℕ := 1

/-- `enum baseline_style { alphabetic, top, middle, bottom, hanging,
ideographic = 3 }`: `ideographic` aliases `bottom`. -/
def baseline_alphabetic : ℕ := 0
def baseline_top : ℕ := 1
def baseline_middle : ℕ := 2
def baseline_bottom : ℕ := 3
def baseline_hanging : ℕ := 4
def baseline_ideographic : ℕ := 3

-- The per-pixel mix factors of canvas::render_main (lines 1488-1493):
-- the composite operation value is used directly as a 4-bit mask.

/-- `mix_fore = operation & 1 ? back.a : 0; if (operation & 2)
mix_fore = 1 - mix_fore;` from `canvas::render_main`. -/
def mix_fore (operation : ℕ) (backA : ℚ) : ℚ :=
  let m : ℚ := if operation.testBit 0 then backA else 0
  if operation.testBit 1 then 1 - m else m

/-- `mix_back = operation & 4 ? fore.a : 0; if (operation & 8)
mix_back = 1 - mix_back;` from `canvas::render_main`. -/
def mix_back (operation : ℕ) (foreA : ℚ) : ℚ :=
  let m : ℚ := if operation.testBit 2 then foreA else 0
  if operation.testBit 3 then 1 - m else m

-- Implementation data structures (canvas_ity.hpp lines 169-185)

/-- `struct paint_brush { enum types { color, linear, radial, pattern }
type; ... }`.  The field `end` is renamed `end_` (Lean keyword). -/
inductive brush_types where
  | color
  | linear
  | radial
  | pattern
deriving DecidableEq, Repr

structure paint_brush where
  type : brush_types
  colors : List rgba
  stops : List ℚ
  start : xy
  end_ : xy
  start_radius : ℚ
  end_radius : ℚ
  width : ℕ
  height : ℕ
  repetition : ℕ
deriving DecidableEq, Repr

/-- Default-constructed brush (the source's `paint_brush()`); the canvas
constructor immediately overwrites the fill and stroke brushes via
`set_color`. -/
def paint_brush.default0 : paint_brush :=
  ⟨brush_types.color, [], [], ⟨0, 0⟩, ⟨0, 0⟩, 0, 0, 0, 0, rep_repeat⟩

/-- `struct font_face { std::vector<unsigned char> data; int cmap, glyf,
head, hhea, hmtx, loca, maxp, os_2; float scale; }`. -/
structure font_face where
  data : List ℕ
  cmap : ℤ
  glyf : ℤ
  head : ℤ
  hhea : ℤ
  hmtx : ℤ
  loca : ℤ
  maxp : ℤ
  os_2 : ℤ
  scale : ℚ
deriving DecidableEq, Repr

def font_face.default0 : font_face := ⟨[], 0, 0, 0, 0, 0, 0, 0, 0, 0⟩

/-- `struct subpath_data { size_t count; bool closed; }`. -/
structure subpath_data where
  count : ℕ
  closed : Bool
deriving DecidableEq, Repr

/-- `struct bezier_path` and `struct line_path` share one layout. -/
structure bezier_path where
  points : List xy
  subpaths : List subpath_data
deriving DecidableEq, Repr

def bezier_path.empty : bezier_path := ⟨[], []⟩

/-- `struct pixel_run { unsigned short x, y; float delta; }`. -/
structure pixel_run where
  x : ℕ
  y : ℕ
  delta : ℚ
deriving DecidableEq, Repr

/-- The style fields copied by `canvas::save` / `canvas::restore`
(canvas_ity.cpp lines 2315-2370).  The source stores them in a spare
`canvas` object; only these fields of that object are ever read. -/
structure saved_state where
  global_composite_operation : ℕ
  shadow_offset_x : ℚ
  shadow_offset_y : ℚ
  line_cap : cap_style
  line_join : join_style
  line_dash_offset : ℚ
  text_align : ℕ
  text_baseline : ℕ
  forward : affine_matrix
  inverse : affine_matrix
  global_alpha : ℚ
  shadow_color : rgba
  shadow_blur : ℚ
  line_width : ℚ
  miter_limit : ℚ
  line_dash : List ℚ
  fill_brush : paint_brush
  stroke_brush : paint_brush
  mask : List pixel_run
  face : font_face
deriving DecidableEq, Repr

/-- The `canvas` object state (canvas_ity.hpp lines 341-1188).  The raw
`rgba* bitmap` is a `List rgba` of length `size_x * size_y`; the save
stack is a list of `saved_state`. -/
structure canvas where
  global_composite_operation : ℕ
  shadow_offset_x : ℚ
  shadow_offset_y : ℚ
  line_cap : cap_style
  line_join : join_style
  line_dash_offset : ℚ
  text_align : ℕ
  text_baseline : ℕ
  size_x : ℕ
  size_y : ℕ
  forward : affine_matrix
  inverse : affine_matrix
  global_alpha : ℚ
  shadow_color : rgba
  shadow_blur : ℚ
  shadow : List ℚ
  line_width : ℚ
  miter_limit : ℚ
  line_dash : List ℚ
  fill_brush : paint_brush
  stroke_brush : paint_brush
  image_brush : paint_brush
  path : bezier_path
  lines : bezier_path
  scratch : bezier_path
  runs : List pixel_run
  mask : List pixel_run
  face : font_face
  bitmap : List rgba
  saves : List saved_state
deriving DecidableEq, Repr

/-- `canvas::set_color` (lines 1673-1685). -/
def set_color (mf : MathFns) (c : canvas) (type : brush_type)
    (red green blue alpha : ℚ) : canvas :=
  let color := premultiplied (linearized mf (clamped ⟨red, green, blue, alpha⟩))
  match type with
  | brush_type.fill_style =>
      { c with fill_brush :=
          { c.fill_brush with type := brush_types.color, colors := [color] } }
  | brush_type.stroke_style =>
      { c with stroke_brush :=
          { c.stroke_brush with type := brush_types.color, colors := [color] } }

/-- The initial clip mask built by the constructor: one full-row pair of
runs per row (lines 1541-1548). -/
def initial_mask (size_x : ℕ) : ℕ → List pixel_run
  | 0 => []
  | Nat.succ y => initial_mask size_x y ++
      [⟨0, y, 1⟩, ⟨size_x % 65536, y, -1⟩]

/-- `canvas::canvas(int width, int height)` (lines 1512-1549). -/
def canvas_new (mf : MathFns) (width height : ℕ) : canvas :=
  let identity : affine_matrix := ⟨1, 0, 0, 1, 0, 0⟩
  let c : canvas :=
    { global_composite_operation := source_over
      shadow_offset_x := 0
      shadow_offset_y := 0
      line_cap := cap_style.butt
      line_join := join_style.miter
      line_dash_offset := 0
      text_align := align_start
      text_baseline := baseline_alphabetic
      size_x := width
      size_y := height
      forward := identity
      inverse := identity
      global_alpha := 1
      shadow_color := ⟨0, 0, 0, 0⟩
      shadow_blur := 0
      shadow := []
      line_width := 1
      miter_limit := 10
      line_dash := []
      fill_brush := paint_brush.default0
      stroke_brush := paint_brush.default0
      image_brush := paint_brush.default0
      path := bezier_path.empty
      lines := bezier_path.empty
      scratch := bezier_path.empty
      runs := []
      mask := initial_mask width height
      face := font_face.default0
      bitmap := List.replicate (width * height) ⟨0, 0, 0, 0⟩
      saves := [] }
  set_color mf (set_color mf c brush_type.fill_style 0 0 0 1)
    brush_type.stroke_style 0 0 0 1

/-- `canvas::save` (lines 2315-2340). -/
def save (c : canvas) : canvas :=
  { c with saves :=
      (⟨c.global_composite_operation, c.shadow_offset_x, c.shadow_offset_y,
        c.line_cap, c.line_join, c.line_dash_offset, c.text_align,
        c.text_baseline, c.forward, c.inverse, c.global_alpha,
        c.shadow_color, c.shadow_blur, c.line_width, c.miter_limit,
        c.line_dash, c.fill_brush, c.stroke_brush, c.mask, c.face⟩ :
        saved_state) :: c.saves }

/-- `canvas::restore` (lines 2342-2370). -/
def restore (c : canvas) : canvas :=
  match c.saves with
  | [] => c
  | state :: rest =>
      { c with
        global_composite_operation := state.global_composite_operation
        shadow_offset_x := state.shadow_offset_x
        shadow_offset_y := state.shadow_offset_y
        line_cap := state.line_cap
        line_join := state.line_join
        line_dash_offset := state.line_dash_offset
        text_align := state.text_align
        text_baseline := state.text_baseline
        forward := state.forward
        inverse := state.inverse
        global_alpha := state.global_alpha
        shadow_color := state.shadow_color
        shadow_blur := state.shadow_blur
        line_width := state.line_width
        miter_limit := state.miter_limit
        line_dash := state.line_dash
        fill_brush := state.fill_brush
        stroke_brush := state.stroke_brush
        mask := state.mask
        face := state.face
        saves := rest }

-- Transform operations (lines 1562-1616)

/-- `canvas::set_transform` (lines 1600-1616). -/
def set_transform (c : canvas) (a b cc d e f : ℚ) : canvas :=
  let determinant := a * d - b * cc
  let scaling := if determinant ≠ 0 then 1 / determinant else 0
  { c with
    forward := ⟨a, b, cc, d, e, f⟩
    inverse := ⟨scaling * d, scaling * -b, scaling * -cc, scaling * a,
                scaling * (cc * f - d * e), scaling * (b * e - a * f)⟩ }

/-- `canvas::transform` (lines 1584-1598): appends to the current
transform. -/
def transform (c : canvas) (a b cc d e f : ℚ) : canvas :=
  set_transform c
    (c.forward.a * a + c.forward.c * b)
    (c.forward.b * a + c.forward.d * b)
    (c.forward.a * cc + c.forward.c * d)
    (c.forward.b * cc + c.forward.d * d)
    (c.forward.a * e + c.forward.c * f + c.forward.e)
    (c.forward.b * e + c.forward.d * f + c.forward.f)

/-- `canvas::scale` (lines 1562-1567). -/
def scale (c : canvas) (x y : ℚ) : canvas :=
  transform c x 0 0 y 0 0

/-- `canvas::rotate` (lines 1569-1575). -/
def rotate (mf : MathFns) (c : canvas) (angle : ℚ) : canvas :=
  let cosine := mf.cosq angle
  let sine := mf.sinq angle
  transform c cosine sine (-sine) cosine 0 0

/-- `canvas::translate` (lines 1577-1582). -/
def translate (c : canvas) (x y : ℚ) : canvas :=
  transform c 1 0 0 1 x y

-- Compositing and style setters (lines 1618-1769)

/-- `canvas::set_global_alpha` (lines 1618-1623). -/
def set_global_alpha (c : canvas) (alpha : ℚ) : canvas :=
  if 0 ≤ alpha ∧ alpha ≤ 1 then { c with global_alpha := alpha } else c

/-- `canvas::set_shadow_color` (lines 1625-1633). -/
def set_shadow_color (mf : MathFns) (c : canvas) (red green blue alpha : ℚ) :
    canvas :=
  { c with shadow_color :=
      premultiplied (linearized mf (clamped ⟨red, green, blue, alpha⟩)) }

/-- `canvas::set_shadow_blur` (lines 1635-1640). -/
def set_shadow_blur (c : canvas) (level : ℚ) : canvas :=
  if 0 ≤ level then { c with shadow_blur := level } else c

/-- `canvas::set_line_width` (lines 1642-1647). -/
def set_line_width (c : canvas) (width : ℚ) : canvas :=
  if 0 < width then { c with line_width := width } else c

/-- `canvas::set_miter_limit` (lines 1649-1654). -/
def set_miter_limit (c : canvas) (limit : ℚ) : canvas :=
  if 0 < limit then { c with miter_limit := limit } else c

/-- `canvas::set_line_dash` (lines 1656-1671), for a non-null `segments`
array whose length is the `count` argument. -/
def set_line_dash (c : canvas) (segments : List ℚ) : canvas :=
  if segments.any (fun s => decide (s < 0)) then c
  else { c with line_dash :=
    segments ++ (if segments.length % 2 = 1 then segments else []) }

/-- `canvas::set_linear_gradient` (lines 1687-1700). -/
def set_linear_gradient (c : canvas) (type : brush_type)
    (start_x start_y end_x end_y : ℚ) : canvas :=
  let upd := fun (b : paint_brush) =>
    { b with
      type := brush_types.linear
      colors := []
      stops := []
      start := (⟨start_x, start_y⟩ : xy)
      end_ := (⟨end_x, end_y⟩ : xy) }
  match type with
  | brush_type.fill_style => { c with fill_brush := upd c.fill_brush }
  | brush_type.stroke_style => { c with stroke_brush := upd c.stroke_brush }

/-- `canvas::set_radial_gradient` (lines 1702-1721). -/
def set_radial_gradient (c : canvas) (type : brush_type)
    (start_x start_y start_radius end_x end_y end_radius : ℚ) : canvas :=
  if start_radius < 0 ∨ end_radius < 0 then c else
  let upd := fun (b : paint_brush) =>
    { b with
      type := brush_types.radial
      colors := []
      stops := []
      start := (⟨start_x, start_y⟩ : xy)
      end_ := (⟨end_x, end_y⟩ : xy)
      start_radius := start_radius
      end_radius := end_radius }
  match type with
  | brush_type.fill_style => { c with fill_brush := upd c.fill_brush }
  | brush_type.stroke_style => { c with stroke_brush := upd c.stroke_brush }

/-- `std::upper_bound` on a sorted stop list: number of entries that are
`≤ offset`. -/
def upper_bound_stops (stops : List ℚ) (offset : ℚ) : ℕ :=
  (stops.takeWhile (fun s => decide (s ≤ offset))).length

/-- Insertion into a list at an index (`std::vector::insert`). -/
def list_insert_at {α : Type} (l : List α) (index : ℕ) (a : α) : List α :=
  l.take index ++ a :: l.drop index

/-- `canvas::add_color_stop` (lines 1723-1742). -/
def add_color_stop (mf : MathFns) (c : canvas) (type : brush_type)
    (offset red green blue alpha : ℚ) : canvas :=
  let brush := match type with
    | brush_type.fill_style => c.fill_brush
    | brush_type.stroke_style => c.stroke_brush
  if (brush.type ≠ brush_types.linear ∧ brush.type ≠ brush_types.radial) ∨
      offset < 0 ∨ 1 < offset then c
  else
    let index := upper_bound_stops brush.stops offset
    let color := linearized mf (clamped ⟨red, green, blue, alpha⟩)
    let brush' := { brush with
      colors := list_insert_at brush.colors index color
      stops := list_insert_at brush.stops index offset }
    match type with
    | brush_type.fill_style => { c with fill_brush := brush' }
    | brush_type.stroke_style => { c with stroke_brush := brush' }

/-- The pixel grid read by `canvas::set_pattern` (lines 1757-1765):
unpremultiplied sRGB bytes to premultiplied linear colors, row-major. -/
def pattern_colors (mf : MathFns) (image : List ℕ) (width height stride : ℕ) :
    List rgba :=
  (List.range height).flatMap (fun y =>
    (List.range width).map (fun x =>
      let index := y * stride + x * 4
      premultiplied (linearized mf
        ⟨(image.getD index 0 : ℚ) / 255, (image.getD (index + 1) 0 : ℚ) / 255,
         (image.getD (index + 2) 0 : ℚ) / 255,
         (image.getD (index + 3) 0 : ℚ) / 255⟩)))

/-- `canvas::set_pattern` (lines 1744-1769), for a non-null image. -/
def set_pattern (mf : MathFns) (c : canvas) (type : brush_type)
    (image : List ℕ) (width height stride : ℕ) (repetition : ℕ) : canvas :=
  if width = 0 ∨ height = 0 then c else
  let upd := fun (b : paint_brush) =>
    { b with
      type := brush_types.pattern
      colors := pattern_colors mf image width height stride
      width := width
      height := height
      repetition := repetition }
  match type with
  | brush_type.fill_style => { c with fill_brush := upd c.fill_brush }
  | brush_type.stroke_style => { c with stroke_brush := upd c.stroke_brush }

-- Path building (lines 1771-1947)

/-- Add `n` to the count of the last subpath descriptor. -/
def bump_last_subpath (l : List subpath_data) (n : ℕ) : List subpath_data :=
  l.dropLast ++ (match l.getLast? with
    | none => []
    | some s => [{ s with count := s.count + n }])

/-- Mark the last subpath descriptor closed. -/
def close_last_subpath (l : List subpath_data) : List subpath_data :=
  l.dropLast ++ (match l.getLast? with
    | none => []
    | some s => [{ s with closed := true }])

/-- `canvas::begin_path` (lines 1771-1775). -/
def begin_path (c : canvas) : canvas :=
  { c with path := bezier_path.empty }

/-- `canvas::move_to` (lines 1777-1789). -/
def move_to (c : canvas) (x y : ℚ) : canvas :=
  if c.path.subpaths ≠ [] ∧
      (c.path.subpaths.getLastD ⟨0, false⟩).count = 1 then
    { c with path :=
        { c.path with points :=
            c.path.points.dropLast ++ [amul c.forward ⟨x, y⟩] } }
  else
    { c with path :=
        ⟨c.path.points ++ [amul c.forward ⟨x, y⟩],
         c.path.subpaths ++ [⟨1, false⟩]⟩ }

/-- `canvas::line_to` (lines 1805-1822). -/
def line_to (c : canvas) (x y : ℚ) : canvas :=
  if c.path.subpaths = [] then move_to c x y else
  let point_1 := c.path.points.getLastD ⟨0, 0⟩
  let point_2 := amul c.forward ⟨x, y⟩
  if dot (point_2 - point_1) (point_2 - point_1) = 0 then c else
  { c with path :=
      ⟨c.path.points ++ [point_1, point_2, point_2],
       bump_last_subpath c.path.subpaths 3⟩ }

/-- `canvas::close_path` (lines 1791-1803). -/
def close_path (c : canvas) : canvas :=
  if c.path.subpaths = [] then c else
  let first := c.path.points.getD
    (c.path.points.length - (c.path.subpaths.getLastD ⟨0, false⟩).count) ⟨0, 0⟩
  let saved_forward := c.forward
  let c1 := line_to { c with forward := ⟨1, 0, 0, 1, 0, 0⟩ } first.x first.y
  let c2 := { c1 with path := { c1.path with
    subpaths := close_last_subpath c1.path.subpaths } }
  let c3 := move_to c2 first.x first.y
  { c3 with forward := saved_forward }

/-- `canvas::quadratic_curve_to` (lines 1824-1841). -/
def quadratic_curve_to (c : canvas) (control_x control_y x y : ℚ) : canvas :=
  let c0 := if c.path.subpaths = [] then move_to c control_x control_y else c
  let point_1 := c0.path.points.getLastD ⟨0, 0⟩
  let control := amul c0.forward ⟨control_x, control_y⟩
  let point_2 := amul c0.forward ⟨x, y⟩
  let control_1 := lerp point_1 control (2 / 3)
  let control_2 := lerp point_2 control (2 / 3)
  { c0 with path :=
      ⟨c0.path.points ++ [control_1, control_2, point_2],
       bump_last_subpath c0.path.subpaths 3⟩ }

/-- `canvas::bezier_curve_to` (lines 1843-1860). -/
def bezier_curve_to (c : canvas)
    (control_1_x control_1_y control_2_x control_2_y x y : ℚ) : canvas :=
  let c0 := if c.path.subpaths = [] then move_to c control_1_x control_1_y else c
  let control_1 := amul c0.forward ⟨control_1_x, control_1_y⟩
  let control_2 := amul c0.forward ⟨control_2_x, control_2_y⟩
  let point_2 := amul c0.forward ⟨x, y⟩
  { c0 with path :=
      ⟨c0.path.points ++ [control_1, control_2, point_2],
       bump_last_subpath c0.path.subpaths 3⟩ }

/-- The normalized sweep of `canvas::arc` (lines 1905-1912), factored
out so the theorems can name it. -/
def arc_span (start_angle end_angle : ℚ) (counter_clockwise : Bool) : ℚ :=
  let tau : ℚ := 6.28318531
  let winding : ℚ := if counter_clockwise then -1 else 1
  let fromA := fmodq start_angle tau
  let span0 := fmodq end_angle tau - fromA
  if (end_angle - start_angle) * winding ≥ tau then tau * winding
  else if span0 * winding < 0 then span0 + tau * winding
  else span0

/-- The segment count of `canvas::arc` (lines 1917-1918), factored out
so the theorems can name it. -/
def arc_steps (span : ℚ) (counter_clockwise : Bool) : ℕ :=
  let tau : ℚ := 6.28318531
  let winding : ℚ := if counter_clockwise then -1 else 1
  (qtoInt (max 1 (qroundf (16 / tau * span * winding)))).toNat

/-- The Bezier-segment loop of `canvas::arc` (lines 1921-1933),
structurally recursive on the remaining step count. -/
def arc_loop (mf : MathFns) (x y radius fromA segment alpha : ℚ) :
    ℕ → ℕ → xy → canvas → canvas
  | 0, _, _, c => c
  | Nat.succ remaining, step, centered_1, c =>
      let angle := fromA + ((step : ℚ) + 1) * segment
      let centered_2 : xy := radius * (⟨mf.cosq angle, mf.sinq angle⟩ : xy)
      let point_1 := (⟨x, y⟩ : xy) + centered_1
      let point_2 := (⟨x, y⟩ : xy) + centered_2
      let control_1 := point_1 + alpha * perpendicular centered_1
      let control_2 := point_2 - alpha * perpendicular centered_2
      let c' := bezier_curve_to c control_1.x control_1.y
        control_2.x control_2.y point_2.x point_2.y
      arc_loop mf x y radius fromA segment alpha remaining (step + 1)
        centered_2 c'

/-- `canvas::arc` (lines 1895-1934). -/
def arc (mf : MathFns) (c : canvas)
    (x y radius start_angle end_angle : ℚ) (counter_clockwise : Bool) :
    canvas :=
  if radius < 0 then c else
  let tau : ℚ := 6.28318531
  let fromA := fmodq start_angle tau
  let span := arc_span start_angle end_angle counter_clockwise
  let centered_1 : xy := radius * (⟨mf.cosq fromA, mf.sinq fromA⟩ : xy)
  let c1 := line_to c (x + centered_1.x) (y + centered_1.y)
  if span = 0 then c1 else
  let steps := arc_steps span counter_clockwise
  let segment := span / (steps : ℚ)
  let alpha := 4 / 3 * mf.tanq (0.25 * segment)
  arc_loop mf x y radius fromA segment alpha steps 0 centered_1 c1

/-- `canvas::arc_to` (lines 1862-1893). -/
def arc_to (mf : MathFns) (c : canvas) (vertex_x vertex_y x y radius : ℚ) :
    canvas :=
  if radius < 0 ∨ c.forward.a * c.forward.d - c.forward.b * c.forward.c = 0
    then c else
  let c0 := if c.path.subpaths = [] then move_to c vertex_x vertex_y else c
  let point_1 := amul c0.inverse (c0.path.points.getLastD ⟨0, 0⟩)
  let vertex : xy := ⟨vertex_x, vertex_y⟩
  let point_2 : xy := ⟨x, y⟩
  let edge_1 := normalized mf (point_1 - vertex)
  let edge_2 := normalized mf (point_2 - vertex)
  let sine := |dot (perpendicular edge_1) edge_2|
  if sine < 1e-4 then line_to c0 vertex_x vertex_y else
  let offset := (radius / sine) * (edge_1 + edge_2)
  let center := vertex + offset
  let angle_1 := direction mf (dot offset edge_1 * edge_1 - offset)
  let angle_2 := direction mf (dot offset edge_2 * edge_2 - offset)
  let reverse := (qtoInt (qfloor ((angle_2 - angle_1) / 3.14159265))) % 2 = 1
  arc mf c0 center.x center.y radius angle_1 angle_2 reverse

/-- `canvas::rectangle` (lines 1936-1947). -/
def rectangle (c : canvas) (x y width height : ℚ) : canvas :=
  close_path (line_to (line_to (line_to (move_to c x y)
    (x + width) y) (x + width) (y + height)) x (y + height))

-- Tessellation (lines 236-429).  These helpers append to the polyline
-- point list, which is threaded explicitly.

/-- `canvas::add_tessellation` (lines 236-292), structurally recursive
on the source's own depth limit. -/
def add_tessellation (mf : MathFns) (angular : ℚ) :
    ℕ → xy → xy → xy → xy → List xy → List xy
  | limit, point_1, control_1, control_2, point_2, pts =>
    let flatness : ℚ := 0.125 * 0.125
    let edge_1 := control_1 - point_1
    let edge_2 := control_2 - control_1
    let edge_3 := point_2 - control_2
    let segment := point_2 - point_1
    let squared_1 := dot edge_1 edge_1
    let squared_2 := dot edge_2 edge_2
    let squared_3 := dot edge_3 edge_3
    let length_squared := max (1e-4 : ℚ) (dot segment segment)
    let projection_1 := dot edge_1 segment / length_squared
    let projection_2 := dot edge_3 segment / length_squared
    let clamped_1 := min (max projection_1 0) 1
    let clamped_2 := min (max projection_2 0) 1
    let to_line_1 := point_1 + clamped_1 * segment - control_1
    let to_line_2 := point_2 - clamped_2 * segment - control_2
    let cosine : ℚ :=
      if angular > -1 then
        if squared_1 * squared_3 ≠ 0 then
          dot edge_1 edge_3 / mf.sqrtq (squared_1 * squared_3)
        else if squared_1 * squared_2 ≠ 0 then
          dot edge_1 edge_2 / mf.sqrtq (squared_1 * squared_2)
        else if squared_2 * squared_3 ≠ 0 then
          dot edge_2 edge_3 / mf.sqrtq (squared_2 * squared_3)
        else 1
      else 1
    let emit := pts ++
      ((if angular > -1 ∧ squared_1 ≠ 0 then [control_1] else []) ++
       (if angular > -1 ∧ squared_2 ≠ 0 then [control_2] else []) ++
       (if angular = -1 ∨ squared_3 ≠ 0 then [point_2] else []))
    match limit with
    | 0 => emit
    | Nat.succ limit' =>
      if dot to_line_1 to_line_1 ≤ flatness ∧
          dot to_line_2 to_line_2 ≤ flatness ∧ cosine ≥ angular then emit
      else
        let left_1 := lerp point_1 control_1 (1 / 2)
        let middle := lerp control_1 control_2 (1 / 2)
        let right_2 := lerp control_2 point_2 (1 / 2)
        let left_2 := lerp left_1 middle (1 / 2)
        let right_1 := lerp middle right_2 (1 / 2)
        let split := lerp left_2 right_1 (1 / 2)
        add_tessellation mf angular limit' split right_1 right_2 point_2
          (add_tessellation mf angular limit' point_1 left_1 left_2 split pts)

/-- The split loop of `canvas::add_bezier` (lines 371-391): walk the
sorted cut list pairwise, splitting the cubic and tessellating each
valid piece. -/
def add_bezier_splits (mf : MathFns) (angular : ℚ)
    (point_1 control_1 control_2 point_2 : xy) :
    List ℚ → xy → List xy → List xy
  | a :: b :: rest, split_point_1, pts =>
      if 0 ≤ a ∧ b ≤ 1 ∧ a ≠ b then
        let ratio := a / b
        let partial_1 := lerp point_1 control_1 b
        let partial_2 := lerp control_1 control_2 b
        let partial_3 := lerp control_2 point_2 b
        let partial_4 := lerp partial_1 partial_2 b
        let partial_5 := lerp partial_2 partial_3 b
        let partial_6 := lerp partial_1 partial_4 ratio
        let split_point_2 := lerp partial_4 partial_5 b
        let split_control_2 := lerp partial_4 split_point_2 ratio
        let split_control_1 := lerp partial_6 split_control_2 ratio
        add_bezier_splits mf angular point_1 control_1 control_2 point_2
          (b :: rest) split_point_2
          (add_tessellation mf angular 20 split_point_1 split_control_1
            split_control_2 split_point_2 pts)
      else
        add_bezier_splits mf angular point_1 control_1 control_2 point_2
          (b :: rest) split_point_1 pts
  | _, _, pts => pts

/-- `canvas::add_bezier` (lines 303-392).  The fixed `at[7]` array with
its in-place insertion sort is modelled as a list followed by a stable
insertion sort; `std::sort`-irrelevant ties carry equal values, so the
resulting list is the same. -/
def add_bezier (mf : MathFns) (angular : ℚ)
    (point_1 control_1 control_2 point_2 : xy) (pts : List xy) : List xy :=
  let edge_1 := control_1 - point_1
  let edge_2 := control_2 - control_1
  let edge_3 := point_2 - control_2
  if dot edge_1 edge_1 = 0 ∧ dot edge_3 edge_3 = 0 then pts ++ [point_2]
  else
    let extrema_a := (-9 : ℚ) * edge_2 + (3 : ℚ) * (point_2 - point_1)
    let extrema_b := (6 : ℚ) * (point_1 + control_2) - (12 : ℚ) * control_1
    let extrema_c := (3 : ℚ) * edge_1
    let eps : ℚ := 1e-4
    let cuts_x : List ℚ :=
      if |extrema_a.x| > eps then
        let discriminant := extrema_b.x * extrema_b.x -
          4 * extrema_a.x * extrema_c.x
        if discriminant ≥ 0 then
          let sign : ℚ := if extrema_b.x > 0 then 1 else -1
          let term := -extrema_b.x - sign * mf.sqrtq discriminant
          let extremum_1 := term / (2 * extrema_a.x)
          [extremum_1, extrema_c.x / (extrema_a.x * extremum_1)]
        else []
      else if |extrema_b.x| > eps then [-extrema_c.x / extrema_b.x]
      else []
    let cuts_y : List ℚ :=
      if |extrema_a.y| > eps then
        let discriminant := extrema_b.y * extrema_b.y -
          4 * extrema_a.y * extrema_c.y
        if discriminant ≥ 0 then
          let sign : ℚ := if extrema_b.y > 0 then 1 else -1
          let term := -extrema_b.y - sign * mf.sqrtq discriminant
          let extremum_1 := term / (2 * extrema_a.y)
          [extremum_1, extrema_c.y / (extrema_a.y * extremum_1)]
        else []
      else if |extrema_b.y| > eps then [-extrema_c.y / extrema_b.y]
      else []
    let determinant_1 := dot (perpendicular edge_1) edge_2
    let determinant_2 := dot (perpendicular edge_1) edge_3
    let determinant_3 := dot (perpendicular edge_2) edge_3
    let curve_a := determinant_1 - determinant_2 + determinant_3
    let curve_b := -2 * determinant_1 + determinant_2
    let cuts_curve : List ℚ :=
      if |curve_a| > eps ∧ |curve_b| > eps then [-(1 / 2) * curve_b / curve_a]
      else []
    let at_sorted := ([(0 : ℚ), 1] ++ cuts_x ++ cuts_y ++ cuts_curve).insertionSort (· ≤ ·)
    add_bezier_splits mf angular point_1 control_1 control_2 point_2
      at_sorted point_1 pts

/-- The inner triple walk of `canvas::path_to_lines` (lines 416-423). -/
def path_to_lines_triples (mf : MathFns) (angular : ℚ) :
    List xy → xy → List xy → List xy
  | c1 :: c2 :: p2 :: rest, point_1, pts =>
      path_to_lines_triples mf angular rest p2
        (add_bezier mf angular point_1 c1 c2 p2 pts)
  | _, _, pts => pts

/-- The subpath walk of `canvas::path_to_lines` (lines 408-428). -/
def path_to_lines_go (mf : MathFns) (angular : ℚ) :
    List xy → List subpath_data → bezier_path → bezier_path
  | _, [], acc => acc
  | points, sp :: rest, acc =>
      let sub := points.take sp.count
      let newpts := match sub with
        | [] => acc.points
        | p1 :: tail =>
            path_to_lines_triples mf angular tail p1 (acc.points ++ [p1])
      path_to_lines_go mf angular (points.drop sp.count) rest
        ⟨newpts, acc.subpaths ++ [⟨newpts.length - acc.points.length, sp.closed⟩]⟩

/-- `canvas::path_to_lines` (lines 400-429): tessellate the current
path, producing the new polyline data. -/
def path_to_lines (mf : MathFns) (c : canvas) (stroking : Bool) : bezier_path :=
  let tolerance : ℚ := 0.125
  let ratio := tolerance / max (0.5 * c.line_width) tolerance
  let angular : ℚ := if stroking then (ratio - 2) * ratio * 2 + 1 else -1
  path_to_lines_go mf angular c.path.points c.path.subpaths bezier_path.empty

-- Scan conversion (lines 1007-1158)

/-- The inner column loop of `canvas::add_runs` (lines 1039-1054). -/
def add_runs_inner (p : xy) (slope_y sign y_step next_y_x : ℚ) :
    ℕ → xy → xy → xy → ℚ → List pixel_run →
    xy × xy × xy × ℚ × List pixel_run
  | 0, now, pixel, next_x, carry, runs => (now, pixel, next_x, carry, runs)
  | Nat.succ fuel, now, pixel, next_x, carry, runs =>
      if next_x.x < next_y_x then
        let strip := min (max ((next_x.y - now.y) * y_step) 0) 1
        let mid := (next_x.x + now.x) * (1 / 2)
        let area := (mid - pixel.x) * strip
        let runs' := runs ++
          [⟨qtoU16 pixel.x, qtoU16 pixel.y, (carry + strip - area) * sign⟩]
        let nx := next_x.x + 1
        add_runs_inner p slope_y sign y_step next_y_x fuel next_x
          ⟨pixel.x + 1, pixel.y⟩ ⟨nx, (nx - p.x) * slope_y + p.y⟩ area runs'
      else (now, pixel, next_x, carry, runs)

/-- The outer row loop of `canvas::add_runs` (lines 1036-1074). -/
def add_runs_outer (p q slope : xy) (sign y_step : ℚ) :
    ℕ → xy → xy → xy → xy → List pixel_run → List pixel_run
  | 0, _, _, _, _, runs => runs
  | Nat.succ fuel, now, pixel, next_x, next_y, runs =>
      let (now1, pixel1, next_x1, carry, runs1) :=
        add_runs_inner p slope.y sign y_step next_y.x (Nat.succ fuel) now
          pixel next_x 0 runs
      let strip := min (max ((next_y.y - now1.y) * y_step) 0) 1
      let mid := (next_y.x + now1.x) * (1 / 2)
      let area := (mid - pixel1.x) * strip
      let runs2 := runs1 ++
        [⟨qtoU16 pixel1.x, qtoU16 pixel1.y, (carry + strip - area) * sign⟩,
         ⟨qtoU16 (pixel1.x + 1), qtoU16 pixel1.y, area * sign⟩]
      let now2 := next_y
      let nyy := next_y.y + y_step
      let next_y2 : xy := ⟨(nyy - p.y) * slope.x + p.x, nyy⟩
      let pixel2 : xy := ⟨pixel1.x, pixel1.y + y_step⟩
      let next_y3 := if (p.y < q.y ∧ q.y < next_y2.y) ∨
          (p.y > q.y ∧ q.y > next_y2.y) then q else next_y2
      if now2.y ≠ q.y then
        add_runs_outer p q slope sign y_step fuel now2 pixel2 next_x1
          next_y3 runs2
      else runs2

/-- `canvas::add_runs` (lines 1014-1075): scan-convert one segment,
appending to the run list.  The vertical-segment division by zero in
`slope.y` is never read by the source (the inner loop is not entered),
so the rational convention `x / 0 = 0` is unobservable. -/
def add_runs (p0 q0 : xy) (fuel : ℕ) (runs : List pixel_run) :
    List pixel_run :=
  if |q0.y - p0.y| < 2e-5 then runs else
  let sign : ℚ := if q0.y > p0.y then 1 else -1
  let p := if p0.x > q0.x then q0 else p0
  let q := if p0.x > q0.x then p0 else q0
  let now := p
  let pixel : xy := ⟨qfloor now.x, qfloor now.y⟩
  let corner : xy := ⟨pixel.x + 1, pixel.y + (if q.y > p.y then 1 else 0)⟩
  let slope : xy := ⟨(q.x - p.x) / (q.y - p.y), (q.y - p.y) / (q.x - p.x)⟩
  let next_x := if q.x - p.x < 2e-5 then q
    else (⟨corner.x, now.y + (corner.x - now.x) * slope.y⟩ : xy)
  let next_y0 : xy := ⟨now.x + (corner.y - now.y) * slope.x, corner.y⟩
  let next_y := if (p.y < q.y ∧ q.y < next_y0.y) ∨
      (p.y > q.y ∧ q.y > next_y0.y) then q else next_y0
  let y_step : ℚ := if q.y > p.y then 1 else -1
  add_runs_outer p q slope sign y_step fuel now pixel next_x next_y runs

/-- `static bool operator<(pixel_run, pixel_run)` (lines 1077-1086). -/
def run_lt (l r : pixel_run) : Bool :=
  if l.y < r.y then true
  else if l.y > r.y then false
  else if l.x < r.x then true
  else if l.x > r.x then false
  else decide (|l.delta| < |r.delta|)

/-- The sort order as a `Prop` relation, for `List.insertionSort`. -/
def run_le (a b : pixel_run) : Prop := run_lt b a = false

instance : DecidableRel run_le := fun a b => by
  unfold run_le; infer_instance

/-- The coalescing pass of `canvas::lines_to_runs` (lines 1149-1157):
same-(x,y) entries are summed into the kept entry, other zero-delta
entries are dropped; the first entry is kept unconditionally. -/
def coalesce_runs : pixel_run → List pixel_run → List pixel_run
  | acc, [] => [acc]
  | acc, r :: rest =>
      if r.x = acc.x ∧ r.y = acc.y then
        coalesce_runs { acc with delta := acc.delta + r.delta } rest
      else if r.delta ≠ 0 then acc :: coalesce_runs r rest
      else coalesce_runs acc rest

/-- The sort-and-coalesce tail of `canvas::lines_to_runs`
(lines 1146-1157). -/
def merge_runs (l : List pixel_run) : List pixel_run :=
  match l.insertionSort run_le with
  | [] => []
  | h :: t => coalesce_runs h t

/-- One Sutherland-Hodgman clip pass of `canvas::lines_to_runs`
(lines 1113-1134): the polygon is replaced by its inside portion. -/
def clip_edge (normal : xy) (place : ℚ) (pts : List xy) : List xy :=
  (List.range pts.length).flatMap (fun index =>
    let fromP := pts.getD ((if index = 0 then pts.length else index) - 1) ⟨0, 0⟩
    let toP := pts.getD index ⟨0, 0⟩
    let from_side := dot fromP normal + place
    let to_side := dot toP normal + place
    (if from_side * to_side < 0 then
      [lerp fromP toP (from_side / (from_side - to_side))] else []) ++
    (if to_side ≥ 0 then [toP] else []))

/-- The per-edge `add_runs` loop of `canvas::lines_to_runs`
(lines 1135-1144), over the closed ring of clipped points. -/
def lines_to_runs_edges (width height : ℚ) (fuel : ℕ) (pts : List xy)
    (runs : List pixel_run) : List pixel_run :=
  (List.range pts.length).foldl (fun acc index =>
    let fromP := pts.getD ((if index = 0 then pts.length else index) - 1) ⟨0, 0⟩
    let toP := pts.getD index ⟨0, 0⟩
    add_runs ⟨min (max fromP.x 0) width, min (max fromP.y 0) height⟩
      ⟨min (max toP.x 0) width, min (max toP.y 0) height⟩ fuel acc) runs

/-- The subpath loop of `canvas::lines_to_runs` (lines 1105-1145);
returns the accumulated unsorted run list and the final content of the
scratch point buffer. -/
def lines_to_runs_go (width height : ℚ) (offset : xy) (fuel : ℕ) :
    List xy → List subpath_data → List pixel_run → List xy →
    List pixel_run × List xy
  | _, [], runs, scratch_pts => (runs, scratch_pts)
  | points, sp :: rest, runs, _ =>
      let moved := (points.take sp.count).map (fun p => offset + p)
      let clipped :=
        clip_edge ⟨0, -1⟩ height
          (clip_edge ⟨-1, 0⟩ width
            (clip_edge ⟨0, 1⟩ 0
              (clip_edge ⟨1, 0⟩ 0 moved)))
      lines_to_runs_go width height offset fuel (points.drop sp.count) rest
        (lines_to_runs_edges width height fuel clipped runs) clipped

/-- `canvas::lines_to_runs` (lines 1098-1158). -/
def lines_to_runs (fuel : ℕ) (c : canvas) (offset : xy) (padding : ℕ) :
    canvas :=
  let width : ℚ := ((c.size_x + padding : ℕ) : ℚ)
  let height : ℚ := ((c.size_y + padding : ℕ) : ℚ)
  let (raw, scratch_pts) := lines_to_runs_go width height offset fuel
    c.lines.points c.lines.subpaths [] c.scratch.points
  { c with
    runs := merge_runs raw
    scratch := { c.scratch with points := scratch_pts } }

-- Dashing (lines 753-839)

/-- The start-segment advance loop of `canvas::dash_lines`
(lines 775-780). -/
def dash_start (line_dash : List ℚ) : ℕ → ℕ → ℚ → ℕ × ℚ
  | 0, start, offset => (start, offset)
  | Nat.succ fuel, start, offset =>
      if offset ≥ line_dash.getD start 0 then
        dash_start line_dash fuel
          (if start + 1 < line_dash.length then start + 1 else 0)
          (offset - line_dash.getD start 0)
      else (start, offset)

/-- The dash-transition loop of `canvas::dash_lines` (lines 800-813). -/
def dash_inner (line_dash : List ℚ) (p q : xy) (line : ℚ) :
    ℕ → Bool → ℕ → ℚ → ℕ → List xy → List subpath_data →
    Bool × ℕ × ℚ × ℕ × List xy × List subpath_data
  | 0, emit, segment, next, first, pts, sps =>
      (emit, segment, next, first, pts, sps)
  | Nat.succ fuel, emit, segment, next, first, pts, sps =>
      if next < line then
        let pts' := pts ++ [lerp p q (next / line)]
        let (sps', first') := if emit then
            (sps ++ [(⟨pts'.length - first, false⟩ : subpath_data)], pts'.length)
          else (sps, first)
        let segment' := if segment + 1 < line_dash.length then segment + 1 else 0
        dash_inner line_dash p q line fuel (!emit) segment'
          (next + line_dash.getD segment' 0) first' pts' sps'
      else (emit, segment, next, first, pts, sps)

/-- The edge walk of `canvas::dash_lines` (lines 793-815). -/
def dash_edges (mf : MathFns) (inverse : affine_matrix) (line_dash : List ℚ)
    (fuel : ℕ) :
    List xy → Bool → ℕ → ℚ → ℕ → List xy → List subpath_data →
    Bool × ℕ × ℚ × ℕ × List xy × List subpath_data
  | p :: q :: rest, emit, segment, next, first, pts, sps =>
      let pts1 := if emit then pts ++ [p] else pts
      let line := length mf (amul inverse q - amul inverse p)
      let (emit', segment', next', first', pts2, sps2) :=
        dash_inner line_dash p q line fuel emit segment next first pts1 sps
      dash_edges mf inverse line_dash fuel (q :: rest) emit' segment'
        (next' - line) first' pts2 sps2
  | _, emit, segment, next, first, pts, sps =>
      (emit, segment, next, first, pts, sps)

/-- The subpath loop of `canvas::dash_lines` (lines 781-838), including
the closed-subpath merge special cases. -/
def dash_subpaths (mf : MathFns) (inverse : affine_matrix)
    (line_dash : List ℚ) (fuel : ℕ) (start : ℕ) (offset : ℚ) :
    List xy → List subpath_data → List xy → List subpath_data →
    List xy × List subpath_data
  | _, [], pts, sps => (pts, sps)
  | points, sp :: rest, pts, sps =>
      let sub := points.take sp.count
      let first := pts.length
      let emit := start % 2 = 0
      let merge_point := pts.length
      let merge_subpath := sps.length
      let merge_emit := emit
      let next := line_dash.getD start 0 - offset
      let (emit', _, _, first', pts2, sps2) :=
        dash_edges mf inverse line_dash fuel sub emit start next first pts sps
      let (pts3, sps3) :=
        if emit' then
          let pts' := pts2 ++ [sub.getLastD ⟨0, 0⟩]
          let sps' := sps2 ++ [(⟨pts'.length - first', false⟩ : subpath_data)]
          if sp.closed ∧ merge_emit then
            if sps'.length = merge_subpath + 1 then
              (pts', close_last_subpath sps')
            else
              let count := (sps'.getLastD ⟨0, false⟩).count
              let tail := pts'.drop merge_point
              let rotated := tail.drop (tail.length - count) ++
                tail.take (tail.length - count)
              let sps'' := (sps'.dropLast.take merge_subpath) ++
                (match sps'.dropLast.getD merge_subpath ⟨0, false⟩ with
                 | ms => [{ ms with count := ms.count + count }]) ++
                (sps'.dropLast.drop (merge_subpath + 1))
              (pts'.take merge_point ++ rotated, sps'')
          else (pts', sps')
        else (pts2, sps2)
      dash_subpaths mf inverse line_dash fuel start offset
        (points.drop sp.count) rest pts3 sps3

/-- `canvas::dash_lines` (lines 763-839). -/
def dash_lines (mf : MathFns) (fuel : ℕ) (c : canvas) : canvas :=
  if c.line_dash = [] then c else
  let total := c.line_dash.foldl (· + ·) 0
  let offset0 := fmodq c.line_dash_offset total
  let offset1 := if offset0 < 0 then offset0 + total else offset0
  let (start, offset) := dash_start c.line_dash fuel 0 offset1
  let (pts, sps) := dash_subpaths mf c.inverse c.line_dash fuel start offset
    c.lines.points c.lines.subpaths [] []
  { c with lines := ⟨pts, sps⟩, scratch := c.lines }

-- Stroke expansion (lines 841-1005)

/-- The body of one step of the `canvas::add_half_stroke` walk
(lines 866-933): the join emission given the incoming and outgoing
directions. -/
def half_stroke_join (mf : MathFns) (forward : affine_matrix)
    (half ratio : ℚ) (line_join : join_style) (point : xy)
    (in_direction out_direction : xy) (in_length out_length : ℚ)
    (pts : List xy) : List xy × xy × xy :=
  let side_in := point + half * perpendicular in_direction
  let side_out := point + half * perpendicular out_direction
  let turn0 := dot (perpendicular in_direction) out_direction
  let turn := if |turn0| < 1e-4 then 0 else turn0
  let offset : xy := if turn = 0 then ⟨0, 0⟩
    else (half / turn) * (out_direction - in_direction)
  let tight := dot offset in_direction < -in_length ∧
    dot offset out_direction > out_length
  let (side_in1, side_out1, in_dir1, out_dir1, pts1) :=
    if turn > 0 ∧ tight then
      (side_out, side_in, out_direction, in_direction,
       pts ++ [amul forward side_in, amul forward point, amul forward side_out])
    else (side_in, side_out, in_direction, out_direction, pts)
  let pts2 :=
    if (turn > 0 ∧ ¬tight) ∨
        (turn ≠ 0 ∧ line_join = join_style.miter ∧ dot offset offset ≤ ratio)
    then pts1 ++ [amul forward (point + offset)]
    else if line_join = join_style.rounded then
      let cosine := dot in_dir1 out_dir1
      let angle := mf.acosq (min (max cosine (-1)) 1)
      let alpha := 4 / 3 * mf.tanq (0.25 * angle)
      add_bezier mf (-1)
        (amul forward side_in1)
        (amul forward (side_in1 + (alpha * half) * in_dir1))
        (amul forward (side_out1 - (alpha * half) * out_dir1))
        (amul forward side_out1)
        (pts1 ++ [amul forward side_in1])
    else pts1 ++ [amul forward side_in1, amul forward side_out1]
  let (pts3, in_dir2, out_dir2) :=
    if turn > 0 ∧ tight then
      (pts2 ++ [amul forward side_out1, amul forward point,
        amul forward side_in1], out_dir1, in_dir1)
    else (pts2, in_dir1, out_dir1)
  (pts3, in_dir2, out_dir2)

/-- The do-while walk of `canvas::add_half_stroke` (lines 866-933). -/
def half_stroke_loop (mf : MathFns) (scratch_pts : List xy)
    (forward inverse : affine_matrix) (half ratio : ℚ)
    (line_join : join_style) (closed : Bool) (beginning ending : ℕ) :
    ℕ → ℕ → ℕ → xy → ℚ → xy → List xy → List xy × xy × ℚ × xy
  | 0, _, _, in_direction, in_length, point, pts =>
      (pts, in_direction, in_length, point)
  | Nat.succ fuel, index, finish, in_direction, in_length, point, pts =>
      let next := amul inverse (scratch_pts.getD index ⟨0, 0⟩)
      let out_direction := normalized mf (next - point)
      let out_length := length mf (next - point)
      let eps : ℚ := 1e-4
      let (finish', pts', in_dir', out_dir') :=
        if in_length ≠ 0 ∧ out_length ≥ eps then
          let finish1 := if closed ∧ finish = beginning then index else finish
          let (p, i, o) := half_stroke_join mf forward half ratio line_join
            point in_direction out_direction in_length out_length pts
          (finish1, p, i, o)
        else (finish, pts, in_direction, out_direction)
      let (in_dir2, in_len2, point2) :=
        if out_length ≥ eps then (out_dir', out_length, next)
        else (in_dir', in_length, point)
      let index' := if index = ending then beginning
        else if ending > beginning then index + 1 else index - 1
      if index' = finish' then (pts', in_dir2, in_len2, point2)
      else half_stroke_loop mf scratch_pts forward inverse half ratio
        line_join closed beginning ending fuel index' finish' in_dir2
        in_len2 point2 pts'

/-- `canvas::add_half_stroke` (lines 854-963): one half stroke of a
subpath, appended to the polyline points. -/
def add_half_stroke (mf : MathFns) (c : canvas) (scratch_pts : List xy)
    (fuel : ℕ) (beginning ending : ℕ) (closed : Bool) (pts : List xy) :
    List xy :=
  let half := c.line_width * (1 / 2)
  let ratio := c.miter_limit * c.miter_limit * half * half
  let point := amul c.inverse (scratch_pts.getD beginning ⟨0, 0⟩)
  let (pts1, in_direction, in_length, point1) :=
    half_stroke_loop mf scratch_pts c.forward c.inverse half ratio
      c.line_join closed beginning ending fuel beginning beginning
      ⟨0, 0⟩ 0 point pts
  if closed ∨ in_length = 0 then pts1 else
  let ahead := half * in_direction
  let side := perpendicular ahead
  match c.line_cap with
  | cap_style.butt =>
      pts1 ++ [amul c.forward (point1 + side), amul c.forward (point1 - side)]
  | cap_style.square =>
      pts1 ++ [amul c.forward (point1 + ahead + side),
               amul c.forward (point1 + ahead - side)]
  | cap_style.circle =>
      let alpha : ℚ := 0.55228475
      add_bezier mf (-1)
        (amul c.forward (point1 + ahead))
        (amul c.forward (point1 + ahead - alpha * side))
        (amul c.forward (point1 - side + alpha * ahead))
        (amul c.forward (point1 - side))
        (add_bezier mf (-1)
          (amul c.forward (point1 + side))
          (amul c.forward (point1 + side + alpha * ahead))
          (amul c.forward (point1 + ahead + alpha * side))
          (amul c.forward (point1 + ahead))
          (pts1 ++ [amul c.forward (point1 + side)]))

/-- The subpath loop of `canvas::stroke_lines` (lines 984-1004). -/
def stroke_lines_go (mf : MathFns) (c : canvas) (scratch_pts : List xy)
    (fuel : ℕ) :
    ℕ → List subpath_data → List xy → List subpath_data →
    List xy × List subpath_data
  | _, [], pts, sps => (pts, sps)
  | beginning, sp :: rest, pts, sps =>
      let ending := beginning + sp.count
      if sp.count < 2 then
        stroke_lines_go mf c scratch_pts fuel ending rest pts sps
      else
        let first := pts.length
        let pts1 := add_half_stroke mf c scratch_pts fuel beginning
          (ending - 1) sp.closed pts
        let (first1, sps1) :=
          if sp.closed then
            (pts1.length, sps ++ [(⟨pts1.length - first, true⟩ : subpath_data)])
          else (first, sps)
        let pts2 := add_half_stroke mf c scratch_pts fuel (ending - 1)
          beginning sp.closed pts1
        stroke_lines_go mf c scratch_pts fuel ending rest pts2
          (sps1 ++ [(⟨pts2.length - first1, true⟩ : subpath_data)])

/-- `canvas::stroke_lines` (lines 975-1005). -/
def stroke_lines (mf : MathFns) (fuel : ℕ) (c : canvas) : canvas :=
  if c.forward.a * c.forward.d - c.forward.b * c.forward.c = 0 then c else
  let c1 := dash_lines mf fuel c
  let scratch' := c1.lines
  let (pts, sps) := stroke_lines_go mf c1 scratch'.points fuel 0
    scratch'.subpaths [] []
  { c1 with lines := ⟨pts, sps⟩, scratch := scratch' }

-- List access helpers for raw-pointer indexing: out-of-range reads
-- yield the default, out-of-range writes are dropped (the source would
-- have undefined behavior there; all in-contract executions stay in
-- range).

def list_get {α : Type} (l : List α) (i : ℤ) (d : α) : α :=
  if 0 ≤ i then l.getD i.toNat d else d

def list_set {α : Type} (l : List α) (i : ℤ) (v : α) : List α :=
  if 0 ≤ i ∧ i.toNat < l.length then l.set i.toNat v else l

-- Paint evaluation (lines 1160-1282)

/-- The bicubic accumulation loops of the pattern branch of
`canvas::paint_pixel` (lines 1199-1233). -/
def pattern_sample (brush : paint_brush) (is_image : Bool) (point : xy)
    (reciprocal_x reciprocal_y : ℚ) (left top right bottom : ℤ) :
    rgba × ℚ :=
  (List.range (bottom - top).toNat).foldl (fun accy dy =>
    let pattern_y := top + (dy : ℤ)
    let y := |reciprocal_y * ((pattern_y : ℚ) - point.y)|
    let weight_y : ℚ := if y < 1 then (1.5 * y - 2.5) * y * y + 1
      else ((-0.5 * y + 2.5) * y - 4) * y + 2
    let wrapped_y0 := Int.tmod pattern_y (brush.height : ℤ)
    let wrapped_y1 := if wrapped_y0 < 0 then wrapped_y0 + (brush.height : ℤ)
      else wrapped_y0
    let wrapped_y := if is_image then
      min (max pattern_y 0) ((brush.height : ℤ) - 1) else wrapped_y1
    (List.range (right - left).toNat).foldl (fun accx dx =>
      let pattern_x := left + (dx : ℤ)
      let x := |reciprocal_x * ((pattern_x : ℚ) - point.x)|
      let weight_x : ℚ := if x < 1 then (1.5 * x - 2.5) * x * x + 1
        else ((-0.5 * x + 2.5) * x - 4) * x + 2
      let wrapped_x0 := Int.tmod pattern_x (brush.width : ℤ)
      let wrapped_x1 := if wrapped_x0 < 0 then wrapped_x0 + (brush.width : ℤ)
        else wrapped_x0
      let wrapped_x := if is_image then
        min (max pattern_x 0) ((brush.width : ℤ) - 1) else wrapped_x1
      let weight := weight_x * weight_y
      let color := list_get brush.colors
        (wrapped_y * (brush.width : ℤ) + wrapped_x) ⟨0, 0, 0, 0⟩
      (accx.1 + weight * color, accx.2 + weight)) accy) (⟨0, 0, 0, 0⟩, 0)

/-- `canvas::paint_pixel` (lines 1170-1282).  The flag `is_image`
models the source's pointer-identity test `&brush == &image_brush`:
it is true exactly when `render_main` was invoked from `draw_image`. -/
def paint_pixel (mf : MathFns) (inverse : affine_matrix) (point0 : xy)
    (brush : paint_brush) (is_image : Bool) : rgba :=
  if brush.colors = [] then ⟨0, 0, 0, 0⟩ else
  if brush.type = brush_types.color then brush.colors.headD ⟨0, 0, 0, 0⟩ else
  let point := amul inverse point0
  if brush.type = brush_types.pattern then
    let width : ℚ := (brush.width : ℚ)
    let height : ℚ := (brush.height : ℚ)
    if (brush.repetition.testBit 1 ∧ (point.x < 0 ∨ width ≤ point.x)) ∨
        (brush.repetition.testBit 0 ∧ (point.y < 0 ∨ height ≤ point.y)) then
      ⟨0, 0, 0, 0⟩
    else
      let scale_x := max 1 (min (|inverse.a| + |inverse.c|) (width * 0.25))
      let scale_y := max 1 (min (|inverse.b| + |inverse.d|) (height * 0.25))
      let pt := point - (⟨0.5, 0.5⟩ : xy)
      let left := qtoInt (qceil (pt.x - scale_x * 2))
      let top := qtoInt (qceil (pt.y - scale_y * 2))
      let right := qtoInt (qceil (pt.x + scale_x * 2))
      let bottom := qtoInt (qceil (pt.y + scale_y * 2))
      let (total_color, total_weight) := pattern_sample brush is_image pt
        (1 / scale_x) (1 / scale_y) left top right bottom
      (1 / total_weight) * total_color
  else
    let relative := point - brush.start
    let line := brush.end_ - brush.start
    let gradient := dot relative line
    let span := dot line line
    let offsetRes : Option ℚ :=
      if brush.type = brush_types.linear then
        if span = 0 then none else some (gradient / span)
      else
        let initial := brush.start_radius
        let change := brush.end_radius - initial
        let a := span - change * change
        let b := -2 * (gradient + initial * change)
        let cc := dot relative relative - initial * initial
        let discriminant := b * b - 4 * a * cc
        if discriminant < 0 ∨ (span = 0 ∧ change = 0) then none else
        let root := mf.sqrtq discriminant
        let reciprocal := 1 / (2 * a)
        let offset_1 := (-b - root) * reciprocal
        let offset_2 := (-b + root) * reciprocal
        let radius_1 := initial + change * offset_1
        let radius_2 := initial + change * offset_2
        if radius_2 ≥ 0 then some offset_2
        else if radius_1 ≥ 0 then some offset_1
        else none
    match offsetRes with
    | none => ⟨0, 0, 0, 0⟩
    | some offset =>
        let index := upper_bound_stops brush.stops offset
        if index = 0 then premultiplied (brush.colors.headD ⟨0, 0, 0, 0⟩)
        else if index = brush.stops.length then
          premultiplied (brush.colors.getLastD ⟨0, 0, 0, 0⟩)
        else
          let mix := (offset - brush.stops.getD (index - 1) 0) /
            (brush.stops.getD index 0 - brush.stops.getD (index - 1) 0)
          let delta := brush.colors.getD index ⟨0, 0, 0, 0⟩ -
            brush.colors.getD (index - 1) ⟨0, 0, 0, 0⟩
          premultiplied (brush.colors.getD (index - 1) ⟨0, 0, 0, 0⟩ + mix * delta)

-- Shadow rendering (lines 1284-1444)

/-- One span of the alpha-rasterization pass of `canvas::render_shadow`
(lines 1344-1350). -/
def shadow_fill_span (mf : MathFns) (inverse : affine_matrix)
    (brush : paint_brush) (is_image : Bool) (offset : xy) (top left : ℤ)
    (width : ℕ) (coverage : ℚ) : ℕ → ℤ → ℤ → List ℚ → List ℚ
  | 0, _, _, buf => buf
  | Nat.succ n, x, y, buf =>
      let v := coverage * (paint_pixel mf inverse
        ((⟨(x : ℚ) + 0.5, (y : ℚ) + 0.5⟩ : xy) - offset) brush is_image).a
      shadow_fill_span mf inverse brush is_image offset top left width
        coverage n (x + 1) y
        (list_set buf ((y - top) * (width : ℤ) + (x - left)) v)

/-- The alpha-rasterization walk of `canvas::render_shadow`
(lines 1335-1357). -/
def shadow_rasterize (mf : MathFns) (inverse : affine_matrix)
    (brush : paint_brush) (is_image : Bool) (offset : xy) (top left : ℤ)
    (width : ℕ) : List pixel_run → ℤ → ℤ → ℚ → List ℚ → List ℚ
  | [], _, _, _, buf => buf
  | r :: rest, x, y, sum, buf =>
      let coverage := min |sum| 1
      let to_ : ℤ := if (r.y : ℤ) = y then (r.x : ℤ) else x + 1
      let buf1 := if coverage ≥ 1 / 8160 then
          shadow_fill_span mf inverse brush is_image offset top left width
            coverage (to_ - x).toNat x y buf
        else buf
      let sum1 := if (r.y : ℤ) ≠ y then 0 else sum
      shadow_rasterize mf inverse brush is_image offset top left width rest
        (r.x : ℤ) (r.y : ℤ) (sum1 + r.delta) buf1

/-- One box-blur pass of `canvas::render_shadow` (lines 1365-1408).
The source copies the row into the scratch tail of the buffer and then
updates in place while reading the copy, which makes each pass a pure
function of the row. -/
def blur_pass (weight_1 weight_2 : ℚ) (radius : ℕ) (row : List ℚ) :
    List ℚ :=
  match row with
  | [] => []
  | _ =>
    let width := row.length
    let r0 := (List.range (radius + 1)).foldl
      (fun acc x => acc + (weight_1 + weight_2) * row.getD x 0)
      (weight_1 * row.getD (radius + 1) 0)
    ((List.range (width - 1)).foldl (fun (acc : ℚ × List ℚ) i =>
      let x := i + 1
      let running := acc.1
        - (if x ≥ radius + 1 then weight_2 * row.getD (x - radius - 1) 0 else 0)
        - (if x ≥ radius + 2 then weight_1 * row.getD (x - radius - 2) 0 else 0)
        + (if x + radius < width then weight_2 * row.getD (x + radius) 0 else 0)
        + (if x + radius + 1 < width then weight_1 * row.getD (x + radius + 1) 0
           else 0)
      (running, acc.2 ++ [running])) (r0, [r0])).2

def blur_pass3 (weight_1 weight_2 : ℚ) (radius : ℕ) (row : List ℚ) :
    List ℚ :=
  blur_pass weight_1 weight_2 radius
    (blur_pass weight_1 weight_2 radius
      (blur_pass weight_1 weight_2 radius row))

def grid_row (buf : List ℚ) (width y : ℕ) : List ℚ :=
  (buf.drop (y * width)).take width

def grid_col (buf : List ℚ) (width height x : ℕ) : List ℚ :=
  (List.range height).map (fun y => buf.getD (y * width + x) 0)

/-- The row passes followed by the column passes of the box blur
(lines 1358-1408). -/
def blur_grid (weight_1 weight_2 : ℚ) (radius width height : ℕ)
    (buf : List ℚ) : List ℚ :=
  let after_rows := (List.range height).flatMap
    (fun y => blur_pass3 weight_1 weight_2 radius (grid_row buf width y))
  let cols := (List.range width).map
    (fun x => blur_pass3 weight_1 weight_2 radius
      (grid_col after_rows width height x))
  (List.range (width * height)).map (fun i =>
    (cols.getD (i % width) []).getD (i / width) 0)

/-- One span of the shadow compositing pass (lines 1420-1437). -/
def shadow_span (operation : ℕ) (global_alpha : ℚ) (shadow_color : rgba)
    (shadowBuf : List ℚ) (size_x : ℕ) (border top left : ℤ) (width : ℕ)
    (visibility : ℚ) : ℕ → ℤ → ℤ → List rgba → List rgba
  | 0, _, _, bitmap => bitmap
  | Nat.succ n, x, y, bitmap =>
      let back := list_get bitmap (y * (size_x : ℤ) + x) ⟨0, 0, 0, 0⟩
      let fore := (global_alpha *
        list_get shadowBuf
          ((y + border - top) * (width : ℤ) + (x + border - left)) 0) *
        shadow_color
      let mfv := mix_fore operation back.a
      let mbv := mix_back operation fore.a
      let blend0 := mfv * fore + mbv * back
      let blend : rgba := ⟨blend0.r, blend0.g, blend0.b, min blend0.a 1⟩
      let back' := visibility * blend + (1 - visibility) * back
      shadow_span operation global_alpha shadow_color shadowBuf size_x
        border top left width visibility n (x + 1) y
        (list_set bitmap (y * (size_x : ℤ) + x) back')

/-- The mask walk of the shadow compositing pass (lines 1409-1443). -/
def shadow_composite (operation : ℕ) (global_alpha : ℚ)
    (shadow_color : rgba) (shadowBuf : List ℚ) (size_x : ℕ)
    (border top left : ℤ) (width : ℕ) (right bottom : ℤ) :
    List pixel_run → ℤ → ℤ → ℚ → List rgba → List rgba
  | [], _, _, _, bitmap => bitmap
  | r :: rest, x, y, sum, bitmap =>
      let visibility := min |sum| 1
      let to_ : ℤ := min (if (r.y : ℤ) = y then (r.x : ℤ) else x + 1)
        (right - border)
      let bitmap1 := if visibility ≥ 1 / 8160 ∧
          top ≤ y + border ∧ y + border < bottom then
          shadow_span operation global_alpha shadow_color shadowBuf size_x
            border top left width visibility (to_ - x).toNat x y bitmap
        else bitmap
      let sum1 := if (r.y : ℤ) ≠ y then 0 else sum
      shadow_composite operation global_alpha shadow_color shadowBuf size_x
        border top left width right bottom rest
        (max (r.x : ℤ) (left - border)) (r.y : ℤ) (sum1 + r.delta) bitmap1

/-- `canvas::render_shadow` (lines 1300-1444). -/
def render_shadow (mf : MathFns) (fuel : ℕ) (c : canvas)
    (brush : paint_brush) (is_image : Bool) : canvas :=
  if c.shadow_color.a = 0 ∨ (c.shadow_blur = 0 ∧ c.shadow_offset_x = 0 ∧
      c.shadow_offset_y = 0) then c else
  let sigma_squared := 0.25 * c.shadow_blur * c.shadow_blur
  let radius : ℕ :=
    (qtoInt (0.5 * mf.sqrtq (4 * sigma_squared + 1) - 0.5)).toNat
  let border : ℤ := 3 * ((radius : ℤ) + 1)
  let offset : xy := ⟨(border : ℚ) + c.shadow_offset_x,
                      (border : ℚ) + c.shadow_offset_y⟩
  let c1 := lines_to_runs fuel c offset (2 * border).toNat
  let left0 := c1.runs.foldl (fun acc r => min acc (r.x : ℤ))
    ((c1.size_x : ℤ) + 2 * border)
  let right0 := c1.runs.foldl (fun acc r => max acc (r.x : ℤ)) 0
  let top0 := c1.runs.foldl (fun acc r => min acc (r.y : ℤ))
    ((c1.size_y : ℤ) + 2 * border)
  let bottom0 := c1.runs.foldl (fun acc r => max acc (r.y : ℤ)) 0
  let left := max (left0 - border) 0
  let right := min (right0 + border) ((c1.size_x : ℤ) + 2 * border) + 1
  let top := max (top0 - border) 0
  let bottom := min (bottom0 + border) ((c1.size_y : ℤ) + 2 * border)
  let width : ℕ := (max (right - left) 0).toNat
  let height : ℕ := (max (bottom - top) 0).toNat
  let working := width * height
  let buf0 : List ℚ := List.replicate working 0
  let buf1 := shadow_rasterize mf c1.inverse brush is_image offset top left
    width c1.runs (-1) (-1) 0 buf0
  let alpha := ((2 * (radius : ℚ) + 1) *
      ((radius : ℚ) * ((radius : ℚ) + 1) - sigma_squared)) /
    (2 * sigma_squared - 6 * ((radius : ℚ) + 1) * ((radius : ℚ) + 1))
  let divisor := 2 * (alpha + (radius : ℚ)) + 1
  let weight_1 := alpha / divisor
  let weight_2 := (1 - alpha) / divisor
  let buf2 := blur_grid weight_1 weight_2 radius width height buf1
  let bitmap' := shadow_composite c1.global_composite_operation
    c1.global_alpha c1.shadow_color buf2 c1.size_x border top left width
    right bottom c1.mask (-1) (-1) 0 c1.bitmap
  { c1 with shadow := buf2, bitmap := bitmap' }

-- Main compositing (lines 1446-1510)

/-- One span of the main compositing loop (lines 1481-1497). -/
def render_span (mf : MathFns) (inverse : affine_matrix)
    (brush : paint_brush) (is_image : Bool) (operation : ℕ)
    (global_alpha coverage visibility : ℚ) (size_x : ℕ) :
    ℕ → ℤ → ℤ → List rgba → List rgba
  | 0, _, _, bitmap => bitmap
  | Nat.succ n, x, y, bitmap =>
      let back := list_get bitmap (y * (size_x : ℤ) + x) ⟨0, 0, 0, 0⟩
      let fore := (coverage * global_alpha) *
        paint_pixel mf inverse ⟨(x : ℚ) + 0.5, (y : ℚ) + 0.5⟩ brush is_image
      let mfv := mix_fore operation back.a
      let mbv := mix_back operation fore.a
      let blend0 := mfv * fore + mbv * back
      let blend : rgba := ⟨blend0.r, blend0.g, blend0.b, min blend0.a 1⟩
      let back' := visibility * blend + (1 - visibility) * back
      render_span mf inverse brush is_image operation global_alpha coverage
        visibility size_x n (x + 1) y
        (list_set bitmap (y * (size_x : ℤ) + x) back')

/-- One step of the merged walk of `canvas::render_main`
(lines 1470-1509), given the selected `next` run: paints the pending
span and advances the position state. -/
def render_step (mf : MathFns) (inverse : affine_matrix)
    (brush : paint_brush) (is_image : Bool) (operation : ℕ)
    (global_alpha : ℚ) (size_x : ℕ) (next : pixel_run)
    (x y : ℤ) (path_sum clip_sum : ℚ) (bitmap : List rgba) :
    List rgba × ℤ × ℤ × ℚ × ℚ :=
  let coverage := min |path_sum| 1
  let visibility := min |clip_sum| 1
  let to_ : ℤ := if (next.y : ℤ) = y then (next.x : ℤ) else x + 1
  let bitmap1 := if (coverage ≥ 1 / 8160 ∨ ¬ operation.testBit 3) ∧
      visibility ≥ 1 / 8160 then
      render_span mf inverse brush is_image operation global_alpha coverage
        visibility size_x (to_ - x).toNat x y bitmap
    else bitmap
  let x1 := (next.x : ℤ)
  if (next.y : ℤ) ≠ y then (bitmap1, x1, (next.y : ℤ), 0, 0)
  else (bitmap1, x1, y, path_sum, clip_sum)

/-- The merged two-list walk of `canvas::render_main`
(lines 1463-1509).  Each step consumes one run from either list, so the
summed lengths (passed by `render_main`) bound the walk exactly. -/
def render_main_loop (mf : MathFns) (inverse : affine_matrix)
    (brush : paint_brush) (is_image : Bool) (operation : ℕ)
    (global_alpha : ℚ) (size_x : ℕ) :
    ℕ → List pixel_run → List pixel_run → ℤ → ℤ → ℚ → ℚ → List rgba →
    List rgba
  | 0, _, _, _, _, _, _, bitmap => bitmap
  | _, _, [], _, _, _, _, bitmap => bitmap
  | Nat.succ fuel, [], m :: mrest, x, y, path_sum, clip_sum, bitmap =>
      let (bitmap1, x1, y1, path_sum1, clip_sum1) :=
        render_step mf inverse brush is_image operation global_alpha size_x
          m x y path_sum clip_sum bitmap
      render_main_loop mf inverse brush is_image operation global_alpha
        size_x fuel [] mrest x1 y1 path_sum1 (clip_sum1 + m.delta) bitmap1
  | Nat.succ fuel, r :: rest, m :: mrest, x, y, path_sum, clip_sum, bitmap =>
      if run_lt r m then
        let (bitmap1, x1, y1, path_sum1, clip_sum1) :=
          render_step mf inverse brush is_image operation global_alpha size_x
            r x y path_sum clip_sum bitmap
        render_main_loop mf inverse brush is_image operation global_alpha
          size_x fuel rest (m :: mrest) x1 y1 (path_sum1 + r.delta) clip_sum1
          bitmap1
      else
        let (bitmap1, x1, y1, path_sum1, clip_sum1) :=
          render_step mf inverse brush is_image operation global_alpha size_x
            m x y path_sum clip_sum bitmap
        render_main_loop mf inverse brush is_image operation global_alpha
          size_x fuel (r :: rest) mrest x1 y1 path_sum1 (clip_sum1 + m.delta)
          bitmap1

/-- `canvas::render_main` (lines 1456-1510). -/
def render_main (mf : MathFns) (fuel : ℕ) (c : canvas)
    (brush : paint_brush) (is_image : Bool) : canvas :=
  if c.forward.a * c.forward.d - c.forward.b * c.forward.c = 0 then c else
  let c1 := render_shadow mf fuel c brush is_image
  let c2 := lines_to_runs fuel c1 ⟨0, 0⟩ 0
  { c2 with bitmap := (render_main_loop mf c2.inverse brush is_image
      c2.global_composite_operation c2.global_alpha c2.size_x
      (c2.runs.length + c2.mask.length) c2.runs c2.mask (-1) (-1) 0 0
      c2.bitmap) }

-- Drawing operations (lines 1949-2108, 2218-2313)

/-- `canvas::fill` (lines 1949-1953). -/
def fill (mf : MathFns) (fuel : ℕ) (c : canvas) : canvas :=
  let c1 := { c with lines := path_to_lines mf c false }
  render_main mf fuel c1 c1.fill_brush false

/-- `canvas::stroke` (lines 1955-1960). -/
def stroke (mf : MathFns) (fuel : ℕ) (c : canvas) : canvas :=
  let c1 := { c with lines := path_to_lines mf c true }
  let c2 := stroke_lines mf fuel c1
  render_main mf fuel c2 c2.stroke_brush false

/-- The two-pointer merge of `canvas::clip` (lines 1969-2003), walking
the freshly scan-converted path runs and the old mask and recording the
deltas of the visibility product. -/
def clip_loop :
    ℕ → List pixel_run → List pixel_run → ℤ → ℚ → ℚ → ℚ →
    List pixel_run → List pixel_run
  | 0, _, _, _, _, _, _, acc => acc
  | _, [], _, _, _, _, _, acc => acc
  | _, _, [], _, _, _, _, acc => acc
  | Nat.succ fuel, r1 :: rest1, r2 :: rest2, y, last, sum_1, sum_2, acc =>
      let which := run_lt r1 r2
      let next := if which then r1 else r2
      let (y1, last1, s1, s2) := if (next.y : ℤ) ≠ y then
          ((next.y : ℤ), (0 : ℚ), (0 : ℚ), (0 : ℚ))
        else (y, last, sum_1, sum_2)
      let (s1', s2') := if which then (s1 + r1.delta, s2)
        else (s1, s2 + r2.delta)
      let rest1' := if which then rest1 else r1 :: rest1
      let rest2' := if which then r2 :: rest2 else rest2
      let visibility := min |s1'| 1 * min |s2'| 1
      if visibility = last1 then
        clip_loop fuel rest1' rest2' y1 last1 s1' s2' acc
      else
        let acc' := match acc.getLast? with
          | some b =>
              if b.x = next.x ∧ b.y = next.y then
                acc.dropLast ++ [{ b with delta := b.delta + (visibility - last1) }]
              else acc ++ [⟨next.x, next.y, visibility - last1⟩]
          | none => acc ++ [⟨next.x, next.y, visibility - last1⟩]
        clip_loop fuel rest1' rest2' y1 visibility s1' s2' acc'

/-- `canvas::clip` (lines 1962-2004).  After the call the `runs` member
holds the path runs with the old mask appended (the source moves the
old mask into `runs` as scratch).  Each merge step consumes one entry,
so the summed lengths bound the walk exactly. -/
def clip (mf : MathFns) (fuel : ℕ) (c : canvas) : canvas :=
  let c1 := { c with lines := path_to_lines mf c false }
  let c2 := lines_to_runs fuel c1 ⟨0, 0⟩ 0
  let new_mask := clip_loop (c2.runs.length + c2.mask.length) c2.runs
    c2.mask (-1) 0 0 0 []
  { c2 with runs := c2.runs ++ c2.mask, mask := new_mask }

/-- The edge test of `canvas::is_point_in_path` (lines 2015-2035) over
one subpath ring; `none` records a boundary hit (immediate `true`). -/
def point_in_subpath (x y : ℚ) (pts : List xy) : Option ℤ :=
  (List.range pts.length).foldl (fun acc index =>
    match acc with
    | none => none
    | some w =>
      let fromP := pts.getD index ⟨0, 0⟩
      let toP := pts.getD (if index + 1 < pts.length then index + 1 else 0)
        ⟨0, 0⟩
      if (fromP.y < y ∧ y ≤ toP.y) ∨ (toP.y < y ∧ y ≤ fromP.y) then
        let side := dot (perpendicular (toP - fromP)) ((⟨x, y⟩ : xy) - fromP)
        if side = 0 then none
        else some (w + (if side > 0 then 1 else -1))
      else if fromP.y = y ∧ y = toP.y ∧
          ((fromP.x ≤ x ∧ x ≤ toP.x) ∨ (toP.x ≤ x ∧ x ≤ fromP.x)) then none
      else some w) (some 0)

def is_point_in_path_go (x y : ℚ) :
    List xy → List subpath_data → ℤ → Option ℤ
  | _, [], w => some w
  | points, sp :: rest, w =>
      match point_in_subpath x y (points.take sp.count) with
      | none => none
      | some dw => is_point_in_path_go x y (points.drop sp.count) rest (w + dw)

/-- `canvas::is_point_in_path` (lines 2006-2037); returns the updated
canvas (the polyline buffer is rebuilt) and the result. -/
def is_point_in_path (mf : MathFns) (c : canvas) (x y : ℚ) :
    canvas × Bool :=
  let c1 := { c with lines := path_to_lines mf c false }
  match is_point_in_path_go x y c1.lines.points c1.lines.subpaths 0 with
  | none => (c1, true)
  | some w => (c1, w ≠ 0)

/-- `canvas::fill_rectangle` (lines 2060-2077). -/
def fill_rectangle (mf : MathFns) (fuel : ℕ) (c : canvas)
    (x y width height : ℚ) : canvas :=
  if width = 0 ∨ height = 0 then c else
  let c1 := { c with lines :=
    (⟨[amul c.forward ⟨x, y⟩, amul c.forward ⟨x + width, y⟩,
       amul c.forward ⟨x + width, y + height⟩,
       amul c.forward ⟨x, y + height⟩],
      [⟨4, true⟩]⟩ : bezier_path) }
  render_main mf fuel c1 c1.fill_brush false

/-- `canvas::stroke_rectangle` (lines 2079-2108). -/
def stroke_rectangle (mf : MathFns) (fuel : ℕ) (c : canvas)
    (x y width height : ℚ) : canvas :=
  if width = 0 ∧ height = 0 then c else
  let newLines : bezier_path :=
    if width = 0 ∨ height = 0 then
      ⟨[amul c.forward ⟨x, y⟩, amul c.forward ⟨x + width, y + height⟩],
       [⟨2, false⟩]⟩
    else
      ⟨[amul c.forward ⟨x, y⟩, amul c.forward ⟨x + width, y⟩,
        amul c.forward ⟨x + width, y + height⟩,
        amul c.forward ⟨x, y + height⟩, amul c.forward ⟨x, y⟩],
       [⟨5, true⟩]⟩
  let c1 := { c with lines := newLines }
  let c2 := stroke_lines mf fuel c1
  render_main mf fuel c2 c2.stroke_brush false

/-- `canvas::clear_rectangle` (lines 2039-2058). -/
def clear_rectangle (mf : MathFns) (fuel : ℕ) (c : canvas)
    (x y width height : ℚ) : canvas :=
  let saved_operation := c.global_composite_operation
  let saved_global_alpha := c.global_alpha
  let saved_alpha := c.shadow_color.a
  let saved_type := c.fill_brush.type
  let c1 := { c with
    global_composite_operation := destination_out
    global_alpha := 1
    shadow_color := { c.shadow_color with a := 0 }
    fill_brush := { c.fill_brush with type := brush_types.color } }
  let c2 := fill_rectangle mf fuel c1 x y width height
  { c2 with
    fill_brush := { c2.fill_brush with type := saved_type }
    shadow_color := { c2.shadow_color with a := saved_alpha }
    global_alpha := saved_global_alpha
    global_composite_operation := saved_operation }

/-- `canvas::draw_image` (lines 2218-2251), for a non-null image. -/
def draw_image (mf : MathFns) (fuel : ℕ) (c : canvas) (image : List ℕ)
    (width height stride : ℕ) (x y to_width to_height : ℚ) : canvas :=
  if width = 0 ∨ height = 0 ∨ to_width = 0 ∨ to_height = 0 then c else
  let cA := { c with fill_brush := c.image_brush, image_brush := c.fill_brush }
  let cB := set_pattern mf cA brush_type.fill_style image width height
    stride rep_repeat
  let c1 := { cB with fill_brush := cB.image_brush, image_brush := cB.fill_brush }
  let c2 := { c1 with lines :=
    (⟨[amul c1.forward ⟨x, y⟩, amul c1.forward ⟨x + to_width, y⟩,
       amul c1.forward ⟨x + to_width, y + to_height⟩,
       amul c1.forward ⟨x, y + to_height⟩],
      [⟨4, true⟩]⟩ : bezier_path) }
  let saved_forward := c2.forward
  let saved_inverse := c2.inverse
  let c3 := scale (translate c2 (x + min 0 to_width) (y + min 0 to_height))
    (|to_width| / (width : ℚ)) (|to_height| / (height : ℚ))
  let c4 := render_main mf fuel c3 c3.image_brush true
  { c4 with forward := saved_forward, inverse := saved_inverse }

/-- `canvas::put_image_data` (lines 2288-2313), for a non-null image. -/
def put_image_data (mf : MathFns) (c : canvas) (image : List ℕ)
    (width height stride : ℕ) (x y : ℤ) : canvas :=
  { c with bitmap := (List.range height).foldl (fun bmpY image_y =>
      (List.range width).foldl (fun bmp image_x =>
        let index := image_y * stride + image_x * 4
        let canvas_x := x + (image_x : ℤ)
        let canvas_y := y + (image_y : ℤ)
        if canvas_x < 0 ∨ (c.size_x : ℤ) ≤ canvas_x ∨
            canvas_y < 0 ∨ (c.size_y : ℤ) ≤ canvas_y then bmp
        else list_set bmp (canvas_y * (c.size_x : ℤ) + canvas_x)
          (premultiplied (linearized mf
            ⟨(image.getD index 0 : ℚ) / 255,
             (image.getD (index + 1) 0 : ℚ) / 255,
             (image.getD (index + 2) 0 : ℚ) / 255,
             (image.getD (index + 3) 0 : ℚ) / 255⟩))) bmpY) c.bitmap }

-- Font loading (lines 2110-2179)

/-- The table-directory walk of `canvas::set_font` (lines 2135-2166):
`Except.error` carries the face state left behind by an early `return
false`. -/
def set_font_tables (font : List ℕ) (bytes : ℤ) (tables : ℕ)
    (face0 : font_face) : Except font_face font_face :=
  (List.range tables).foldl (fun st index =>
    match st with
    | Except.error e => Except.error e
    | Except.ok face =>
        let tag := signed_32 face.data ((index : ℤ) * 16 + 12)
        let offset := signed_32 face.data ((index : ℤ) * 16 + 20)
        let span := signed_32 face.data ((index : ℤ) * 16 + 24)
        if bytes < offset + span then
          Except.error { face with data := [] }
        else
          let place : ℤ := (face.data.length : ℤ)
          let face' :=
            if tag = 0x636d6170 then some { face with cmap := place }
            else if tag = 0x676c7966 then some { face with glyf := place }
            else if tag = 0x68656164 then some { face with head := place }
            else if tag = 0x68686561 then some { face with hhea := place }
            else if tag = 0x686d7478 then some { face with hmtx := place }
            else if tag = 0x6c6f6361 then some { face with loca := place }
            else if tag = 0x6d617870 then some { face with maxp := place }
            else if tag = 0x4f532f32 then some { face with os_2 := place }
            else none
          match face' with
          | none => Except.ok face
          | some f => Except.ok { f with data :=
              f.data ++ ((font.drop offset.toNat).take span.toNat) })
    (Except.ok face0)

/-- `canvas::set_font` (lines 2110-2179); returns the updated canvas
and the success flag.  A null `font` pointer is modelled by the empty
list. -/
def set_font (c : canvas) (font : List ℕ) (bytes : ℤ) (size : ℚ) :
    canvas × Bool :=
  let parsed : Except font_face font_face :=
    if font ≠ [] ∧ bytes ≠ 0 then
      let cleared := { c.face with
        data := ([] : List ℕ)
        cmap := 0
        glyf := 0
        head := 0
        hhea := 0
        hmtx := 0
        loca := 0
        maxp := 0
        os_2 := 0 }
      if bytes < 6 then Except.error cleared else
      let version := signed_32 font 0
      let tables := unsigned_16 font 4
      if (version ≠ 0x00010000 ∧ version ≠ 0x74727565) ∨
          bytes < tables * 16 + 12 then Except.error cleared
      else
        match set_font_tables font bytes tables.toNat
          { cleared with data := font.take (tables * 16 + 12).toNat } with
        | Except.error e => Except.error e
        | Except.ok f =>
            if f.cmap = 0 ∨ f.glyf = 0 ∨ f.head = 0 ∨ f.hhea = 0 ∨
                f.hmtx = 0 ∨ f.loca = 0 ∨ f.maxp = 0 ∨ f.os_2 = 0 then
              Except.error { f with data := [] }
            else Except.ok f
    else Except.ok c.face
  match parsed with
  | Except.error f => ({ c with face := f }, false)
  | Except.ok f =>
      if f.data = [] then ({ c with face := f }, false)
      else
        let units_per_em := unsigned_16 f.data (f.head + 18)
        ({ c with face := { f with scale := size / (units_per_em : ℚ) } }, true)

-- Glyph and text handling (lines 431-751, 2202-2216)

/-- The UTF-8 continuation-byte loop of `canvas::character_to_glyph`
(lines 626-633). -/
def utf8_continue (text : List ℕ) : ℕ → ℤ → ℕ → ℤ × ℕ
  | 0, cp, idx => (cp, idx)
  | Nat.succ k, cp, idx =>
      let b := text.getD idx 0
      if b &&& 0xc0 = 0x80 then
        utf8_continue text k (cp * 64 + ((b &&& 0x3f : ℕ) : ℤ)) (idx + 1)
      else (0xfffd, idx)

/-- The cmap sub-table search and lookup of `canvas::character_to_glyph`
(lines 637-688). -/
def cmap_lookup (face : font_face) (codepoint : ℤ) : ℤ :=
  let tables := unsigned_16 face.data (face.cmap + 2)
  let found := (List.range tables.toNat).foldl
    (fun (acc : ℤ × ℤ × ℤ) table =>
      let platform := unsigned_16 face.data (face.cmap + (table : ℤ) * 8 + 4)
      let encoding := unsigned_16 face.data (face.cmap + (table : ℤ) * 8 + 6)
      let offset := signed_32 face.data (face.cmap + (table : ℤ) * 8 + 8)
      let format := unsigned_16 face.data (face.cmap + offset)
      if platform = 3 ∧ encoding = 10 ∧ format = 12 then
        (face.cmap + offset, acc.2.1, acc.2.2)
      else if platform = 3 ∧ encoding = 1 ∧ format = 4 then
        (acc.1, face.cmap + offset, acc.2.2)
      else if format = 0 then (acc.1, acc.2.1, face.cmap + offset)
      else acc) (0, 0, 0)
  let format_12 := found.1
  let format_4 := found.2.1
  let format_0 := found.2.2
  if format_12 ≠ 0 then
    let groups := signed_32 face.data (format_12 + 12)
    ((List.range groups.toNat).foldl (fun (acc : Option ℤ) group =>
      match acc with
      | some g => some g
      | none =>
          let start := signed_32 face.data (format_12 + 16 + (group : ℤ) * 12)
          let stop := signed_32 face.data (format_12 + 20 + (group : ℤ) * 12)
          let glyph := signed_32 face.data (format_12 + 24 + (group : ℤ) * 12)
          if start ≤ codepoint ∧ codepoint ≤ stop then
            some (codepoint - start + glyph)
          else none) none).getD 0
  else if format_4 ≠ 0 then
    let segments := unsigned_16 face.data (format_4 + 6)
    let end_array := format_4 + 14
    let start_array := end_array + 2 + segments
    let delta_array := start_array + segments
    let range_array := delta_array + segments
    ((List.range ((segments.toNat + 1) / 2)).foldl (fun (acc : Option ℤ) seg2 =>
      match acc with
      | some g => some g
      | none =>
          let segment : ℤ := (seg2 : ℤ) * 2
          let start := unsigned_16 face.data (start_array + segment)
          let stop := unsigned_16 face.data (end_array + segment)
          let delta := signed_16 face.data (delta_array + segment)
          let range := unsigned_16 face.data (range_array + segment)
          if start ≤ codepoint ∧ codepoint ≤ stop then
            some (if range ≠ 0 then
              unsigned_16 face.data
                (range_array + segment + (codepoint - start) * 2 + range)
            else (codepoint + delta) % 65536)
          else none) none).getD 0
  else if format_0 ≠ 0 ∧ 0 ≤ codepoint ∧ codepoint < 256 then
    unsigned_8 face.data (format_0 + 6 + codepoint)
  else 0

/-- `canvas::character_to_glyph` (lines 614-689): decode one UTF-8
codepoint starting at `index` and look up its glyph; returns the glyph
index and the advanced string index. -/
def character_to_glyph (face : font_face) (text : List ℕ) (index : ℕ) :
    ℤ × ℕ :=
  let b0 := text.getD index 0
  let bytes : ℕ :=
    if b0 &&& 0x80 = 0x00 then 1
    else if b0 &&& 0xe0 = 0xc0 then 2
    else if b0 &&& 0xf0 = 0xe0 then 3
    else if b0 &&& 0xf8 = 0xf0 then 4
    else 0
  let masks : List ℕ := [0x0, 0x7f, 0x1f, 0x0f, 0x07]
  let codepoint0 : ℤ := if bytes ≠ 0 then
      ((b0 &&& masks.getD bytes 0 : ℕ) : ℤ)
    else 0xfffd
  let (cp1, idx1) := utf8_continue text (bytes - 1) codepoint0 (index + 1)
  let cp2 : ℤ := if cp1 = 9 ∨ cp1 = 11 ∨ cp1 = 12 ∨ cp1 = 13 ∨ cp1 = 10
    then 32 else cp1
  (cmap_lookup face cp2, idx1)

/-- The first flag pass of the simple-glyph branch of
`canvas::add_glyph` (lines 499-508), sizing the flag and x-delta
arrays.  Each iteration consumes at least one point, so the point count
bounds the iterations. -/
def glyph_flag_sizes (data : List ℕ) (flags_array : ℤ) (points : ℕ) :
    ℕ → ℕ → ℕ → ℕ → ℕ × ℕ
  | 0, _, flags_size, x_size => (flags_size, x_size)
  | Nat.succ fuel, index, flags_size, x_size =>
      if index < points then
        let flags := (unsigned_8 data (flags_array + flags_size)).toNat
        let (flags_size1, repeated) :=
          if flags &&& 8 ≠ 0 then
            (flags_size + 2,
             (unsigned_8 data (flags_array + flags_size + 1)).toNat + 1)
          else (flags_size + 1, 1)
        glyph_flag_sizes data flags_array points fuel (index + repeated)
          flags_size1
          (x_size + repeated *
            (if flags &&& 2 ≠ 0 then 1 else if flags &&& 16 ≠ 0 then 0 else 2))
      else (flags_size, x_size)

/-- The mutable walk state of the second pass of the simple-glyph
branch of `canvas::add_glyph` (lines 511-515). -/
structure glyph_walk where
  flags : ℕ
  repeated : ℕ
  x : ℤ
  y : ℤ
  flags_array : ℤ
  x_array : ℤ
  y_array : ℤ
deriving Repr

/-- One point step of the contour walk (lines 525-575). -/
def glyph_point_step (mf : MathFns) (data : List ℕ) (angular : ℚ)
    (forward : affine_matrix) (first : ℕ) (at_beginning : Bool)
    (st : glyph_walk) (begin_point : xy) (begin_on : Bool)
    (end_point : xy) (end_on : Bool) (pts : List xy) :
    glyph_walk × xy × Bool × xy × Bool × List xy :=
  let (flags, repeated, flags_array) :=
    if st.repeated ≠ 0 then (st.flags, st.repeated - 1, st.flags_array)
    else
      let f := (unsigned_8 data st.flags_array).toNat
      if f &&& 8 ≠ 0 then
        (f, (unsigned_8 data (st.flags_array + 1)).toNat, st.flags_array + 2)
      else (f, 0, st.flags_array + 1)
  let x := if flags &&& 2 ≠ 0 then
      st.x + unsigned_8 data st.x_array * (if flags &&& 16 ≠ 0 then 1 else -1)
    else if flags &&& 16 = 0 then st.x + signed_16 data st.x_array
    else st.x
  let y := if flags &&& 4 ≠ 0 then
      st.y + unsigned_8 data st.y_array * (if flags &&& 32 ≠ 0 then 1 else -1)
    else if flags &&& 32 = 0 then st.y + signed_16 data st.y_array
    else st.y
  let x_array := st.x_array +
    (if flags &&& 2 ≠ 0 then 1 else if flags &&& 16 ≠ 0 then 0 else 2)
  let y_array := st.y_array +
    (if flags &&& 4 ≠ 0 then 1 else if flags &&& 32 ≠ 0 then 0 else 2)
  let point := amul forward ⟨(x : ℚ), (y : ℚ)⟩
  let on_curve : Bool := decide (flags &&& 1 ≠ 0)
  let (begin_point', begin_on', pts') :=
    if at_beginning then
      (point, on_curve, if on_curve then pts ++ [point] else pts)
    else
      let point_2 := if on_curve then point else lerp end_point point (1 / 2)
      if pts.length = first ∨ (end_on ∧ on_curve) then
        (begin_point, begin_on, pts ++ [point_2])
      else if ¬ end_on ∨ on_curve then
        let point_1 := pts.getLastD ⟨0, 0⟩
        let control_1 := lerp point_1 end_point (2 / 3)
        let control_2 := lerp point_2 end_point (2 / 3)
        (begin_point, begin_on,
         add_bezier mf angular point_1 control_1 control_2 point_2 pts)
      else (begin_point, begin_on, pts)
  (⟨flags, repeated, x, y, flags_array, x_array, y_array⟩,
   begin_point', begin_on', point, on_curve, pts')

/-- The per-contour point loop (lines 525-575), iterated
`ending + 1 - index` times. -/
def glyph_contour_walk (mf : MathFns) (data : List ℕ) (angular : ℚ)
    (forward : affine_matrix) (first : ℕ) :
    ℕ → Bool → glyph_walk → xy → Bool → xy → Bool → List xy →
    glyph_walk × xy × Bool × xy × Bool × List xy
  | 0, _, st, bp, bo, ep, eo, pts => (st, bp, bo, ep, eo, pts)
  | Nat.succ n, at_beginning, st, bp, bo, ep, eo, pts =>
      let (st', bp', bo', ep', eo', pts') :=
        glyph_point_step mf data angular forward first at_beginning st bp bo
          ep eo pts
      glyph_contour_walk mf data angular forward first n false st' bp' bo'
        ep' eo' pts'

/-- The contour loop of the simple-glyph branch (lines 516-600). -/
def glyph_contours (mf : MathFns) (data : List ℕ) (angular : ℚ)
    (forward : affine_matrix) (offset : ℤ) :
    ℕ → ℕ → ℕ → glyph_walk → bezier_path → bezier_path
  | 0, _, _, _, lines => lines
  | Nat.succ n, contour, index, st, lines =>
      let ending := (unsigned_16 data (offset + 10 + (contour : ℤ) * 2)).toNat
      let first := lines.points.length
      let count := ending + 1 - index
      let (st', bp, bo, ep, eo, pts) :=
        glyph_contour_walk mf data angular forward first count true st
          ⟨0, 0⟩ false ⟨0, 0⟩ false lines.points
      let pts1 :=
        if bo ≠ eo then
          let point_1 := pts.getLastD ⟨0, 0⟩
          let point_2 := pts.getD first ⟨0, 0⟩
          let control := if eo then bp else ep
          let control_1 := lerp point_1 control (2 / 3)
          let control_2 := lerp point_2 control (2 / 3)
          add_bezier mf angular point_1 control_1 control_2 point_2 pts
        else if ¬ bo ∧ ¬ eo then
          let point_1 := pts.getLastD ⟨0, 0⟩
          let split := lerp bp ep (1 / 2)
          let point_2 := pts.getD first ⟨0, 0⟩
          let left_1 := lerp point_1 ep (2 / 3)
          let left_2 := lerp split ep (2 / 3)
          let right_1 := lerp split bp (2 / 3)
          let right_2 := lerp point_2 bp (2 / 3)
          add_bezier mf angular split right_1 right_2 point_2
            (add_bezier mf angular point_1 left_1 left_2 split pts)
        else pts
      let pts2 := pts1 ++ [pts1.getD first ⟨0, 0⟩]
      glyph_contours mf data angular forward offset n (contour + 1)
        (ending + 1) st'
        ⟨pts2, lines.subpaths ++ [⟨pts2.length - first, true⟩]⟩

/-- The forward-transform composition used by `canvas::transform`, at
the matrix level (for the temporary transforms of glyph drawing). -/
def compose_forward (m : affine_matrix) (a b cc d e f : ℚ) : affine_matrix :=
  ⟨m.a * a + m.c * b, m.b * a + m.d * b,
   m.a * cc + m.c * d, m.b * cc + m.d * d,
   m.a * e + m.c * f + m.e, m.b * e + m.d * f + m.f⟩

mutual

/-- `canvas::add_glyph` (lines 438-601).  The composite-glyph recursion
is not depth-bounded by the source, so it takes explicit fuel. -/
def add_glyph (mf : MathFns) (face : font_face) (angular : ℚ) :
    ℕ → affine_matrix → ℤ → bezier_path → bezier_path
  | 0, _, _, lines => lines
  | Nat.succ fuel, forward, glyph, lines =>
      let data := face.data
      let loc_format := unsigned_16 data (face.head + 50)
      let offset := face.glyf + (if loc_format ≠ 0 then
          signed_32 data (face.loca + glyph * 4)
        else unsigned_16 data (face.loca + glyph * 2) * 2)
      let next := face.glyf + (if loc_format ≠ 0 then
          signed_32 data (face.loca + glyph * 4 + 4)
        else unsigned_16 data (face.loca + glyph * 2 + 2) * 2)
      if offset = next then lines else
      let contours := signed_16 data offset
      if contours < 0 then
        add_glyph_composite mf face angular fuel forward (offset + 10) lines
      else
        let hmetrics := unsigned_16 data (face.hhea + 34)
        let left_side_bearing := if glyph < hmetrics then
            signed_16 data (face.hmtx + glyph * 4 + 2)
          else signed_16 data (face.hmtx + hmetrics * 2 + glyph * 2)
        let x_min := signed_16 data (offset + 2)
        let points := (unsigned_16 data (offset + 8 + contours * 2)).toNat + 1
        let instructions := unsigned_16 data (offset + 10 + contours * 2)
        let flags_array := offset + 12 + contours * 2 + instructions
        let (flags_size, x_size) :=
          glyph_flag_sizes data flags_array points points 0 0 0
        let x_array := flags_array + flags_size
        let y_array := x_array + x_size
        glyph_contours mf data angular forward offset contours.toNat 0 0
          ⟨0, 0, left_side_bearing - x_min, 0, flags_array, x_array, y_array⟩
          lines

/-- The composite-glyph loop of `canvas::add_glyph` (lines 452-489). -/
def add_glyph_composite (mf : MathFns) (face : font_face) (angular : ℚ) :
    ℕ → affine_matrix → ℤ → bezier_path → bezier_path
  | 0, _, _, lines => lines
  | Nat.succ fuel, forward, offset, lines =>
      let data := face.data
      let flags := (unsigned_16 data offset).toNat
      let component := unsigned_16 data (offset + 2)
      if flags &&& 2 = 0 then lines else
      let e : ℚ := ((if flags &&& 1 ≠ 0 then signed_16 data (offset + 4)
        else signed_8 data (offset + 4)) : ℤ)
      let f : ℚ := ((if flags &&& 1 ≠ 0 then signed_16 data (offset + 6)
        else signed_8 data (offset + 5)) : ℤ)
      let offset1 := offset + (if flags &&& 1 ≠ 0 then 8 else 6)
      let a : ℚ := if flags &&& 200 ≠ 0 then
          ((signed_16 data offset1 : ℤ) : ℚ) / 16384 else 1
      let b : ℚ := if flags &&& 128 ≠ 0 then
          ((signed_16 data (offset1 + 2) : ℤ) : ℚ) / 16384 else 0
      let cc : ℚ := if flags &&& 128 ≠ 0 then
          ((signed_16 data (offset1 + 4) : ℤ) : ℚ) / 16384 else 0
      let d : ℚ := if flags &&& 8 ≠ 0 then a
        else if flags &&& 64 ≠ 0 then
          ((signed_16 data (offset1 + 2) : ℤ) : ℚ) / 16384
        else if flags &&& 128 ≠ 0 then
          ((signed_16 data (offset1 + 6) : ℤ) : ℚ) / 16384
        else 1
      let offset2 := offset1 + (if flags &&& 8 ≠ 0 then 2
        else if flags &&& 64 ≠ 0 then 4
        else if flags &&& 128 ≠ 0 then 8 else 0)
      let lines1 := add_glyph mf face angular fuel
        (compose_forward forward a b cc d e f) component lines
      if flags &&& 32 = 0 then lines1
      else add_glyph_composite mf face angular fuel forward offset2 lines1

end

/-- The width-accumulation loop of `canvas::measure_text`
(lines 2209-2214); the string index strictly advances, so the string
length bounds the iterations. -/
def measure_loop (face : font_face) (text : List ℕ) (hmetrics : ℤ) :
    ℕ → ℕ → ℤ → ℤ
  | 0, _, width => width
  | Nat.succ fuel, index, width =>
      if text.getD index 0 ≠ 0 then
        let (glyph, index') := character_to_glyph face text index
        let entry := min glyph (hmetrics - 1)
        measure_loop face text hmetrics fuel index'
          (width + unsigned_16 face.data (face.hmtx + entry * 4))
      else width

/-- `canvas::measure_text` (lines 2202-2216).  The terminating NUL is
implicit: reads past the end of the byte list yield 0. -/
def measure_text (c : canvas) (text : List ℕ) : ℚ :=
  if c.face.data = [] then 0 else
  let hmetrics := unsigned_16 c.face.data (c.face.hhea + 34)
  ((measure_loop c.face text hmetrics (text.length + 1) 0 0 : ℤ) : ℚ) *
    c.face.scale

/-- The glyph placement loop of `canvas::text_to_lines`
(lines 737-748): each glyph is drawn under a temporary transform that
maps font units to canvas pixels; the saved transform is restored
afterwards, so the loop's net effect is on the polylines only. -/
def text_glyphs_loop (mf : MathFns) (face : font_face) (angular : ℚ)
    (fuel : ℕ) (saved_forward : affine_matrix) (scaling : xy)
    (position : xy) (hmetrics : ℤ) (text : List ℕ) :
    ℕ → ℕ → ℤ → bezier_path → bezier_path
  | 0, _, _, lines => lines
  | Nat.succ n, index, place, lines =>
      if text.getD index 0 ≠ 0 then
        let (glyph, index') := character_to_glyph face text index
        let forward := compose_forward saved_forward scaling.x 0 0
          (-scaling.y) (position.x + (place : ℚ) * scaling.x) position.y
        let lines1 := add_glyph mf face angular fuel forward glyph lines
        let entry := min glyph (hmetrics - 1)
        text_glyphs_loop mf face angular fuel saved_forward scaling position
          hmetrics text n index'
          (place + unsigned_16 face.data (face.hmtx + entry * 4)) lines1
      else lines

/-- `canvas::text_to_lines` (lines 698-751): layout and tessellate a
text string, producing the new polyline data.  The transform fields are
saved and restored by the source, so the result is the new `lines`
member only. -/
def text_to_lines (mf : MathFns) (fuel : ℕ) (c : canvas) (text : List ℕ)
    (position0 : xy) (maximum_width : ℚ) (stroking : Bool) : bezier_path :=
  let tolerance : ℚ := 0.125
  let ratio := tolerance / max (0.5 * c.line_width) tolerance
  let angular : ℚ := if stroking then (ratio - 2) * ratio * 2 + 1 else -1
  if c.face.data = [] ∨ maximum_width ≤ 0 then bezier_path.empty else
  let width : ℚ := if maximum_width = 1e30 ∧ c.text_align = align_leftward
    then 0 else measure_text c text
  let reduction := maximum_width / max maximum_width width
  let position1 : xy :=
    if c.text_align = align_rightward then
      ⟨position0.x - width * reduction, position0.y⟩
    else if c.text_align = align_center then
      ⟨position0.x - 0.5 * width * reduction, position0.y⟩
    else position0
  let scaling : xy := c.face.scale * (⟨reduction, 1⟩ : xy)
  let units_per_em : ℚ := ((unsigned_16 c.face.data (c.face.head + 18) : ℤ) : ℚ)
  let ascender : ℚ := ((signed_16 c.face.data (c.face.os_2 + 68) : ℤ) : ℚ)
  let descender : ℚ := ((signed_16 c.face.data (c.face.os_2 + 70) : ℤ) : ℚ)
  let normalize := c.face.scale * units_per_em / (ascender - descender)
  let position : xy :=
    if c.text_baseline = baseline_top then
      ⟨position1.x, position1.y + ascender * normalize⟩
    else if c.text_baseline = baseline_middle then
      ⟨position1.x, position1.y + (ascender + descender) * 0.5 * normalize⟩
    else if c.text_baseline = baseline_bottom then
      ⟨position1.x, position1.y + descender * normalize⟩
    else if c.text_baseline = baseline_hanging then
      ⟨position1.x, position1.y + 0.6 * c.face.scale * units_per_em⟩
    else position1
  let hmetrics := unsigned_16 c.face.data (c.face.hhea + 34)
  text_glyphs_loop mf c.face angular fuel c.forward scaling position
    hmetrics text (text.length + 1) 0 0 bezier_path.empty

/-- `canvas::fill_text` (lines 2181-2189), for a non-null string. -/
def fill_text (mf : MathFns) (fuel : ℕ) (c : canvas) (text : List ℕ)
    (x y maximum_width : ℚ) : canvas :=
  let c1 := { c with lines := (text_to_lines mf fuel c text ⟨x, y⟩
    maximum_width false) }
  render_main mf fuel c1 c1.fill_brush false

/-- `canvas::stroke_text` (lines 2191-2200), for a non-null string. -/
def stroke_text (mf : MathFns) (fuel : ℕ) (c : canvas) (text : List ℕ)
    (x y maximum_width : ℚ) : canvas :=
  let c1 := { c with lines := (text_to_lines mf fuel c text ⟨x, y⟩
    maximum_width true) }
  let c2 := stroke_lines mf fuel c1
  render_main mf fuel c2 c2.stroke_brush false

-- The public mutating API as an operation type.  The seven enum-valued
-- public data members (composite op, shadow offsets, cap, join, dash
-- offset, text align and baseline) are written directly by callers in
-- the source, so they appear as assignment operations.

inductive Op where
  | assign_global_composite_operation (v : ℕ)
  | assign_shadow_offset_x (v : ℚ)
  | assign_shadow_offset_y (v : ℚ)
  | assign_line_cap (v : cap_style)
  | assign_line_join (v : join_style)
  | assign_line_dash_offset (v : ℚ)
  | assign_text_align (v : ℕ)
  | assign_text_baseline (v : ℕ)
  | op_scale (x y : ℚ)
  | op_rotate (angle : ℚ)
  | op_translate (x y : ℚ)
  | op_transform (a b cc d e f : ℚ)
  | op_set_transform (a b cc d e f : ℚ)
  | op_set_global_alpha (alpha : ℚ)
  | op_set_shadow_color (red green blue alpha : ℚ)
  | op_set_shadow_blur (level : ℚ)
  | op_set_line_width (width : ℚ)
  | op_set_miter_limit (limit : ℚ)
  | op_set_line_dash (segments : List ℚ)
  | op_set_color (type : brush_type) (red green blue alpha : ℚ)
  | op_set_linear_gradient (type : brush_type) (sx sy ex ey : ℚ)
  | op_set_radial_gradient (type : brush_type) (sx sy sr ex ey er : ℚ)
  | op_add_color_stop (type : brush_type) (offset red green blue alpha : ℚ)
  | op_set_pattern (type : brush_type) (image : List ℕ)
      (width height stride : ℕ) (repetition : ℕ)
  | op_set_font (font : List ℕ) (bytes : ℤ) (size : ℚ)
  | op_begin_path
  | op_move_to (x y : ℚ)
  | op_close_path
  | op_line_to (x y : ℚ)
  | op_quadratic_curve_to (cx cy x y : ℚ)
  | op_bezier_curve_to (c1x c1y c2x c2y x y : ℚ)
  | op_arc_to (vx vy x y radius : ℚ)
  | op_arc (x y radius a1 a2 : ℚ) (ccw : Bool)
  | op_rectangle (x y w h : ℚ)
  | op_fill
  | op_stroke
  | op_clip
  | op_is_point_in_path (x y : ℚ)
  | op_clear_rectangle (x y w h : ℚ)
  | op_fill_rectangle (x y w h : ℚ)
  | op_stroke_rectangle (x y w h : ℚ)
  | op_fill_text (text : List ℕ) (x y mw : ℚ)
  | op_stroke_text (text : List ℕ) (x y mw : ℚ)
  | op_draw_image (image : List ℕ) (width height stride : ℕ)
      (x y tw th : ℚ)
  | op_put_image_data (image : List ℕ) (width height stride : ℕ) (x y : ℤ)
  | op_save
  | op_restore

/-- Apply one public operation to a canvas. -/
def apply (mf : MathFns) (fuel : ℕ) (op : Op) (c : canvas) : canvas :=
  match op with
  | Op.assign_global_composite_operation v =>
      { c with global_composite_operation := v }
  | Op.assign_shadow_offset_x v => { c with shadow_offset_x := v }
  | Op.assign_shadow_offset_y v => { c with shadow_offset_y := v }
  | Op.assign_line_cap v => { c with line_cap := v }
  | Op.assign_line_join v => { c with line_join := v }
  | Op.assign_line_dash_offset v => { c with line_dash_offset := v }
  | Op.assign_text_align v => { c with text_align := v }
  | Op.assign_text_baseline v => { c with text_baseline := v }
  | Op.op_scale x y => scale c x y
  | Op.op_rotate angle => rotate mf c angle
  | Op.op_translate x y => translate c x y
  | Op.op_transform a b cc d e f => transform c a b cc d e f
  | Op.op_set_transform a b cc d e f => set_transform c a b cc d e f
  | Op.op_set_global_alpha alpha => set_global_alpha c alpha
  | Op.op_set_shadow_color r g b a => set_shadow_color mf c r g b a
  | Op.op_set_shadow_blur level => set_shadow_blur c level
  | Op.op_set_line_width width => set_line_width c width
  | Op.op_set_miter_limit limit => set_miter_limit c limit
  | Op.op_set_line_dash segments => set_line_dash c segments
  | Op.op_set_color t r g b a => set_color mf c t r g b a
  | Op.op_set_linear_gradient t sx sy ex ey =>
      set_linear_gradient c t sx sy ex ey
  | Op.op_set_radial_gradient t sx sy sr ex ey er =>
      set_radial_gradient c t sx sy sr ex ey er
  | Op.op_add_color_stop t o r g b a => add_color_stop mf c t o r g b a
  | Op.op_set_pattern t image w h s rep => set_pattern mf c t image w h s rep
  | Op.op_set_font font bytes size => (set_font c font bytes size).1
  | Op.op_begin_path => begin_path c
  | Op.op_move_to x y => move_to c x y
  | Op.op_close_path => close_path c
  | Op.op_line_to x y => line_to c x y
  | Op.op_quadratic_curve_to cx cy x y => quadratic_curve_to c cx cy x y
  | Op.op_bezier_curve_to c1x c1y c2x c2y x y =>
      bezier_curve_to c c1x c1y c2x c2y x y
  | Op.op_arc_to vx vy x y radius => arc_to mf c vx vy x y radius
  | Op.op_arc x y radius a1 a2 ccw => arc mf c x y radius a1 a2 ccw
  | Op.op_rectangle x y w h => rectangle c x y w h
  | Op.op_fill => fill mf fuel c
  | Op.op_stroke => stroke mf fuel c
  | Op.op_clip => clip mf fuel c
  | Op.op_is_point_in_path x y => (is_point_in_path mf c x y).1
  | Op.op_clear_rectangle x y w h => clear_rectangle mf fuel c x y w h
  | Op.op_fill_rectangle x y w h => fill_rectangle mf fuel c x y w h
  | Op.op_stroke_rectangle x y w h => stroke_rectangle mf fuel c x y w h
  | Op.op_fill_text text x y mw => fill_text mf fuel c text x y mw
  | Op.op_stroke_text text x y mw => stroke_text mf fuel c text x y mw
  | Op.op_draw_image image w h s x y tw th =>
      draw_image mf fuel c image w h s x y tw th
  | Op.op_put_image_data image w h s x y => put_image_data mf c image w h s x y
  | Op.op_save => save c
  | Op.op_restore => restore c

/-- Apply a sequence of operations left to right. -/
def applyList (mf : MathFns) (fuel : ℕ) (ops : List Op) (c : canvas) :
    canvas :=
  ops.foldl (fun st op => apply mf fuel op st) c

/-- The style-setting operations of the public API: those that modify
only the style state (no path building, no drawing, no state stack). -/
def isStyleOp : Op → Prop
  | Op.assign_global_composite_operation _ => True
  | Op.assign_shadow_offset_x _ => True
  | Op.assign_shadow_offset_y _ => True
  | Op.assign_line_cap _ => True
  | Op.assign_line_join _ => True
  | Op.assign_line_dash_offset _ => True
  | Op.assign_text_align _ => True
  | Op.assign_text_baseline _ => True
  | Op.op_scale _ _ => True
  | Op.op_rotate _ => True
  | Op.op_translate _ _ => True
  | Op.op_transform _ _ _ _ _ _ => True
  | Op.op_set_transform _ _ _ _ _ _ => True
  | Op.op_set_global_alpha _ => True
  | Op.op_set_shadow_color _ _ _ _ => True
  | Op.op_set_shadow_blur _ => True
  | Op.op_set_line_width _ => True
  | Op.op_set_miter_limit _ => True
  | Op.op_set_line_dash _ => True
  | Op.op_set_color _ _ _ _ _ => True
  | Op.op_set_linear_gradient _ _ _ _ _ => True
  | Op.op_set_radial_gradient _ _ _ _ _ _ _ => True
  | Op.op_add_color_stop _ _ _ _ _ _ => True
  | Op.op_set_pattern _ _ _ _ _ _ => True
  | Op.op_set_font _ _ _ => True
  | _ => False

/-- The drawing operations named by the specification: those that can
composite into the pixel buffer. -/
def isDrawOp : Op → Prop
  | Op.op_fill => True
  | Op.op_stroke => True
  | Op.op_fill_rectangle _ _ _ _ => True
  | Op.op_stroke_rectangle _ _ _ _ => True
  | Op.op_clear_rectangle _ _ _ _ => True
  | Op.op_fill_text _ _ _ _ => True
  | Op.op_stroke_text _ _ _ _ => True
  | Op.op_draw_image _ _ _ _ _ _ _ _ => True
  | _ => False

/-- The path-building operations of the public API. -/
def isPathOp : Op → Prop
  | Op.op_begin_path => True
  | Op.op_move_to _ _ => True
  | Op.op_close_path => True
  | Op.op_line_to _ _ => True
  | Op.op_quadratic_curve_to _ _ _ _ => True
  | Op.op_bezier_curve_to _ _ _ _ _ _ => True
  | Op.op_arc_to _ _ _ _ _ => True
  | Op.op_arc _ _ _ _ _ _ => True
  | Op.op_rectangle _ _ _ _ => True
  | _ => False

-- Decidable statements of the run-list invariant claimed by the
-- specification.

/-- Sorted by the source's `operator<`:
(y ascending, x ascending, |delta| ascending). -/
def runs_sorted : List pixel_run → Bool
  | a :: b :: rest => !(run_lt b a) && runs_sorted (b :: rest)
  | _ => true

/-- No two entries share the same (x, y). -/
def runs_unique : List pixel_run → Bool
  | [] => true
  | a :: rest =>
      rest.all (fun b => !(decide (b.x = a.x) && decide (b.y = a.y))) &&
      runs_unique rest

/-- No zero-delta run except possibly the first run on a row. -/
def zero_delta_ok : List pixel_run → Bool
  | a :: b :: rest =>
      (decide (b.delta ≠ 0) || decide (b.y ≠ a.y)) &&
      zero_delta_ok (b :: rest)
  | _ => true

/-- The invariant exactly as the specification states it. -/
def runs_claim_invariant (l : List pixel_run) : Bool :=
  runs_sorted l && runs_unique l && zero_delta_ok l

/-- The positional key (row-major) of a run. -/
def pos_key (r : pixel_run) : ℕ ×ₗ ℕ := toLex (r.y, r.x)

/-- The full sort key of a run: (y, x, |delta|) lexicographically. -/
def run_key (r : pixel_run) : ℕ ×ₗ (ℕ ×ₗ ℚ) :=
  toLex (r.y, toLex (r.x, |r.delta|))

/-- Canonical-form invariant of a run list: strictly increasing
positional keys (which yields sortedness and (x,y)-uniqueness). -/
def mask_inv (l : List pixel_run) : Prop :=
  List.Chain' (fun a b => pos_key a < pos_key b) l

/-- The mask invariant over a whole canvas, including every saved
state's mask. -/
def canvas_mask_inv (c : canvas) : Prop :=
  mask_inv c.mask ∧ ∀ s ∈ c.saves, mask_inv s.mask

/-- A math-function bundle with all-zero values, for concrete
evaluations whose control paths never consult it. -/
def mf0 : MathFns :=
  ⟨fun _ => 0, fun _ => 0, fun _ => 0, fun _ => 0, fun _ => 0,
   fun _ _ => 0, fun _ _ => 0⟩

/-- A float argument value: either NaN or a finite value (modelled as a
rational). -/
inductive fval where
  | nan
  | fin (q : ℚ)
deriving DecidableEq, Repr

/-- IEEE-754 `<=` as the C source evaluates it: any comparison with NaN
is false. -/
def fle : fval → fval → Bool
  | fval.fin a, fval.fin b => decide (a ≤ b)
  | _, _ => false

/-- `canvas::set_global_alpha` (lines 1618-1623) with the argument
modelled at IEEE semantics, exposing the NaN case of the guard
`0.0f <= alpha && alpha <= 1.0f`; returns the new stored value. -/
def set_global_alpha_float (global_alpha : ℚ) (alpha : fval) : ℚ :=
  if fle (fval.fin 0) alpha && fle alpha (fval.fin 1) then
    match alpha with
    | fval.fin q => q
    | fval.nan => global_alpha
  else global_alpha

/-- The path representation invariant claimed by the specification:
the sub-path counts sum to the point-list length. -/
def path_inv (p : bezier_path) : Prop :=
  (p.subpaths.map subpath_data.count).sum = p.points.length

/-- Determinant of the 2×2 part of an affine matrix, the quantity the
source's draw guards test against zero. -/
def det (m : affine_matrix) : ℚ := m.a * m.d - m.b * m.c

/-- The observable style state of a canvas: exactly the fields that the
source's `save` copies into a new state node (lines 2315-2340). -/
def style_state (c : canvas) : saved_state :=
  ⟨c.global_composite_operation, c.shadow_offset_x, c.shadow_offset_y,
   c.line_cap, c.line_join, c.line_dash_offset, c.text_align,
   c.text_baseline, c.forward, c.inverse, c.global_alpha,
   c.shadow_color, c.shadow_blur, c.line_width, c.miter_limit,
   c.line_dash, c.fill_brush, c.stroke_brush, c.mask, c.face⟩

-- ======================================================================
-- Theorems
-- ======================================================================

/-- Claim C1, counterexample: the spec's section 6 table does not match
the enum values that `render_main` uses as 4-bit masks (reading each
table entry as the binary value of the mask with bit 0 selecting back.a
into mix_fore, bit 1 inverting mix_fore, bit 2 selecting fore.a into
mix_back, bit 3 inverting mix_back).  In particular `source_over` is
14 = 1110, not 0101. -/
theorem C1_counterexample :
    ¬ (source_over = 0b0101 ∧ source_in = 0b0001 ∧ source_out = 0b0011 ∧
       source_atop = 0b0100 ∧ source_copy = 0b0010 ∧
       destination_over = 0b1100 ∧ destination_out = 0b1000 ∧
       destination_atop = 0b0111 ∧ exclusive_or = 0b1111) := by
  decide

/-- Claim C1, amended: the 4-bit mask value used by `render_main` for
each composite operation is the enum value itself; the correct table is
source_over = 1110, source_in = 0001, source_out = 0011,
source_atop = 1101, source_copy = 0010, destination_over = 1011,
destination_out = 1100, destination_atop = 0111, exclusive_or = 1111.
Bit 0 selects back.a into mix_fore, bit 1 inverts mix_fore, bit 2
selects fore.a into mix_back, bit 3 inverts mix_back (illustrated for
source_over and source_in). -/
theorem C1_mask_table :
    (source_over = 0b1110 ∧ source_in = 0b0001 ∧ source_out = 0b0011 ∧
     source_atop = 0b1101 ∧ source_copy = 0b0010 ∧
     destination_over = 0b1011 ∧ destination_out = 0b1100 ∧
     destination_atop = 0b0111 ∧ exclusive_or = 0b1111) ∧
    (∀ backA : ℚ, mix_fore source_over backA = 1) ∧
    (∀ foreA : ℚ, mix_back source_over foreA = 1 - foreA) ∧
    (∀ backA : ℚ, mix_fore source_in backA = backA) ∧
    (∀ foreA : ℚ, mix_back source_in foreA = 0) := by
  have t140 : Nat.testBit 14 0 = false := by decide
  have t141 : Nat.testBit 14 1 = true := by decide
  have t142 : Nat.testBit 14 2 = true := by decide
  have t143 : Nat.testBit 14 3 = true := by decide
  have t10 : Nat.testBit 1 0 = true := by decide
  have t11 : Nat.testBit 1 1 = false := by decide
  have t12 : Nat.testBit 1 2 = false := by decide
  have t13 : Nat.testBit 1 3 = false := by decide
  refine ⟨by decide, ?_, ?_, ?_, ?_⟩ <;> intro v <;>
    simp [mix_fore, mix_back, source_over, source_in,
      t140, t141, t142, t143, t10, t11, t12, t13]

/-- Claim C7: `set_line_dash` rejects the whole call if any segment is
negative; otherwise an odd-length array is stored self-appended and an
even-length array is stored as a copy, with no other state change. -/
theorem C7_set_line_dash (c : canvas) (segments : List ℚ) :
    ((∃ s ∈ segments, s < 0) → set_line_dash c segments = c) ∧
    ((∀ s ∈ segments, 0 ≤ s) → segments.length % 2 = 1 →
      set_line_dash c segments = { c with line_dash := segments ++ segments }) ∧
    ((∀ s ∈ segments, 0 ≤ s) → segments.length % 2 = 0 →
      set_line_dash c segments = { c with line_dash := segments }) := by
  have hno : (∀ s ∈ segments, 0 ≤ s) →
      ¬ (segments.any (fun s => decide (s < 0)) = true) := by
    intro hpos h
    obtain ⟨s, hs, hneg⟩ := List.any_eq_true.mp h
    exact absurd (hpos s hs) (not_le.mpr (by simpa using hneg))
  refine ⟨?_, ?_, ?_⟩
  · intro h
    obtain ⟨s, hs, hneg⟩ := h
    unfold set_line_dash
    rw [if_pos]
    exact List.any_eq_true.mpr ⟨s, hs, by simpa using hneg⟩
  · intro hpos hodd
    unfold set_line_dash
    rw [if_neg (hno hpos), if_pos hodd]
  · intro hpos heven
    unfold set_line_dash
    rw [if_neg (hno hpos), if_neg (by omega)]
    simp

/-- Witness for C7 at concrete inputs: a negative entry rejects the
call, an odd-length array self-appends, an even-length array copies. -/
theorem C7_set_line_dash_witness :
    (set_line_dash (canvas_new mf0 1 1) [-1] = canvas_new mf0 1 1) ∧
    (set_line_dash (canvas_new mf0 1 1) [1, 2, 3] =
      { canvas_new mf0 1 1 with line_dash := [1, 2, 3] ++ [1, 2, 3] }) ∧
    (set_line_dash (canvas_new mf0 1 1) [1, 2] =
      { canvas_new mf0 1 1 with line_dash := [1, 2] }) :=
  ⟨(C7_set_line_dash (canvas_new mf0 1 1) [-1]).1
      ⟨-1, by decide, by norm_num⟩,
   (C7_set_line_dash (canvas_new mf0 1 1) [1, 2, 3]).2.1
      (by intro s hs; fin_cases hs <;> norm_num) (by decide),
   (C7_set_line_dash (canvas_new mf0 1 1) [1, 2]).2.2
      (by intro s hs; fin_cases hs <;> norm_num) (by decide)⟩

/-- Claim C9: `set_global_alpha` stores the argument exactly when it
lies in [0, 1] and is a no-op when the argument is below 0, above 1, or
NaN (the source's guard `0.0f <= alpha && alpha <= 1.0f` is false for
NaN under IEEE comparison semantics). -/
theorem C9_set_global_alpha :
    (∀ g : ℚ, set_global_alpha_float g fval.nan = g) ∧
    (∀ g q : ℚ, q < 0 ∨ 1 < q → set_global_alpha_float g (fval.fin q) = g) ∧
    (∀ g q : ℚ, 0 ≤ q → q ≤ 1 → set_global_alpha_float g (fval.fin q) = q) ∧
    (∀ (c : canvas) (q : ℚ), q < 0 ∨ 1 < q → set_global_alpha c q = c) ∧
    (∀ (c : canvas) (q : ℚ), 0 ≤ q → q ≤ 1 →
      (set_global_alpha c q).global_alpha = q) := by
  have hfin : ∀ g q : ℚ, set_global_alpha_float g (fval.fin q) =
      if 0 ≤ q ∧ q ≤ 1 then q else g := by
    intro g q
    by_cases h0 : 0 ≤ q <;> by_cases h1 : q ≤ 1 <;>
      simp [set_global_alpha_float, fle, h0, h1]
  refine ⟨fun g => rfl, ?_, ?_, ?_, ?_⟩
  · intro g q hq
    rw [hfin, if_neg]
    rintro ⟨h0, h1⟩
    rcases hq with h | h
    · exact absurd h0 (not_le.mpr h)
    · exact absurd h1 (not_le.mpr h)
  · intro g q h0 h1
    rw [hfin, if_pos ⟨h0, h1⟩]
  · intro c q hq
    unfold set_global_alpha
    rw [if_neg]
    rintro ⟨h0, h1⟩
    rcases hq with h | h
    · exact absurd h0 (not_le.mpr h)
    · exact absurd h1 (not_le.mpr h)
  · intro c q h0 h1
    unfold set_global_alpha
    rw [if_pos ⟨h0, h1⟩]

/-- Witness for C9 at concrete inputs: NaN and 2 are rejected, 1/4 and
3/4 are stored. -/
theorem C9_set_global_alpha_witness :
    (set_global_alpha_float (1/2) fval.nan = 1/2) ∧
    (set_global_alpha_float (1/2) (fval.fin 2) = 1/2) ∧
    (set_global_alpha_float (1/2) (fval.fin (1/4)) = 1/4) ∧
    (set_global_alpha (canvas_new mf0 1 1) 2 = canvas_new mf0 1 1) ∧
    ((set_global_alpha (canvas_new mf0 1 1) (3/4)).global_alpha = 3/4) :=
  ⟨C9_set_global_alpha.1 (1/2),
   C9_set_global_alpha.2.1 (1/2) 2 (Or.inr (by norm_num)),
   C9_set_global_alpha.2.2.1 (1/2) (1/4) (by norm_num) (by norm_num),
   C9_set_global_alpha.2.2.2.1 (canvas_new mf0 1 1) 2 (Or.inr (by norm_num)),
   C9_set_global_alpha.2.2.2.2 (canvas_new mf0 1 1) (3/4) (by norm_num)
     (by norm_num)⟩

/-- Claim C10: after `clear_rectangle` returns, the composite
operation, global alpha, shadow alpha, and fill-brush type equal their
values before the call, even though the call internally switches them
to destination_out, 1, 0, and solid color. -/
theorem C10_clear_rectangle_restores (mf : MathFns) (fuel : ℕ)
    (c : canvas) (x y width height : ℚ) :
    (clear_rectangle mf fuel c x y width height).global_composite_operation =
      c.global_composite_operation ∧
    (clear_rectangle mf fuel c x y width height).global_alpha =
      c.global_alpha ∧
    (clear_rectangle mf fuel c x y width height).shadow_color.a =
      c.shadow_color.a ∧
    (clear_rectangle mf fuel c x y width height).fill_brush.type =
      c.fill_brush.type :=
  ⟨rfl, rfl, rfl, rfl⟩

-- Helper lemmas about the path builder, shared by several claims.

theorem move_to_subpaths_ne_nil (c : canvas) (x y : ℚ) :
    (move_to c x y).path.subpaths ≠ [] := by
  unfold move_to
  split
  · next h => simpa using h.1
  · simp

theorem subpaths_concat_of_ne_nil {l : List subpath_data} (h : l ≠ []) :
    ∃ s l', l = l' ++ [s] := by
  rcases List.eq_nil_or_concat l with h' | ⟨l', s, h'⟩
  · exact absurd h' h
  · exact ⟨s, l', by simpa [List.concat_eq_append] using h'⟩

theorem bump_last_subpath_ne_nil {l : List subpath_data} (h : l ≠ [])
    (n : ℕ) : bump_last_subpath l n ≠ [] := by
  obtain ⟨s, l', rfl⟩ := subpaths_concat_of_ne_nil h
  simp [bump_last_subpath]

theorem line_to_subpaths_ne_nil (c : canvas) (x y : ℚ) :
    (line_to c x y).path.subpaths ≠ [] := by
  unfold line_to
  split
  · exact move_to_subpaths_ne_nil c x y
  next hne =>
    dsimp only
    split
    · exact hne
    · exact bump_last_subpath_ne_nil hne 3

theorem bezier_curve_to_points_length (c : canvas)
    (h : c.path.subpaths ≠ []) (c1x c1y c2x c2y x y : ℚ) :
    (bezier_curve_to c c1x c1y c2x c2y x y).path.points.length =
      c.path.points.length + 3 ∧
    (bezier_curve_to c c1x c1y c2x c2y x y).path.subpaths ≠ [] := by
  unfold bezier_curve_to
  rw [if_neg h]
  exact ⟨by simp, bump_last_subpath_ne_nil h 3⟩

theorem arc_loop_points_length (mf : MathFns)
    (x y radius fromA segment alpha : ℚ) :
    ∀ (n step : ℕ) (cen : xy) (c : canvas), c.path.subpaths ≠ [] →
    (arc_loop mf x y radius fromA segment alpha n step cen c).path.points.length =
      c.path.points.length + 3 * n := by
  intro n
  induction n with
  | zero => intro step cen c _; rfl
  | succ m ih =>
      intro step cen c h
      unfold arc_loop
      obtain ⟨hlen, hne⟩ := bezier_curve_to_points_length c h _ _ _ _ _ _
      rw [ih _ _ _ hne, hlen]
      ring

/-- Claim C6, counterexample: `arc` with start angle = end angle = 0
(normalized span 0) emits no Bezier segment at all after the initial
`line_to` (the path holds the single `line_to` point), while the
claimed formula `max(1, round(16/τ·|span|))` predicts one segment
(three more points). -/
theorem C6_counterexample :
    arc_span 0 0 false = 0 ∧
    arc_steps (arc_span 0 0 false) false = 1 ∧
    (arc mf0 (canvas_new mf0 1 1) 0 0 1 0 0 false).path.points.length = 1 ∧
    ¬ ((arc mf0 (canvas_new mf0 1 1) 0 0 1 0 0 false).path.points.length =
        1 + 3 * arc_steps (arc_span 0 0 false) false) := by
  refine ⟨by decide, by decide, by decide, by decide⟩

/-- Claim C6, amended: a sweep of at least 2π in the requested
direction is normalized to exactly ±2π (one full circle) and subdivided
into 16 cubic Bezier segments regardless of the excess; whenever the
normalized span is nonzero, the sweep is subdivided into exactly
`max(1, round(16/τ·|span|))` cubic Bezier segments (three path points
each) after the initial `line_to`; a zero normalized span emits the
`line_to` only. -/
theorem C6_arc (mf : MathFns) (c : canvas) (x y radius a1 a2 : ℚ)
    (ccw : Bool) (hr : 0 ≤ radius) :
    ((a2 - a1) * (if ccw then (-1 : ℚ) else 1) ≥ 6.28318531 →
      arc_span a1 a2 ccw = 6.28318531 * (if ccw then -1 else 1) ∧
      arc_steps (arc_span a1 a2 ccw) ccw = 16) ∧
    (arc_span a1 a2 ccw = 0 →
      arc mf c x y radius a1 a2 ccw =
        line_to c
          (x + (radius * (⟨mf.cosq (fmodq a1 6.28318531),
            mf.sinq (fmodq a1 6.28318531)⟩ : xy)).x)
          (y + (radius * (⟨mf.cosq (fmodq a1 6.28318531),
            mf.sinq (fmodq a1 6.28318531)⟩ : xy)).y)) ∧
    (arc_span a1 a2 ccw ≠ 0 →
      (arc mf c x y radius a1 a2 ccw).path.points.length =
        (line_to c
          (x + (radius * (⟨mf.cosq (fmodq a1 6.28318531),
            mf.sinq (fmodq a1 6.28318531)⟩ : xy)).x)
          (y + (radius * (⟨mf.cosq (fmodq a1 6.28318531),
            mf.sinq (fmodq a1 6.28318531)⟩ : xy)).y)).path.points.length +
          3 * arc_steps (arc_span a1 a2 ccw) ccw) := by
  refine ⟨?_, ?_, ?_⟩
  · intro hfull
    have hspan : arc_span a1 a2 ccw = 6.28318531 * (if ccw then -1 else 1) := by
      unfold arc_span
      rw [if_pos]
      exact hfull
    refine ⟨hspan, ?_⟩
    rw [hspan]
    unfold arc_steps
    cases ccw <;>
      · norm_num [qroundf, qtoInt, qtrunc]
        rfl
  · intro hz
    unfold arc
    rw [if_neg (not_lt.mpr hr)]
    simp only [hz, if_pos rfl]
    simp
  · intro hnz
    unfold arc
    rw [if_neg (not_lt.mpr hr)]
    simp only [hnz, if_neg hnz]
    exact arc_loop_points_length mf x y radius _ _ _ _ 0 _ _
      (line_to_subpaths_ne_nil c _ _)

/-- Witness for C6 at concrete inputs: a sweep from 0 to 7 radians
(≥ 2π) clockwise normalizes to exactly one full circle in 16 segments,
and the emitted path has 1 + 3·16 points. -/
theorem C6_arc_witness :
    (0 : ℚ) ≤ 1 ∧
    (arc_span 0 7 false = 6.28318531 * (if false then -1 else 1) ∧
      arc_steps (arc_span 0 7 false) false = 16) ∧
    (arc mf0 (canvas_new mf0 1 1) 0 0 1 0 7 false).path.points.length =
      (line_to (canvas_new mf0 1 1)
        (0 + ((1 : ℚ) * (⟨mf0.cosq (fmodq 0 6.28318531),
          mf0.sinq (fmodq 0 6.28318531)⟩ : xy)).x)
        (0 + ((1 : ℚ) * (⟨mf0.cosq (fmodq 0 6.28318531),
          mf0.sinq (fmodq 0 6.28318531)⟩ : xy)).y)).path.points.length +
        3 * arc_steps (arc_span 0 7 false) false :=
  ⟨by norm_num,
   (C6_arc mf0 (canvas_new mf0 1 1) 0 0 1 0 7 false (by norm_num)).1
     (by norm_num),
   (C6_arc mf0 (canvas_new mf0 1 1) 0 0 1 0 7 false (by norm_num)).2.2
     (by decide)⟩

/-- Claim C8: `fill_rectangle` with either extent zero is a complete
no-op; `stroke_rectangle` with both extents zero is a complete no-op;
`stroke_rectangle` with exactly one extent zero strokes the single open
segment from (x, y) to (x + width, y + height). -/
theorem C8_rectangle_degenerate (mf : MathFns) (fuel : ℕ) (c : canvas)
    (x y width height : ℚ) :
    (width = 0 ∨ height = 0 → fill_rectangle mf fuel c x y width height = c) ∧
    (width = 0 ∧ height = 0 →
      stroke_rectangle mf fuel c x y width height = c) ∧
    ((width = 0 ∧ height ≠ 0) ∨ (width ≠ 0 ∧ height = 0) →
      stroke_rectangle mf fuel c x y width height =
        (let cd := { c with lines := (⟨[amul c.forward ⟨x, y⟩,
             amul c.forward ⟨x + width, y + height⟩],
             [⟨2, false⟩]⟩ : bezier_path) }
         let c2 := stroke_lines mf fuel cd
         render_main mf fuel c2 c2.stroke_brush false)) := by
  refine ⟨?_, ?_, ?_⟩
  · intro h
    unfold fill_rectangle
    rw [if_pos h]
  · intro h
    unfold stroke_rectangle
    rw [if_pos h]
  · intro h
    have hnot : ¬ (width = 0 ∧ height = 0) := by
      rcases h with ⟨_, hh⟩ | ⟨hw, _⟩
      · exact fun hb => hh hb.2
      · exact fun hb => hw hb.1
    have hone : width = 0 ∨ height = 0 := by
      rcases h with ⟨hw, _⟩ | ⟨_, hh⟩
      · exact Or.inl hw
      · exact Or.inr hh
    unfold stroke_rectangle
    rw [if_neg hnot, if_pos hone]

/-- Witness for C8 at concrete inputs: width 0 no-ops the fill, both
extents 0 no-op the stroke, and width 0 with height 5 strokes the open
segment from (1, 2) to (1, 7). -/
theorem C8_rectangle_degenerate_witness :
    (fill_rectangle mf0 9 (canvas_new mf0 4 4) 1 2 0 5 = canvas_new mf0 4 4) ∧
    (stroke_rectangle mf0 9 (canvas_new mf0 4 4) 1 2 0 0 =
      canvas_new mf0 4 4) ∧
    (stroke_rectangle mf0 9 (canvas_new mf0 4 4) 1 2 0 5 =
      (let cd := { canvas_new mf0 4 4 with lines :=
           (⟨[amul (canvas_new mf0 4 4).forward ⟨1, 2⟩,
              amul (canvas_new mf0 4 4).forward ⟨1 + 0, 2 + 5⟩],
              [⟨2, false⟩]⟩ : bezier_path) }
       let c2 := stroke_lines mf0 9 cd
       render_main mf0 9 c2 c2.stroke_brush false)) :=
  ⟨(C8_rectangle_degenerate mf0 9 (canvas_new mf0 4 4) 1 2 0 5).1
      (Or.inl rfl),
   (C8_rectangle_degenerate mf0 9 (canvas_new mf0 4 4) 1 2 0 0).2.1
      ⟨rfl, rfl⟩,
   (C8_rectangle_degenerate mf0 9 (canvas_new mf0 4 4) 1 2 0 5).2.2
      (Or.inl ⟨rfl, by norm_num⟩)⟩

-- Helper lemmas for the path count invariant (claim C5).

theorem bump_last_subpath_sum {l : List subpath_data} (h : l ≠ []) (n : ℕ) :
    ((bump_last_subpath l n).map subpath_data.count).sum =
      (l.map subpath_data.count).sum + n := by
  obtain ⟨s, l', rfl⟩ := subpaths_concat_of_ne_nil h
  simp [bump_last_subpath]
  ring

theorem close_last_subpath_sum (l : List subpath_data) :
    ((close_last_subpath l).map subpath_data.count).sum =
      (l.map subpath_data.count).sum := by
  rcases List.eq_nil_or_concat l with rfl | ⟨l', s, rfl⟩
  · rfl
  · simp [close_last_subpath, List.concat_eq_append]

theorem path_inv_move_to (c : canvas) (x y : ℚ) (h : path_inv c.path) :
    path_inv (move_to c x y).path := by
  unfold move_to
  split
  · next hcond =>
    obtain ⟨hne, hcount⟩ := hcond
    obtain ⟨s, l', hsl⟩ := subpaths_concat_of_ne_nil hne
    have hcount' : s.count = 1 := by
      rw [hsl] at hcount
      simpa using hcount
    have hlen : c.path.points.length ≠ 0 := by
      unfold path_inv at h
      rw [hsl] at h
      simp [hcount'] at h
      omega
    unfold path_inv at h ⊢
    dsimp only
    rw [List.length_append, List.length_dropLast]
    simp only [List.length_cons, List.length_nil]
    omega
  · unfold path_inv at h ⊢
    simp [h]

theorem path_inv_line_to (c : canvas) (x y : ℚ) (h : path_inv c.path) :
    path_inv (line_to c x y).path := by
  unfold line_to
  split
  · exact path_inv_move_to c x y h
  next hne =>
    dsimp only
    split
    · exact h
    · unfold path_inv at h ⊢
      dsimp only
      rw [bump_last_subpath_sum hne, List.length_append]
      simp only [List.length_cons, List.length_nil]
      omega

theorem path_inv_close_path (c : canvas) (h : path_inv c.path) :
    path_inv (close_path c).path := by
  unfold close_path
  split
  · exact h
  next hne =>
    dsimp only
    apply path_inv_move_to
    have h1 := path_inv_line_to { c with forward := ⟨1, 0, 0, 1, 0, 0⟩ }
      (c.path.points.getD (c.path.points.length -
        (c.path.subpaths.getLastD ⟨0, false⟩).count) ⟨0, 0⟩).x
      (c.path.points.getD (c.path.points.length -
        (c.path.subpaths.getLastD ⟨0, false⟩).count) ⟨0, 0⟩).y h
    unfold path_inv at h1 ⊢
    dsimp only
    rw [close_last_subpath_sum]
    exact h1

theorem path_inv_quadratic_curve_to (c : canvas) (cx cy x y : ℚ)
    (h : path_inv c.path) :
    path_inv (quadratic_curve_to c cx cy x y).path := by
  unfold quadratic_curve_to
  dsimp only
  split
  · next hemp =>
    have h0 := path_inv_move_to c cx cy h
    have hne := move_to_subpaths_ne_nil c cx cy
    unfold path_inv at h0 ⊢
    dsimp only
    rw [bump_last_subpath_sum hne, List.length_append]
    simp only [List.length_cons, List.length_nil]
    omega
  · next hne =>
    unfold path_inv at h ⊢
    dsimp only
    rw [bump_last_subpath_sum (by simpa using hne), List.length_append]
    simp only [List.length_cons, List.length_nil]
    omega

theorem path_inv_bezier_curve_to (c : canvas) (c1x c1y c2x c2y x y : ℚ)
    (h : path_inv c.path) :
    path_inv (bezier_curve_to c c1x c1y c2x c2y x y).path := by
  unfold bezier_curve_to
  dsimp only
  split
  · next hemp =>
    have h0 := path_inv_move_to c c1x c1y h
    have hne := move_to_subpaths_ne_nil c c1x c1y
    unfold path_inv at h0 ⊢
    dsimp only
    rw [bump_last_subpath_sum hne, List.length_append]
    simp only [List.length_cons, List.length_nil]
    omega
  · next hne =>
    unfold path_inv at h ⊢
    dsimp only
    rw [bump_last_subpath_sum (by simpa using hne), List.length_append]
    simp only [List.length_cons, List.length_nil]
    omega

theorem path_inv_arc_loop (mf : MathFns)
    (x y radius fromA segment alpha : ℚ) :
    ∀ (n step : ℕ) (cen : xy) (c : canvas), path_inv c.path →
    path_inv (arc_loop mf x y radius fromA segment alpha n step cen c).path := by
  intro n
  induction n with
  | zero => intro step cen c h; exact h
  | succ m ih =>
      intro step cen c h
      unfold arc_loop
      exact ih _ _ _ (path_inv_bezier_curve_to _ _ _ _ _ _ _ h)

theorem path_inv_arc (mf : MathFns) (c : canvas)
    (x y radius a1 a2 : ℚ) (ccw : Bool) (h : path_inv c.path) :
    path_inv (arc mf c x y radius a1 a2 ccw).path := by
  unfold arc
  split
  · exact h
  · dsimp only
    split
    · exact path_inv_line_to _ _ _ h
    · exact path_inv_arc_loop mf x y radius _ _ _ _ 0 _ _
        (path_inv_line_to _ _ _ h)

theorem path_inv_arc_to (mf : MathFns) (c : canvas)
    (vx vy x y radius : ℚ) (h : path_inv c.path) :
    path_inv (arc_to mf c vx vy x y radius).path := by
  unfold arc_to
  split
  · exact h
  · dsimp only
    split <;> split <;> first
      | exact path_inv_line_to _ _ _ (path_inv_move_to c vx vy h)
      | exact path_inv_line_to _ _ _ h
      | exact path_inv_arc mf _ _ _ _ _ _ _ (path_inv_move_to c vx vy h)
      | exact path_inv_arc mf _ _ _ _ _ _ _ h

theorem path_inv_rectangle (c : canvas) (x y w hgt : ℚ)
    (h : path_inv c.path) : path_inv (rectangle c x y w hgt).path :=
  path_inv_close_path _ (path_inv_line_to _ _ _ (path_inv_line_to _ _ _
    (path_inv_line_to _ _ _ (path_inv_move_to _ _ _ h))))

/-- Claim C5: every sequence of path-building operations preserves the
invariant that the sub-path counts sum to the flat point-list length
(so it holds after each operation of such a sequence). -/
theorem C5_path_count_invariant (mf : MathFns) (fuel : ℕ) (ops : List Op)
    (c : canvas) (hops : ∀ o ∈ ops, isPathOp o) (h : path_inv c.path) :
    path_inv (applyList mf fuel ops c).path := by
  induction ops generalizing c with
  | nil => exact h
  | cons o rest ih =>
      have hstep : path_inv (apply mf fuel o c).path := by
        have ho := hops o (List.mem_cons_self o rest)
        cases o
        case op_begin_path =>
          show path_inv (begin_path c).path
          unfold path_inv begin_path bezier_path.empty
          rfl
        case op_move_to x y => exact path_inv_move_to c x y h
        case op_close_path => exact path_inv_close_path c h
        case op_line_to x y => exact path_inv_line_to c x y h
        case op_quadratic_curve_to cx cy x y =>
          exact path_inv_quadratic_curve_to c cx cy x y h
        case op_bezier_curve_to c1x c1y c2x c2y x y =>
          exact path_inv_bezier_curve_to c c1x c1y c2x c2y x y h
        case op_arc_to vx vy x y radius =>
          exact path_inv_arc_to mf c vx vy x y radius h
        case op_arc x y radius a1 a2 ccw =>
          exact path_inv_arc mf c x y radius a1 a2 ccw h
        case op_rectangle x y w hh => exact path_inv_rectangle c x y w hh h
        all_goals exact False.elim ho
      exact ih (apply mf fuel o c)
        (fun o' ho' => hops o' (List.mem_cons_of_mem o ho')) hstep

/-- Witness for C5 at a concrete input: a move-line-arc-close sequence
on a fresh canvas keeps the counts summing to the point count. -/
theorem C5_path_count_invariant_witness :
    path_inv (applyList mf0 9 [Op.op_move_to 1 2, Op.op_line_to 3 4,
      Op.op_arc 0 0 1 0 7 false, Op.op_close_path]
      (canvas_new mf0 4 4)).path :=
  C5_path_count_invariant mf0 9 _ (canvas_new mf0 4 4)
    (by intro o ho; fin_cases ho <;> trivial) (by unfold path_inv; rfl)

theorem apply_style_saves (mf : MathFns) (fuel : ℕ) (o : Op)
    (ho : isStyleOp o) (c : canvas) : (apply mf fuel o c).saves = c.saves := by
  cases o
  case assign_global_composite_operation v => rfl
  case assign_shadow_offset_x v => rfl
  case assign_shadow_offset_y v => rfl
  case assign_line_cap v => rfl
  case assign_line_join v => rfl
  case assign_line_dash_offset v => rfl
  case assign_text_align v => rfl
  case assign_text_baseline v => rfl
  case op_scale x y => rfl
  case op_rotate angle => rfl
  case op_translate x y => rfl
  case op_transform a b cc d e f => rfl
  case op_set_transform a b cc d e f => rfl
  case op_set_global_alpha alpha =>
    show (set_global_alpha c alpha).saves = c.saves
    unfold set_global_alpha
    split <;> rfl
  case op_set_shadow_color r g b a => rfl
  case op_set_shadow_blur level =>
    show (set_shadow_blur c level).saves = c.saves
    unfold set_shadow_blur
    split <;> rfl
  case op_set_line_width width =>
    show (set_line_width c width).saves = c.saves
    unfold set_line_width
    split <;> rfl
  case op_set_miter_limit limit =>
    show (set_miter_limit c limit).saves = c.saves
    unfold set_miter_limit
    split <;> rfl
  case op_set_line_dash segments =>
    show (set_line_dash c segments).saves = c.saves
    unfold set_line_dash
    split <;> rfl
  case op_set_color t r g b a =>
    show (set_color mf c t r g b a).saves = c.saves
    cases t <;> rfl
  case op_set_linear_gradient t sx sy ex ey =>
    show (set_linear_gradient c t sx sy ex ey).saves = c.saves
    cases t <;> rfl
  case op_set_radial_gradient t sx sy sr ex ey er =>
    show (set_radial_gradient c t sx sy sr ex ey er).saves = c.saves
    unfold set_radial_gradient
    split
    · rfl
    · cases t <;> rfl
  case op_add_color_stop t off r g b a =>
    show (add_color_stop mf c t off r g b a).saves = c.saves
    unfold add_color_stop
    dsimp only
    split
    · rfl
    · cases t <;> rfl
  case op_set_pattern t image w h s r =>
    show (set_pattern mf c t image w h s r).saves = c.saves
    unfold set_pattern
    split
    · rfl
    · cases t <;> rfl
  case op_set_font font bytes size =>
    show (set_font c font bytes size).1.saves = c.saves
    unfold set_font
    dsimp only
    split
    · rfl
    · split <;> rfl
  all_goals exact False.elim ho

theorem applyList_style_saves (mf : MathFns) (fuel : ℕ) (ops : List Op) :
    ∀ c : canvas, (∀ o ∈ ops, isStyleOp o) →
    (applyList mf fuel ops c).saves = c.saves := by
  induction ops with
  | nil => intro c _; rfl
  | cons o rest ih =>
      intro c hops
      have h1 := apply_style_saves mf fuel o
        (hops o (List.mem_cons_self o rest)) c
      have h2 := ih (apply mf fuel o c)
        (fun o' ho' => hops o' (List.mem_cons_of_mem o ho'))
      exact h2.trans h1

theorem restore_fields (c : canvas) (s : saved_state)
    (rest : List saved_state) (h : c.saves = s :: rest) :
    style_state (restore c) = s ∧ (restore c).saves = rest ∧
    (restore c).path = c.path ∧ (restore c).bitmap = c.bitmap := by
  unfold restore
  rw [h]
  exact ⟨rfl, rfl, rfl, rfl⟩

/-- Claim C2: around any sequence of style-setting operations, `save`
followed by `restore` brings every observable style-state field (the
composite operation, shadow offsets, color and blur, line cap, join,
width, dash and dash offset, miter limit, text align and baseline, both
transforms, global alpha, both brushes, clip mask and font face) back to
its value just before the `save`, while neither `save` nor `restore`
touches the current path or the pixel bitmap. -/
theorem C2_save_restore (mf : MathFns) (fuel : ℕ) (ops : List Op)
    (c : canvas) (hops : ∀ o ∈ ops, isStyleOp o) :
    style_state (restore (applyList mf fuel ops (save c))) = style_state c ∧
    (restore (applyList mf fuel ops (save c))).saves = c.saves ∧
    (restore (applyList mf fuel ops (save c))).path =
      (applyList mf fuel ops (save c)).path ∧
    (restore (applyList mf fuel ops (save c))).bitmap =
      (applyList mf fuel ops (save c)).bitmap ∧
    (save c).path = c.path ∧ (save c).bitmap = c.bitmap := by
  have hsaves : (applyList mf fuel ops (save c)).saves =
      style_state c :: c.saves :=
    applyList_style_saves mf fuel ops (save c) hops
  obtain ⟨h1, h2, h3, h4⟩ :=
    restore_fields (applyList mf fuel ops (save c)) (style_state c)
      c.saves hsaves
  exact ⟨h1, h2, h3, h4, rfl, rfl⟩

/-- Witness for C2 at a concrete input: a width change between save and
restore on a fresh canvas. -/
theorem C2_save_restore_witness :
    style_state (restore (applyList mf0 1 [Op.op_set_line_width 5]
      (save (canvas_new mf0 2 2)))) = style_state (canvas_new mf0 2 2) ∧
    (restore (applyList mf0 1 [Op.op_set_line_width 5]
      (save (canvas_new mf0 2 2)))).saves = (canvas_new mf0 2 2).saves ∧
    (restore (applyList mf0 1 [Op.op_set_line_width 5]
      (save (canvas_new mf0 2 2)))).path =
      (applyList mf0 1 [Op.op_set_line_width 5]
        (save (canvas_new mf0 2 2))).path ∧
    (restore (applyList mf0 1 [Op.op_set_line_width 5]
      (save (canvas_new mf0 2 2)))).bitmap =
      (applyList mf0 1 [Op.op_set_line_width 5]
        (save (canvas_new mf0 2 2))).bitmap ∧
    (save (canvas_new mf0 2 2)).path = (canvas_new mf0 2 2).path ∧
    (save (canvas_new mf0 2 2)).bitmap = (canvas_new mf0 2 2).bitmap :=
  C2_save_restore mf0 1 [Op.op_set_line_width 5] (canvas_new mf0 2 2)
    (by
      intro o ho
      rw [List.mem_singleton] at ho
      subst ho
      trivial)

theorem render_main_det0 (mf : MathFns) (fuel : ℕ) (c : canvas)
    (brush : paint_brush) (im : Bool) (h : det c.forward = 0) :
    render_main mf fuel c brush im = c := by
  unfold render_main
  rw [if_pos]
  exact h

theorem stroke_lines_det0 (mf : MathFns) (fuel : ℕ) (c : canvas)
    (h : det c.forward = 0) : stroke_lines mf fuel c = c := by
  unfold stroke_lines
  rw [if_pos]
  exact h

theorem det_transform (c : canvas) (a b cc d e f : ℚ) :
    det (transform c a b cc d e f).forward =
      det c.forward * (a * d - b * cc) := by
  unfold transform set_transform det
  dsimp only
  ring

theorem fill_rectangle_det0 (mf : MathFns) (fuel : ℕ) (c : canvas)
    (x y w h : ℚ) (hdet : det c.forward = 0) :
    (fill_rectangle mf fuel c x y w h).bitmap = c.bitmap ∧
    (fill_rectangle mf fuel c x y w h).forward = c.forward := by
  unfold fill_rectangle
  split
  · exact ⟨rfl, rfl⟩
  · dsimp only
    rw [render_main_det0]
    · exact ⟨rfl, rfl⟩
    · exact hdet

theorem apply_draw_det0 (mf : MathFns) (fuel : ℕ) (o : Op) (ho : isDrawOp o)
    (c : canvas) (hdet : det c.forward = 0) :
    (apply mf fuel o c).bitmap = c.bitmap ∧
    (apply mf fuel o c).forward = c.forward := by
  cases o
  case op_fill =>
    show (fill mf fuel c).bitmap = c.bitmap ∧
      (fill mf fuel c).forward = c.forward
    unfold fill
    dsimp only
    rw [render_main_det0]
    · exact ⟨rfl, rfl⟩
    · exact hdet
  case op_stroke =>
    show (stroke mf fuel c).bitmap = c.bitmap ∧
      (stroke mf fuel c).forward = c.forward
    unfold stroke
    dsimp only
    rw [stroke_lines_det0]
    · rw [render_main_det0]
      · exact ⟨rfl, rfl⟩
      · exact hdet
    · exact hdet
  case op_fill_rectangle x y w h =>
    exact fill_rectangle_det0 mf fuel c x y w h hdet
  case op_stroke_rectangle x y w h =>
    show (stroke_rectangle mf fuel c x y w h).bitmap = c.bitmap ∧
      (stroke_rectangle mf fuel c x y w h).forward = c.forward
    unfold stroke_rectangle
    split
    · exact ⟨rfl, rfl⟩
    · dsimp only
      rw [stroke_lines_det0]
      · rw [render_main_det0]
        · exact ⟨rfl, rfl⟩
        · exact hdet
      · exact hdet
  case op_clear_rectangle x y w h =>
    show (clear_rectangle mf fuel c x y w h).bitmap = c.bitmap ∧
      (clear_rectangle mf fuel c x y w h).forward = c.forward
    unfold clear_rectangle
    dsimp only
    obtain ⟨hb, hf⟩ := fill_rectangle_det0 mf fuel
      { c with
        global_composite_operation := destination_out
        global_alpha := 1
        shadow_color := { c.shadow_color with a := 0 }
        fill_brush := { c.fill_brush with type := brush_types.color } }
      x y w h hdet
    exact ⟨hb, hf⟩
  case op_fill_text text x y mw =>
    show (fill_text mf fuel c text x y mw).bitmap = c.bitmap ∧
      (fill_text mf fuel c text x y mw).forward = c.forward
    unfold fill_text
    dsimp only
    rw [render_main_det0]
    · exact ⟨rfl, rfl⟩
    · exact hdet
  case op_stroke_text text x y mw =>
    show (stroke_text mf fuel c text x y mw).bitmap = c.bitmap ∧
      (stroke_text mf fuel c text x y mw).forward = c.forward
    unfold stroke_text
    dsimp only
    rw [stroke_lines_det0]
    · rw [render_main_det0]
      · exact ⟨rfl, rfl⟩
      · exact hdet
    · exact hdet
  case op_draw_image image w h s x y tw th =>
    show (draw_image mf fuel c image w h s x y tw th).bitmap = c.bitmap ∧
      (draw_image mf fuel c image w h s x y tw th).forward = c.forward
    unfold draw_image
    split
    · exact ⟨rfl, rfl⟩
    · dsimp only
      unfold set_pattern
      dsimp only
      split
      · rw [render_main_det0]
        · exact ⟨rfl, rfl⟩
        · unfold scale translate
          rw [det_transform, det_transform]
          simp [hdet]
      · dsimp only
        rw [render_main_det0]
        · exact ⟨rfl, rfl⟩
        · unfold scale translate
          rw [det_transform, det_transform]
          simp [hdet]
  all_goals exact False.elim ho

/-- Claim C3: after `set_transform` with a zero determinant, every
sequence of drawing operations (fill, stroke, the rectangle draws, the
text draws and draw_image) leaves every pixel of the bitmap unchanged,
and the singular transform remains in place. -/
theorem C3_singular_transform (mf : MathFns) (fuel : ℕ) (ops : List Op)
    (c : canvas) (a b cc d e f : ℚ) (hdet : a * d - b * cc = 0)
    (hops : ∀ o ∈ ops, isDrawOp o) :
    (applyList mf fuel ops (set_transform c a b cc d e f)).bitmap =
      c.bitmap ∧
    (applyList mf fuel ops (set_transform c a b cc d e f)).forward =
      ⟨a, b, cc, d, e, f⟩ := by
  have main : ∀ (l : List Op) (c0 : canvas), (∀ o ∈ l, isDrawOp o) →
      det c0.forward = 0 →
      (applyList mf fuel l c0).bitmap = c0.bitmap ∧
      (applyList mf fuel l c0).forward = c0.forward := by
    intro l
    induction l with
    | nil => intro c0 _ _; exact ⟨rfl, rfl⟩
    | cons o rest ih =>
        intro c0 hl hd
        obtain ⟨hb, hf⟩ := apply_draw_det0 mf fuel o
          (hl o (List.mem_cons_self o rest)) c0 hd
        have hd' : det (apply mf fuel o c0).forward = 0 := by
          rw [hf]
          exact hd
        obtain ⟨hb', hf'⟩ := ih (apply mf fuel o c0)
          (fun o' ho' => hl o' (List.mem_cons_of_mem o ho')) hd'
        exact ⟨hb'.trans hb, hf'.trans hf⟩
  have h0 : det (set_transform c a b cc d e f).forward = 0 := by
    unfold set_transform det
    exact hdet
  obtain ⟨hb, hf⟩ := main ops (set_transform c a b cc d e f) hops h0
  exact ⟨hb, hf⟩

/-- Witness for C3 at a concrete input: a singular transform followed by
a fill on a fresh canvas. -/
theorem C3_singular_transform_witness :
    (applyList mf0 9 [Op.op_fill]
      (set_transform (canvas_new mf0 2 2) 1 0 0 0 0 0)).bitmap =
      (canvas_new mf0 2 2).bitmap ∧
    (applyList mf0 9 [Op.op_fill]
      (set_transform (canvas_new mf0 2 2) 1 0 0 0 0 0)).forward =
      ⟨1, 0, 0, 0, 0, 0⟩ :=
  C3_singular_transform mf0 9 [Op.op_fill] (canvas_new mf0 2 2) 1 0 0 0 0 0
    (by norm_num)
    (by
      intro o ho
      rw [List.mem_singleton] at ho
      subst ho
      trivial)

theorem pk_eq_iff (a b : pixel_run) :
    pos_key a = pos_key b ↔ a.y = b.y ∧ a.x = b.x := by
  unfold pos_key
  simp [Prod.ext_iff]

theorem pk_lt_iff (a b : pixel_run) :
    pos_key a < pos_key b ↔ a.y < b.y ∨ (a.y = b.y ∧ a.x < b.x) := by
  unfold pos_key
  simp [Prod.Lex.lt_iff]

theorem pk_le_iff (a b : pixel_run) :
    pos_key a ≤ pos_key b ↔ a.y < b.y ∨ (a.y = b.y ∧ a.x ≤ b.x) := by
  unfold pos_key
  simp [Prod.Lex.le_iff]

theorem rk_lt_iff (a b : pixel_run) :
    run_key a < run_key b ↔ a.y < b.y ∨ (a.y = b.y ∧
      (a.x < b.x ∨ (a.x = b.x ∧ |a.delta| < |b.delta|))) := by
  unfold run_key
  simp [Prod.Lex.lt_iff]

theorem run_lt_iff (a b : pixel_run) :
    run_lt a b = true ↔ run_key a < run_key b := by
  rw [rk_lt_iff]
  unfold run_lt
  split_ifs with h1 h2 h3 h4
  · simp [h1]
  · constructor
    · intro hf
      simp at hf
    · rintro (hlt | ⟨heq, _⟩)
      · omega
      · omega
  · have hy : a.y = b.y := by omega
    simp [hy, h3]
  · constructor
    · intro hf
      simp at hf
    · rintro (hlt | ⟨heq, (hxlt | ⟨hxeq, _⟩)⟩)
      · omega
      · omega
      · omega
  · have hy : a.y = b.y := by omega
    have hx : a.x = b.x := by omega
    simp [hy, hx]

theorem run_le_iff (a b : pixel_run) :
    run_le a b ↔ run_key a ≤ run_key b := by
  unfold run_le
  rw [Bool.eq_false_iff]
  simp only [ne_eq, run_lt_iff, not_lt]

instance : IsTotal pixel_run run_le :=
  ⟨fun a b => by
    rw [run_le_iff, run_le_iff]
    exact le_total _ _⟩

instance : IsTrans pixel_run run_le :=
  ⟨fun a b c h1 h2 => by
    rw [run_le_iff] at h1 h2 ⊢
    exact le_trans h1 h2⟩

theorem pk_le_of_rk_le (a b : pixel_run) (h : run_key a ≤ run_key b) :
    pos_key a ≤ pos_key b := by
  rcases lt_or_eq_of_le h with hlt | heq
  · rw [rk_lt_iff] at hlt
    rw [pk_le_iff]
    rcases hlt with hy | ⟨hy, hx | ⟨hx, _⟩⟩
    · exact Or.inl hy
    · exact Or.inr ⟨hy, le_of_lt hx⟩
    · exact Or.inr ⟨hy, le_of_eq hx⟩
  · unfold run_key at heq
    rw [toLex_inj, Prod.ext_iff] at heq
    obtain ⟨hy, hrest⟩ := heq
    dsimp at hy hrest
    rw [toLex_inj, Prod.ext_iff] at hrest
    rw [pk_le_iff]
    exact Or.inr ⟨hy, le_of_eq hrest.1⟩

theorem rk_lt_of_pk_lt (a b : pixel_run) (h : pos_key a < pos_key b) :
    run_key a < run_key b := by
  rw [pk_lt_iff] at h
  rw [rk_lt_iff]
  rcases h with hy | ⟨hy, hx⟩
  · exact Or.inl hy
  · exact Or.inr ⟨hy, Or.inl hx⟩

theorem mask_inv_tail (a : pixel_run) (l : List pixel_run)
    (h : mask_inv (a :: l)) : mask_inv l := by
  cases l with
  | nil => exact List.chain'_nil
  | cons b t => exact (List.chain'_cons.mp h).2

theorem mask_inv_cons_mem (a : pixel_run) (l : List pixel_run)
    (h : mask_inv (a :: l)) : ∀ r ∈ l, pos_key a < pos_key r := by
  induction l generalizing a with
  | nil => intro r hr; cases hr
  | cons b t ih =>
      intro r hr
      have h1 := List.chain'_cons.mp h
      cases List.mem_cons.mp hr with
      | inl he => rw [he]; exact h1.1
      | inr ht => exact lt_trans h1.1 (ih b h1.2 r ht)

theorem mask_inv_pairwise (l : List pixel_run) (h : mask_inv l) :
    List.Pairwise (fun a b => pos_key a < pos_key b) l := by
  induction l with
  | nil => exact List.Pairwise.nil
  | cons a t ih =>
      exact List.pairwise_cons.mpr
        ⟨mask_inv_cons_mem a t h, ih (mask_inv_tail a t h)⟩

theorem mask_inv_concat (l : List pixel_run) (r : pixel_run)
    (h : mask_inv l)
    (hl : ∀ b, l.getLast? = some b → pos_key b < pos_key r) :
    mask_inv (l ++ [r]) := by
  rw [mask_inv, List.chain'_append]
  refine ⟨h, List.chain'_singleton r, ?_⟩
  intro x hx y hy
  simp only [List.head?_cons, Option.mem_def, Option.some.injEq] at hy
  rw [← hy]
  exact hl x hx

theorem mask_inv_replace_last (l : List pixel_run) (b b' : pixel_run)
    (h : mask_inv l) (hgl : l.getLast? = some b)
    (hpos : pos_key b' = pos_key b) :
    mask_inv (l.dropLast ++ [b']) := by
  obtain ⟨l', rfl⟩ := List.getLast?_eq_some_iff.mp hgl
  rw [List.dropLast_concat]
  rw [mask_inv, List.chain'_append] at h ⊢
  obtain ⟨h1, _, h3⟩ := h
  refine ⟨h1, List.chain'_singleton b', ?_⟩
  intro x hx y hy
  simp only [List.head?_cons, Option.mem_def, Option.some.injEq] at hy
  rw [← hy]
  have := h3 x hx b (by simp)
  rw [← hpos] at this
  exact this

theorem coalesce_runs_inv : ∀ (rest : List pixel_run) (acc : pixel_run),
    (∀ r ∈ rest, pos_key acc ≤ pos_key r) →
    List.Pairwise (fun a b => pos_key a ≤ pos_key b) rest →
    mask_inv (coalesce_runs acc rest) ∧
    ∀ b, (coalesce_runs acc rest).head? = some b →
      pos_key b = pos_key acc := by
  intro rest
  induction rest with
  | nil =>
      intro acc _ _
      refine ⟨List.chain'_singleton acc, ?_⟩
      intro b hb
      simp only [coalesce_runs, List.head?_cons, Option.some.injEq] at hb
      rw [← hb]
  | cons r rest ih =>
      intro acc hall hpw
      obtain ⟨hr, hpw'⟩ := List.pairwise_cons.mp hpw
      unfold coalesce_runs
      split
      · next hsame =>
          exact ih { acc with delta := acc.delta + r.delta }
            (fun x hx => hall x (List.mem_cons_of_mem r hx)) hpw'
      · split
        · next hne hd =>
            obtain ⟨hmi, hhd⟩ := ih r hr hpw'
            have hlt : pos_key acc < pos_key r := by
              rcases lt_or_eq_of_le (hall r (List.mem_cons_self r rest))
                with hlt | heq
              · exact hlt
              · exfalso
                rw [pk_eq_iff] at heq
                exact hne ⟨heq.2.symm, heq.1.symm⟩
            refine ⟨List.chain'_cons'.mpr ⟨?_, hmi⟩, ?_⟩
            · intro y hy
              have := hhd y hy
              rw [this]
              exact hlt
            · intro b hb
              simp only [List.head?_cons, Option.some.injEq] at hb
              rw [← hb]
        · next hne hd =>
            exact ih acc (fun x hx => hall x (List.mem_cons_of_mem r hx)) hpw'

theorem merge_runs_mask_inv (l : List pixel_run) :
    mask_inv (merge_runs l) := by
  unfold merge_runs
  split
  · exact List.chain'_nil
  · next h t heq =>
      have hsorted : List.Pairwise run_le (h :: t) := by
        rw [← heq]
        exact List.sorted_insertionSort run_le l
      obtain ⟨h1, h2⟩ := List.pairwise_cons.mp hsorted
      exact (coalesce_runs_inv t h
        (fun r hr => pk_le_of_rk_le h r ((run_le_iff h r).mp (h1 r hr)))
        (h2.imp (fun hab => pk_le_of_rk_le _ _ ((run_le_iff _ _).mp hab)))).1

theorem clip_loop_mask_inv : ∀ (fuel : ℕ) (l1 l2 : List pixel_run)
    (y : ℤ) (last s1 s2 : ℚ) (acc : List pixel_run),
    mask_inv l1 → mask_inv l2 → mask_inv acc →
    (∀ b, acc.getLast? = some b →
      (∀ r ∈ l1, pos_key b ≤ pos_key r) ∧
      (∀ r ∈ l2, pos_key b ≤ pos_key r)) →
    mask_inv (clip_loop fuel l1 l2 y last s1 s2 acc) := by
  intro fuel
  induction fuel with
  | zero =>
      intro l1 l2 y last s1 s2 acc _ _ h3 _
      simp only [clip_loop]
      exact h3
  | succ n ih =>
      intro l1 l2 y last s1 s2 acc h1 h2 h3 h4
      cases l1 with
      | nil =>
          simp only [clip_loop]
          exact h3
      | cons r1 rest1 =>
      cases l2 with
      | nil =>
          simp only [clip_loop]
          exact h3
      | cons r2 rest2 =>
      unfold clip_loop
      rcases Bool.eq_false_or_eq_true (run_lt r1 r2) with hw | hw <;>
        simp only [hw, Bool.false_eq_true, Bool.true_eq_false, if_false,
          if_true]
      · -- which = true: the path run r1 is consumed
        have hT1 : mask_inv rest1 := mask_inv_tail _ _ h1
        have hN1 : ∀ r ∈ rest1, pos_key r1 ≤ pos_key r :=
          fun r hr => le_of_lt (mask_inv_cons_mem r1 rest1 h1 r hr)
        have hN2 : ∀ r ∈ r2 :: rest2, pos_key r1 ≤ pos_key r := by
          intro r hr
          have hk : pos_key r1 ≤ pos_key r2 :=
            pk_le_of_rk_le r1 r2 (le_of_lt ((run_lt_iff r1 r2).mp hw))
          cases List.mem_cons.mp hr with
          | inl he => rw [he]; exact hk
          | inr ht =>
              exact le_trans hk
                (le_of_lt (mask_inv_cons_mem r2 rest2 h2 r ht))
        generalize (if ((r1.y : ℤ) ≠ y) then
            (((r1.y : ℕ) : ℤ), (0 : ℚ), (0 : ℚ), (0 : ℚ))
          else (y, last, s1, s2)) = t
        obtain ⟨y1, last1, s1m, s2m⟩ := t
        split
        · exact ih rest1 (r2 :: rest2) y1 last1 (s1m + r1.delta) s2m acc hT1
            h2 h3
            (fun b hb => ⟨fun r hr => (h4 b hb).1 r (List.mem_cons_of_mem r1 hr),
              (h4 b hb).2⟩)
        · cases hgl : acc.getLast? with
          | none =>
              dsimp only
              refine ih rest1 (r2 :: rest2) y1 _ (s1m + r1.delta) s2m _ hT1
                h2 (mask_inv_concat acc _ h3 ?_) ?_
              · intro b0 hb0
                rw [hgl] at hb0
                exact absurd hb0 (by simp)
              · intro b0 hb0
                rw [List.getLast?_concat] at hb0
                obtain rfl := Option.some.inj hb0
                exact ⟨fun r hr => hN1 r hr, fun r hr => hN2 r hr⟩
          | some b =>
              dsimp only
              split
              · next hsame =>
                  refine ih rest1 (r2 :: rest2) y1 _ (s1m + r1.delta) s2m _ hT1
                    h2 (mask_inv_replace_last acc b _ h3 hgl rfl) ?_
                  intro b0 hb0
                  rw [List.getLast?_concat] at hb0
                  obtain rfl := Option.some.inj hb0
                  exact ⟨fun r hr => (h4 b hgl).1 r (List.mem_cons_of_mem r1 hr),
                    fun r hr => (h4 b hgl).2 r hr⟩
              · next hdiff =>
                  have hble : pos_key b ≤ pos_key r1 :=
                    (h4 b hgl).1 r1 (List.mem_cons_self r1 rest1)
                  have hbne : pos_key b ≠ pos_key r1 := by
                    intro he
                    rw [pk_eq_iff] at he
                    exact hdiff ⟨he.2, he.1⟩
                  refine ih rest1 (r2 :: rest2) y1 _ (s1m + r1.delta) s2m _ hT1
                    h2 (mask_inv_concat acc _ h3 ?_) ?_
                  · intro b0 hb0
                    rw [hgl] at hb0
                    obtain rfl := Option.some.inj hb0
                    exact lt_of_le_of_ne hble hbne
                  · intro b0 hb0
                    rw [List.getLast?_concat] at hb0
                    obtain rfl := Option.some.inj hb0
                    exact ⟨fun r hr => hN1 r hr, fun r hr => hN2 r hr⟩

      · -- which = false: the mask entry r2 is consumed
        have hT2 : mask_inv rest2 := mask_inv_tail _ _ h2
        have hN2 : ∀ r ∈ rest2, pos_key r2 ≤ pos_key r :=
          fun r hr => le_of_lt (mask_inv_cons_mem r2 rest2 h2 r hr)
        have hN1 : ∀ r ∈ r1 :: rest1, pos_key r2 ≤ pos_key r := by
          intro r hr
          have hk : pos_key r2 ≤ pos_key r1 :=
            pk_le_of_rk_le r2 r1 ((run_le_iff r2 r1).mp hw)
          cases List.mem_cons.mp hr with
          | inl he => rw [he]; exact hk
          | inr ht =>
              exact le_trans hk
                (le_of_lt (mask_inv_cons_mem r1 rest1 h1 r ht))
        generalize (if ((r2.y : ℤ) ≠ y) then
            (((r2.y : ℕ) : ℤ), (0 : ℚ), (0 : ℚ), (0 : ℚ))
          else (y, last, s1, s2)) = t
        obtain ⟨y1, last1, s1m, s2m⟩ := t
        split
        · exact ih (r1 :: rest1) rest2 y1 last1 s1m (s2m + r2.delta) acc h1
            hT2 h3
            (fun b hb => ⟨(h4 b hb).1,
              fun r hr => (h4 b hb).2 r (List.mem_cons_of_mem r2 hr)⟩)
        · cases hgl : acc.getLast? with
          | none =>
              dsimp only
              refine ih (r1 :: rest1) rest2 y1 _ s1m (s2m + r2.delta) _ h1
                hT2 (mask_inv_concat acc _ h3 ?_) ?_
              · intro b0 hb0
                rw [hgl] at hb0
                exact absurd hb0 (by simp)
              · intro b0 hb0
                rw [List.getLast?_concat] at hb0
                obtain rfl := Option.some.inj hb0
                exact ⟨fun r hr => hN1 r hr, fun r hr => hN2 r hr⟩
          | some b =>
              dsimp only
              split
              · next hsame =>
                  refine ih (r1 :: rest1) rest2 y1 _ s1m (s2m + r2.delta) _ h1
                    hT2 (mask_inv_replace_last acc b _ h3 hgl rfl) ?_
                  intro b0 hb0
                  rw [List.getLast?_concat] at hb0
                  obtain rfl := Option.some.inj hb0
                  exact ⟨fun r hr => (h4 b hgl).1 r hr,
                    fun r hr => (h4 b hgl).2 r (List.mem_cons_of_mem r2 hr)⟩
              · next hdiff =>
                  have hble : pos_key b ≤ pos_key r2 :=
                    (h4 b hgl).2 r2 (List.mem_cons_self r2 rest2)
                  have hbne : pos_key b ≠ pos_key r2 := by
                    intro he
                    rw [pk_eq_iff] at he
                    exact hdiff ⟨he.2, he.1⟩
                  refine ih (r1 :: rest1) rest2 y1 _ s1m (s2m + r2.delta) _ h1
                    hT2 (mask_inv_concat acc _ h3 ?_) ?_
                  · intro b0 hb0
                    rw [hgl] at hb0
                    obtain rfl := Option.some.inj hb0
                    exact lt_of_le_of_ne hble hbne
                  · intro b0 hb0
                    rw [List.getLast?_concat] at hb0
                    obtain rfl := Option.some.inj hb0
                    exact ⟨fun r hr => hN1 r hr, fun r hr => hN2 r hr⟩
theorem canvas_mask_inv_of_eq (c d : canvas) (hmask : d.mask = c.mask)
    (hsaves : d.saves = c.saves) (h : canvas_mask_inv c) :
    canvas_mask_inv d := by
  obtain ⟨hm, hs⟩ := h
  refine ⟨?_, ?_⟩
  · rw [hmask]
    exact hm
  · rw [hsaves]
    exact hs

theorem move_to_mask (c : canvas) (x y : ℚ) :
    (move_to c x y).mask = c.mask := by
  unfold move_to
  split <;> rfl

theorem move_to_saves (c : canvas) (x y : ℚ) :
    (move_to c x y).saves = c.saves := by
  unfold move_to
  split <;> rfl

theorem line_to_mask (c : canvas) (x y : ℚ) :
    (line_to c x y).mask = c.mask := by
  unfold line_to
  split
  · exact move_to_mask c x y
  · dsimp only
    split <;> rfl

theorem line_to_saves (c : canvas) (x y : ℚ) :
    (line_to c x y).saves = c.saves := by
  unfold line_to
  split
  · exact move_to_saves c x y
  · dsimp only
    split <;> rfl

theorem close_path_mask (c : canvas) : (close_path c).mask = c.mask := by
  unfold close_path
  split
  · rfl
  · simp only [move_to_mask, line_to_mask]

theorem close_path_saves (c : canvas) : (close_path c).saves = c.saves := by
  unfold close_path
  split
  · rfl
  · simp only [move_to_saves, line_to_saves]

theorem quadratic_curve_to_mask (c : canvas) (cx cy x y : ℚ) :
    (quadratic_curve_to c cx cy x y).mask = c.mask := by
  unfold quadratic_curve_to
  dsimp only
  split
  · simp only [move_to_mask]
  · rfl

theorem quadratic_curve_to_saves (c : canvas) (cx cy x y : ℚ) :
    (quadratic_curve_to c cx cy x y).saves = c.saves := by
  unfold quadratic_curve_to
  dsimp only
  split
  · simp only [move_to_saves]
  · rfl

theorem bezier_curve_to_mask (c : canvas) (c1x c1y c2x c2y x y : ℚ) :
    (bezier_curve_to c c1x c1y c2x c2y x y).mask = c.mask := by
  unfold bezier_curve_to
  dsimp only
  split
  · simp only [move_to_mask]
  · rfl

theorem bezier_curve_to_saves (c : canvas) (c1x c1y c2x c2y x y : ℚ) :
    (bezier_curve_to c c1x c1y c2x c2y x y).saves = c.saves := by
  unfold bezier_curve_to
  dsimp only
  split
  · simp only [move_to_saves]
  · rfl

theorem arc_loop_mask (mf : MathFns) (x y radius fromA segment alpha : ℚ) :
    ∀ (n step : ℕ) (cen : xy) (c : canvas),
    (arc_loop mf x y radius fromA segment alpha n step cen c).mask =
      c.mask := by
  intro n
  induction n with
  | zero => intro step cen c; rfl
  | succ m ih =>
      intro step cen c
      unfold arc_loop
      rw [ih, bezier_curve_to_mask]

theorem arc_loop_saves (mf : MathFns) (x y radius fromA segment alpha : ℚ) :
    ∀ (n step : ℕ) (cen : xy) (c : canvas),
    (arc_loop mf x y radius fromA segment alpha n step cen c).saves =
      c.saves := by
  intro n
  induction n with
  | zero => intro step cen c; rfl
  | succ m ih =>
      intro step cen c
      unfold arc_loop
      rw [ih, bezier_curve_to_saves]

theorem arc_mask (mf : MathFns) (c : canvas) (x y radius a1 a2 : ℚ)
    (ccw : Bool) : (arc mf c x y radius a1 a2 ccw).mask = c.mask := by
  unfold arc
  split
  · rfl
  · dsimp only
    split
    · rw [line_to_mask]
    · rw [arc_loop_mask, line_to_mask]

theorem arc_saves (mf : MathFns) (c : canvas) (x y radius a1 a2 : ℚ)
    (ccw : Bool) : (arc mf c x y radius a1 a2 ccw).saves = c.saves := by
  unfold arc
  split
  · rfl
  · dsimp only
    split
    · rw [line_to_saves]
    · rw [arc_loop_saves, line_to_saves]

theorem arc_to_mask (mf : MathFns) (c : canvas) (vx vy x y radius : ℚ) :
    (arc_to mf c vx vy x y radius).mask = c.mask := by
  unfold arc_to
  split
  · rfl
  · dsimp only
    split <;> split <;> simp only [line_to_mask, arc_mask, move_to_mask]

theorem arc_to_saves (mf : MathFns) (c : canvas) (vx vy x y radius : ℚ) :
    (arc_to mf c vx vy x y radius).saves = c.saves := by
  unfold arc_to
  split
  · rfl
  · dsimp only
    split <;> split <;> simp only [line_to_saves, arc_saves, move_to_saves]

theorem rectangle_mask (c : canvas) (x y w hgt : ℚ) :
    (rectangle c x y w hgt).mask = c.mask := by
  unfold rectangle
  simp only [close_path_mask, line_to_mask, move_to_mask]

theorem rectangle_saves (c : canvas) (x y w hgt : ℚ) :
    (rectangle c x y w hgt).saves = c.saves := by
  unfold rectangle
  simp only [close_path_saves, line_to_saves, move_to_saves]

theorem lines_to_runs_mask (fuel : ℕ) (c : canvas) (offset : xy)
    (padding : ℕ) : (lines_to_runs fuel c offset padding).mask = c.mask :=
  rfl

theorem lines_to_runs_saves (fuel : ℕ) (c : canvas) (offset : xy)
    (padding : ℕ) : (lines_to_runs fuel c offset padding).saves = c.saves :=
  rfl

theorem render_shadow_mask (mf : MathFns) (fuel : ℕ) (c : canvas)
    (brush : paint_brush) (im : Bool) :
    (render_shadow mf fuel c brush im).mask = c.mask := by
  unfold render_shadow
  split
  · rfl
  · rfl

theorem render_shadow_saves (mf : MathFns) (fuel : ℕ) (c : canvas)
    (brush : paint_brush) (im : Bool) :
    (render_shadow mf fuel c brush im).saves = c.saves := by
  unfold render_shadow
  split
  · rfl
  · rfl

theorem render_main_mask (mf : MathFns) (fuel : ℕ) (c : canvas)
    (brush : paint_brush) (im : Bool) :
    (render_main mf fuel c brush im).mask = c.mask := by
  unfold render_main
  split
  · rfl
  · dsimp only
    rw [lines_to_runs_mask, render_shadow_mask]

theorem render_main_saves (mf : MathFns) (fuel : ℕ) (c : canvas)
    (brush : paint_brush) (im : Bool) :
    (render_main mf fuel c brush im).saves = c.saves := by
  unfold render_main
  split
  · rfl
  · dsimp only
    rw [lines_to_runs_saves, render_shadow_saves]

theorem dash_lines_mask (mf : MathFns) (fuel : ℕ) (c : canvas) :
    (dash_lines mf fuel c).mask = c.mask := by
  unfold dash_lines
  split <;> rfl

theorem dash_lines_saves (mf : MathFns) (fuel : ℕ) (c : canvas) :
    (dash_lines mf fuel c).saves = c.saves := by
  unfold dash_lines
  split <;> rfl

theorem stroke_lines_mask (mf : MathFns) (fuel : ℕ) (c : canvas) :
    (stroke_lines mf fuel c).mask = c.mask := by
  unfold stroke_lines
  split
  · rfl
  · exact dash_lines_mask mf fuel c

theorem stroke_lines_saves (mf : MathFns) (fuel : ℕ) (c : canvas) :
    (stroke_lines mf fuel c).saves = c.saves := by
  unfold stroke_lines
  split
  · rfl
  · exact dash_lines_saves mf fuel c

theorem set_pattern_mask (mf : MathFns) (c : canvas) (t : brush_type)
    (image : List ℕ) (w h s r : ℕ) :
    (set_pattern mf c t image w h s r).mask = c.mask := by
  unfold set_pattern
  split
  · rfl
  · cases t <;> rfl

theorem set_pattern_saves (mf : MathFns) (c : canvas) (t : brush_type)
    (image : List ℕ) (w h s r : ℕ) :
    (set_pattern mf c t image w h s r).saves = c.saves := by
  unfold set_pattern
  split
  · rfl
  · cases t <;> rfl

theorem fill_mask (mf : MathFns) (fuel : ℕ) (c : canvas) :
    (fill mf fuel c).mask = c.mask := by
  unfold fill
  dsimp only
  rw [render_main_mask]

theorem fill_saves (mf : MathFns) (fuel : ℕ) (c : canvas) :
    (fill mf fuel c).saves = c.saves := by
  unfold fill
  dsimp only
  rw [render_main_saves]

theorem stroke_mask (mf : MathFns) (fuel : ℕ) (c : canvas) :
    (stroke mf fuel c).mask = c.mask := by
  unfold stroke
  dsimp only
  rw [render_main_mask, stroke_lines_mask]

theorem stroke_saves (mf : MathFns) (fuel : ℕ) (c : canvas) :
    (stroke mf fuel c).saves = c.saves := by
  unfold stroke
  dsimp only
  rw [render_main_saves, stroke_lines_saves]

theorem fill_rectangle_mask (mf : MathFns) (fuel : ℕ) (c : canvas)
    (x y w h : ℚ) : (fill_rectangle mf fuel c x y w h).mask = c.mask := by
  unfold fill_rectangle
  split
  · rfl
  · dsimp only
    rw [render_main_mask]

theorem fill_rectangle_saves (mf : MathFns) (fuel : ℕ) (c : canvas)
    (x y w h : ℚ) : (fill_rectangle mf fuel c x y w h).saves = c.saves := by
  unfold fill_rectangle
  split
  · rfl
  · dsimp only
    rw [render_main_saves]

theorem stroke_rectangle_mask (mf : MathFns) (fuel : ℕ) (c : canvas)
    (x y w h : ℚ) : (stroke_rectangle mf fuel c x y w h).mask = c.mask := by
  unfold stroke_rectangle
  split
  · rfl
  · dsimp only
    rw [render_main_mask, stroke_lines_mask]

theorem stroke_rectangle_saves (mf : MathFns) (fuel : ℕ) (c : canvas)
    (x y w h : ℚ) :
    (stroke_rectangle mf fuel c x y w h).saves = c.saves := by
  unfold stroke_rectangle
  split
  · rfl
  · dsimp only
    rw [render_main_saves, stroke_lines_saves]

theorem clear_rectangle_mask (mf : MathFns) (fuel : ℕ) (c : canvas)
    (x y w h : ℚ) : (clear_rectangle mf fuel c x y w h).mask = c.mask := by
  unfold clear_rectangle
  dsimp only
  show (fill_rectangle mf fuel _ _ _ _ _).mask = c.mask
  rw [fill_rectangle_mask]

theorem clear_rectangle_saves (mf : MathFns) (fuel : ℕ) (c : canvas)
    (x y w h : ℚ) :
    (clear_rectangle mf fuel c x y w h).saves = c.saves := by
  unfold clear_rectangle
  dsimp only
  show (fill_rectangle mf fuel _ _ _ _ _).saves = c.saves
  rw [fill_rectangle_saves]

theorem fill_text_mask (mf : MathFns) (fuel : ℕ) (c : canvas)
    (text : List ℕ) (x y mw : ℚ) :
    (fill_text mf fuel c text x y mw).mask = c.mask := by
  unfold fill_text
  dsimp only
  rw [render_main_mask]

theorem fill_text_saves (mf : MathFns) (fuel : ℕ) (c : canvas)
    (text : List ℕ) (x y mw : ℚ) :
    (fill_text mf fuel c text x y mw).saves = c.saves := by
  unfold fill_text
  dsimp only
  rw [render_main_saves]

theorem stroke_text_mask (mf : MathFns) (fuel : ℕ) (c : canvas)
    (text : List ℕ) (x y mw : ℚ) :
    (stroke_text mf fuel c text x y mw).mask = c.mask := by
  unfold stroke_text
  dsimp only
  rw [render_main_mask, stroke_lines_mask]

theorem stroke_text_saves (mf : MathFns) (fuel : ℕ) (c : canvas)
    (text : List ℕ) (x y mw : ℚ) :
    (stroke_text mf fuel c text x y mw).saves = c.saves := by
  unfold stroke_text
  dsimp only
  rw [render_main_saves, stroke_lines_saves]

theorem draw_image_mask (mf : MathFns) (fuel : ℕ) (c : canvas)
    (image : List ℕ) (w h s : ℕ) (x y tw th : ℚ) :
    (draw_image mf fuel c image w h s x y tw th).mask = c.mask := by
  unfold draw_image
  split
  · rfl
  · dsimp only
    rw [render_main_mask]
    show (set_pattern mf _ _ _ _ _ _ _).mask = c.mask
    rw [set_pattern_mask]

theorem draw_image_saves (mf : MathFns) (fuel : ℕ) (c : canvas)
    (image : List ℕ) (w h s : ℕ) (x y tw th : ℚ) :
    (draw_image mf fuel c image w h s x y tw th).saves = c.saves := by
  unfold draw_image
  split
  · rfl
  · dsimp only
    rw [render_main_saves]
    show (set_pattern mf _ _ _ _ _ _ _).saves = c.saves
    rw [set_pattern_saves]

theorem initial_mask_inv (w : ℕ) (hw1 : 1 ≤ w) (hw2 : w < 65536) :
    ∀ h : ℕ, mask_inv (initial_mask w h) ∧
      (∀ b, (initial_mask w h).getLast? = some b → b.y < h) := by
  intro h
  induction h with
  | zero =>
      refine ⟨List.chain'_nil, ?_⟩
      intro b hb
      simp [initial_mask] at hb
  | succ m ih =>
      obtain ⟨hmi, hlast⟩ := ih
      constructor
      · show mask_inv (initial_mask w m ++
          [(⟨0, m, 1⟩ : pixel_run), ⟨w % 65536, m, -1⟩])
        rw [mask_inv, List.chain'_append]
        refine ⟨hmi, ?_, ?_⟩
        · refine List.chain'_cons.mpr ⟨?_, List.chain'_singleton _⟩
          rw [pk_lt_iff]
          right
          refine ⟨rfl, ?_⟩
          show (0 : ℕ) < w % 65536
          rw [Nat.mod_eq_of_lt hw2]
          omega
        · intro x hx yy hyy
          simp only [List.head?_cons, Option.mem_def, Option.some.injEq] at hyy
          have hxy := hlast x hx
          rw [← hyy, pk_lt_iff]
          left
          exact hxy
      · intro b hb
        have he : initial_mask w (m + 1) =
            (initial_mask w m ++ [(⟨0, m, 1⟩ : pixel_run)]) ++
              [(⟨w % 65536, m, -1⟩ : pixel_run)] := by
          show initial_mask w m ++
            [(⟨0, m, 1⟩ : pixel_run), ⟨w % 65536, m, -1⟩] = _
          simp
        rw [he, List.getLast?_concat] at hb
        obtain rfl := Option.some.inj hb
        exact Nat.lt_succ_self m

theorem apply_mask_inv (mf : MathFns) (fuel : ℕ) (o : Op) (c : canvas)
    (h : canvas_mask_inv c) : canvas_mask_inv (apply mf fuel o c) := by
  cases o
  case assign_global_composite_operation v => exact h
  case assign_shadow_offset_x v => exact h
  case assign_shadow_offset_y v => exact h
  case assign_line_cap v => exact h
  case assign_line_join v => exact h
  case assign_line_dash_offset v => exact h
  case assign_text_align v => exact h
  case assign_text_baseline v => exact h
  case op_scale x y => exact h
  case op_rotate angle => exact h
  case op_translate x y => exact h
  case op_transform a b cc d e f => exact h
  case op_set_transform a b cc d e f => exact h
  case op_set_global_alpha alpha =>
    show canvas_mask_inv (set_global_alpha c alpha)
    unfold set_global_alpha
    split <;> exact h
  case op_set_shadow_color r g b a => exact h
  case op_set_shadow_blur level =>
    show canvas_mask_inv (set_shadow_blur c level)
    unfold set_shadow_blur
    split <;> exact h
  case op_set_line_width width =>
    show canvas_mask_inv (set_line_width c width)
    unfold set_line_width
    split <;> exact h
  case op_set_miter_limit limit =>
    show canvas_mask_inv (set_miter_limit c limit)
    unfold set_miter_limit
    split <;> exact h
  case op_set_line_dash segments =>
    show canvas_mask_inv (set_line_dash c segments)
    unfold set_line_dash
    split <;> exact h
  case op_set_color t r g b a =>
    show canvas_mask_inv (set_color mf c t r g b a)
    cases t <;> exact h
  case op_set_linear_gradient t sx sy ex ey =>
    show canvas_mask_inv (set_linear_gradient c t sx sy ex ey)
    cases t <;> exact h
  case op_set_radial_gradient t sx sy sr ex ey er =>
    show canvas_mask_inv (set_radial_gradient c t sx sy sr ex ey er)
    unfold set_radial_gradient
    split
    · exact h
    · cases t <;> exact h
  case op_add_color_stop t off r g b a =>
    show canvas_mask_inv (add_color_stop mf c t off r g b a)
    unfold add_color_stop
    dsimp only
    split
    · exact h
    · cases t <;> exact h
  case op_set_pattern t image w hh s r =>
    exact canvas_mask_inv_of_eq c _ (set_pattern_mask mf c t image w hh s r)
      (set_pattern_saves mf c t image w hh s r) h
  case op_set_font font bytes size =>
    show canvas_mask_inv (set_font c font bytes size).1
    unfold set_font
    dsimp only
    split
    · exact h
    · split <;> exact h
  case op_begin_path => exact h
  case op_move_to x y =>
    exact canvas_mask_inv_of_eq c _ (move_to_mask c x y)
      (move_to_saves c x y) h
  case op_close_path =>
    exact canvas_mask_inv_of_eq c _ (close_path_mask c) (close_path_saves c) h
  case op_line_to x y =>
    exact canvas_mask_inv_of_eq c _ (line_to_mask c x y)
      (line_to_saves c x y) h
  case op_quadratic_curve_to cx cy x y =>
    exact canvas_mask_inv_of_eq c _ (quadratic_curve_to_mask c cx cy x y)
      (quadratic_curve_to_saves c cx cy x y) h
  case op_bezier_curve_to c1x c1y c2x c2y x y =>
    exact canvas_mask_inv_of_eq c _
      (bezier_curve_to_mask c c1x c1y c2x c2y x y)
      (bezier_curve_to_saves c c1x c1y c2x c2y x y) h
  case op_arc_to vx vy x y radius =>
    exact canvas_mask_inv_of_eq c _ (arc_to_mask mf c vx vy x y radius)
      (arc_to_saves mf c vx vy x y radius) h
  case op_arc x y radius a1 a2 ccw =>
    exact canvas_mask_inv_of_eq c _ (arc_mask mf c x y radius a1 a2 ccw)
      (arc_saves mf c x y radius a1 a2 ccw) h
  case op_rectangle x y w hh =>
    exact canvas_mask_inv_of_eq c _ (rectangle_mask c x y w hh)
      (rectangle_saves c x y w hh) h
  case op_fill =>
    exact canvas_mask_inv_of_eq c _ (fill_mask mf fuel c)
      (fill_saves mf fuel c) h
  case op_stroke =>
    exact canvas_mask_inv_of_eq c _ (stroke_mask mf fuel c)
      (stroke_saves mf fuel c) h
  case op_clip =>
    obtain ⟨hm, hs⟩ := h
    show canvas_mask_inv (clip mf fuel c)
    unfold clip
    dsimp only
    refine ⟨?_, ?_⟩
    · apply clip_loop_mask_inv
      · show mask_inv (merge_runs _)
        exact merge_runs_mask_inv _
      · show mask_inv c.mask
        exact hm
      · exact List.chain'_nil
      · intro b hb
        exact absurd hb (by simp)
    · show ∀ s ∈ c.saves, mask_inv s.mask
      exact hs
  case op_is_point_in_path x y =>
    show canvas_mask_inv (is_point_in_path mf c x y).1
    unfold is_point_in_path
    dsimp only
    split <;> exact h
  case op_clear_rectangle x y w hh =>
    exact canvas_mask_inv_of_eq c _ (clear_rectangle_mask mf fuel c x y w hh)
      (clear_rectangle_saves mf fuel c x y w hh) h
  case op_fill_rectangle x y w hh =>
    exact canvas_mask_inv_of_eq c _ (fill_rectangle_mask mf fuel c x y w hh)
      (fill_rectangle_saves mf fuel c x y w hh) h
  case op_stroke_rectangle x y w hh =>
    exact canvas_mask_inv_of_eq c _ (stroke_rectangle_mask mf fuel c x y w hh)
      (stroke_rectangle_saves mf fuel c x y w hh) h
  case op_fill_text text x y mw =>
    exact canvas_mask_inv_of_eq c _ (fill_text_mask mf fuel c text x y mw)
      (fill_text_saves mf fuel c text x y mw) h
  case op_stroke_text text x y mw =>
    exact canvas_mask_inv_of_eq c _ (stroke_text_mask mf fuel c text x y mw)
      (stroke_text_saves mf fuel c text x y mw) h
  case op_draw_image image w hh s x y tw th =>
    exact canvas_mask_inv_of_eq c _
      (draw_image_mask mf fuel c image w hh s x y tw th)
      (draw_image_saves mf fuel c image w hh s x y tw th) h
  case op_put_image_data image w hh s x y => exact h
  case op_save =>
    obtain ⟨hm, hs⟩ := h
    show canvas_mask_inv (save c)
    refine ⟨hm, ?_⟩
    intro s hmem
    rcases List.mem_cons.mp hmem with he | h'
    · rw [he]
      exact hm
    · exact hs s h'
  case op_restore =>
    obtain ⟨hm, hs⟩ := h
    show canvas_mask_inv (restore c)
    unfold restore
    cases hsv : c.saves with
    | nil => exact ⟨hm, hs⟩
    | cons st rest =>
        refine ⟨?_, ?_⟩
        · exact hs st (by rw [hsv]; exact List.mem_cons_self st rest)
        · intro s hmem
          exact hs s (by rw [hsv]; exact List.mem_cons_of_mem st hmem)

theorem applyList_mask_inv (mf : MathFns) (fuel : ℕ) (ops : List Op) :
    ∀ c, canvas_mask_inv c → canvas_mask_inv (applyList mf fuel ops c) := by
  induction ops with
  | nil => intro c h; exact h
  | cons o rest ih =>
      intro c h
      exact ih (apply mf fuel o c) (apply_mask_inv mf fuel o c h)

theorem mask_inv_runs_sorted (l : List pixel_run) (h : mask_inv l) :
    runs_sorted l = true := by
  induction l with
  | nil => rfl
  | cons a t ih =>
      cases t with
      | nil => rfl
      | cons b r =>
          have h1 := List.chain'_cons.mp h
          have hlt : run_lt b a = false := by
            rw [Bool.eq_false_iff]
            intro hT
            exact absurd (rk_lt_of_pk_lt a b h1.1)
              (lt_asymm ((run_lt_iff b a).mp hT))
          unfold runs_sorted
          rw [hlt, ih h1.2]
          rfl

theorem mask_inv_runs_unique (l : List pixel_run) (h : mask_inv l) :
    runs_unique l = true := by
  induction l with
  | nil => rfl
  | cons a t ih =>
      have hpw := mask_inv_cons_mem a t h
      unfold runs_unique
      rw [ih (mask_inv_tail a t h), Bool.and_true, List.all_eq_true]
      intro b hb
      have hlt := hpw b hb
      have hne : ¬(b.x = a.x ∧ b.y = a.y) := by
        intro he
        rw [pk_lt_iff] at hlt
        rcases hlt with hy | ⟨hy, hx⟩
        · omega
        · omega
      simp only [Bool.not_eq_true', Bool.and_eq_false_iff,
        decide_eq_false_iff_not]
      by_cases hbx : b.x = a.x
      · right
        intro hby
        exact hne ⟨hbx, hby⟩
      · left
        exact hbx

/-- Counterexample to claim C4 as stated: filling a thin centered
triangle on a 4x4 canvas emits the run list
[(1,0,0), (2,0,0), (1,1,0), (2,1,0)], whose entry (2,0,0) is a
zero-delta run that is not the first run of its row, so the claimed
zero-delta clause fails (sortedness and uniqueness do hold here). -/
theorem C4_counterexample :
    runs_claim_invariant (applyList mf0 1000 [Op.op_move_to (5/4) 0,
      Op.op_line_to (5/4) 2, Op.op_close_path, Op.op_fill]
      (canvas_new mf0 4 4)).runs = false := by
  decide

/-- Claim C4 (amended): every run list emitted by the sort-and-coalesce
pass of lines_to_runs is sorted by (y, x, |delta|) and contains no two
entries with the same (x, y); and after any operation sequence on a
canvas whose width is in [1, 65535], the clip mask is likewise sorted
with no duplicate (x, y).  (The original claim's zero-delta clause is
dropped: coalescing can leave a zero-delta run that is not the first of
its row.) -/
theorem C4_run_invariants :
    (∀ l : List pixel_run, runs_sorted (merge_runs l) = true ∧
      runs_unique (merge_runs l) = true) ∧
    (∀ (mf : MathFns) (fuel w h : ℕ) (ops : List Op), 1 ≤ w → w < 65536 →
      runs_sorted (applyList mf fuel ops (canvas_new mf w h)).mask = true ∧
      runs_unique (applyList mf fuel ops (canvas_new mf w h)).mask =
        true) := by
  constructor
  · intro l
    exact ⟨mask_inv_runs_sorted _ (merge_runs_mask_inv l),
      mask_inv_runs_unique _ (merge_runs_mask_inv l)⟩
  · intro mf fuel w h ops hw1 hw2
    have hnew : canvas_mask_inv (canvas_new mf w h) := by
      refine ⟨?_, ?_⟩
      · show mask_inv (initial_mask w h)
        exact (initial_mask_inv w hw1 hw2 h).1
      · intro s hs
        exact absurd hs (List.not_mem_nil s)
    have hfin := applyList_mask_inv mf fuel ops (canvas_new mf w h) hnew
    exact ⟨mask_inv_runs_sorted _ hfin.1, mask_inv_runs_unique _ hfin.1⟩

/-- Witness for the amended C4 at a concrete input: a clip on a fresh
3x2 canvas keeps the mask sorted and duplicate-free. -/
theorem C4_run_invariants_witness :
    runs_sorted (applyList mf0 5 [Op.op_clip]
      (canvas_new mf0 3 2)).mask = true ∧
    runs_unique (applyList mf0 5 [Op.op_clip]
      (canvas_new mf0 3 2)).mask = true :=
  C4_run_invariants.2 mf0 5 3 2 [Op.op_clip] (by decide) (by decide)

end CanvasIty
